import Mathlib

/-! # Bolt `sort_by_key`: dispatch and accelerator engine

A shallow embedding of `bolt/cl/detail/sort_by_key.inl`.

* Machine integers are natural numbers with explicit wrap-around
  (`size_t` is taken to be 64 bits wide).
* A C++ call that can throw returns an `Except Error Unit` together with the
  world it leaves behind: side effects made before a `throw` persist.
* The accelerator platform (kernel compiler, kernel execution, status codes of
  the OpenCL calls) is a parameter, `Platform`.
-/

namespace bolt.cl

/-! ## Constants -/

/-- The macro `WGSIZE` of `sort_by_key.inl`. -/
def WGSIZE : Nat := 64

/-- OpenCL status `CL_SUCCESS`. -/
def CL_SUCCESS : Int := 0

/-- OpenCL status `CL_INVALID_DEVICE`. -/
def CL_INVALID_DEVICE : Int := -33

/-- OpenCL status `CL_INVALID_BUFFER_SIZE`. -/
def CL_INVALID_BUFFER_SIZE : Int := -61

/-- Number of values of a `size_t`. -/
def SIZE_T_RANGE : Nat := 2 ^ 64

/-- The conversion `(size_t)(keys_last - keys_first)` of an element count. -/
def to_size_t (n : Nat) : Nat := n % SIZE_T_RANGE

/-- The `size_t` subtraction `szElements - 1`, which wraps at zero. -/
def size_t_pred (szElements : Nat) : Nat := (szElements + SIZE_T_RANGE - 1) % SIZE_T_RANGE

/-- The engine's size test `((szElements-1) & (szElements)) != 0`. -/
def notPowerOfTwoTest (szElements : Nat) : Bool :=
  (size_t_pred szElements &&& szElements) != 0

/-- The cast `(int)szElements` to a 32-bit signed integer. -/
def int_cast (n : Nat) : Int :=
  if n % 2 ^ 32 < 2 ^ 31 then ((n % 2 ^ 32 : Nat) : Int) else ((n % 2 ^ 32 : Nat) : Int) - 2 ^ 32

/-- The conversion of an `int` back to `size_t` on assignment to `wgSize`. -/
def size_t_of_int (i : Int) : Nat := (i % (SIZE_T_RANGE : Int)).toNat

/-! ## Errors -/

/-- The exceptions a call can leave with, by origin.
`cl err what` is a `throw ::cl::Error( err, what )` written in `sort_by_key.inl`,
or one of the OpenCL wrapper where the wrapper's exceptions are modelled.
`V_OPENCL` and `compile` come from code that is not among the sources, see
`V_OPENCL` and `CallCompiler_SortByKey.constructAndCompile` below. -/
inductive Error where
  | cl (err : Int) (what : String)
  | V_OPENCL (status : Int) (message : String)
  | compile (diagnostic : String)
  deriving DecidableEq

/-- The error thrown by the engine's size check. -/
def unsupportedSizeError : Error :=
  .cl CL_INVALID_BUFFER_SIZE "Currently the sort_by_key routine supports only power of 2 buffer size"

/-- The error thrown by the device_vector dispatcher for `SerialCpu`. -/
def serialCpuDeviceVectorError : Error :=
  .cl CL_INVALID_DEVICE "Sort of device_vector CPU device not implemented"

/-- The error thrown by the device_vector dispatcher for `MultiCoreCpu`. -/
def multiCoreCpuDeviceVectorError : Error :=
  .cl CL_INVALID_DEVICE
    "The BOLT sort routine device_vector does not support non power of 2 buffer size."

instance : DecidableEq (Except Error Unit) := fun a b =>
  match a, b with
  | .ok (), .ok () => isTrue rfl
  | .error e, .error f =>
    if h : e = f then isTrue (by rw [h]) else isFalse (fun h' => h (by cases h'; rfl))
  | .ok _, .error _ => isFalse (fun h => by cases h)
  | .error _, .ok _ => isFalse (fun h => by cases h)

/-- Modelled from the spec: the macro `V_OPENCL( status, message )` is defined in
`bolt/cl/bolt.h`, which is not among the sources. Following the spec's
`DeviceRuntimeError` ("carries the platform error code and the offending
operation name") it throws unless the status is `CL_SUCCESS`. -/
def V_OPENCL (status : Int) (message : String) : Except Error Unit :=
  if status = CL_SUCCESS then .ok () else .error (.V_OPENCL status message)

/-! ## Control, type traits, platform -/

/-- Modelled from the spec: `control::e_RunMode` is declared in
`bolt/cl/control.h`, which is not among the sources. The source names
`SerialCpu` and `MultiCoreCpu`; the spec adds the accelerator mode, and the
default is a mode that is neither host mode. -/
inductive e_RunMode where
  | Automatic
  | SerialCpu
  | MultiCoreCpu
  | OpenCL
  deriving DecidableEq

/-- Modelled from the spec: the part of `bolt::cl::control` the source reads
(`forceRunMode()`, `device()`, `wgPerComputeUnit()`); the class itself is
declared in `bolt/cl/control.h`, which is not among the sources. -/
structure control where
  forceRunMode : e_RunMode
  device : Nat
  wgPerComputeUnit : Nat
  deriving DecidableEq

/-- The two traits of a type: `TypeName<T>::get()` and `ClCode<T>::get()`. -/
structure TypeTraits where
  TypeName : String
  ClCode : String
  deriving DecidableEq

/-- A comparator object: its call operator and the traits of its type. -/
structure StrictWeakOrdering (K : Type) where
  call : K → K → Bool
  traits : TypeTraits

/-- A compiled kernel handle (`::cl::Kernel`). -/
structure Kernel where
  handle : Nat
  deriving DecidableEq

/-- The two data buffers of a call. -/
inductive BufferName where
  | Keys
  | Values
  deriving DecidableEq

/-- A value bound to a kernel argument by `setArg`. -/
inductive KernelArg where
  | buffer (b : BufferName)
  | userFunctor
  | uint (n : Nat)
  deriving DecidableEq

/-- The arguments `constructAndCompile` hands to `constructAndCompileString`. -/
structure CompileRequest where
  kernelName : String
  instantiationString : String
  userCode : String
  valueTypeName : String
  functorTypeName : String
  ctl : control
  deriving DecidableEq

/-- The platform operations a call issues, in the order they are logged. -/
inductive Op where
  | device_vector (b : BufferName)
  | constructAndCompileString (req : CompileRequest)
  | getWorkGroupInfo
  | createUserFunctorBuffer
  | setArg (index : Nat) (arg : KernelArg)
  | enqueueNDRangeKernel (k : Option Kernel) (globalSize localSize : Nat)
  | finish
  | enqueueMapBuffer (b : BufferName)
  | data (b : BufferName)
  deriving DecidableEq

/-- The accelerator platform, which lies outside the repository: what the
kernel compiler returns, the preferred work-group-size multiple of a kernel
with its status, the status code of every other operation given the operations
issued before it, and what one launch of a kernel does to the two buffers.
A platform call reports a failure through its status code, which is how the
source reads it (`V_OPENCL( k.setArg(..), .. )`, `&l_Error`); what the OpenCL
wrapper does with a failing status before the source reads it is not part of
the platform. -/
structure Platform (K V : Type) where
  compile : CompileRequest → Except String Kernel
  getWorkGroupInfo : Option Kernel → Nat → Nat × Int
  status : List Op → Op → Int
  runKernel : Option Kernel → (K → K → Bool) → Nat → Nat → Nat → Nat →
    List K × List V → List K × List V

/-- The state a call reads and writes: the key and value ranges, standard
output, the log of platform operations, and the two function-local statics of
`sort_by_key_enqueue` (`initOnlyOnce`, `masterKernel`; `none` is the
default-constructed kernel). -/
structure World (K V : Type) where
  keys : List K
  values : List V
  cout : List String
  log : List Op
  initOnlyOnce : Bool
  masterKernel : Option Kernel
  deriving DecidableEq

/-- How a `void` call ends, with the world it leaves. -/
abbrev Outcome (K V : Type) := Except Error Unit × World K V

section Engine

variable {K V : Type}

/-- Append an operation to the log. -/
def World.issue (w : World K V) (op : Op) : World K V :=
  { w with log := w.log ++ [op] }

/-- Write a line to `std::cout`. -/
def World.print (w : World K V) (line : String) : World K V :=
  { w with cout := w.cout ++ [line] }

/-- Sequencing: the continuation runs only if the first part returned. -/
def Outcome.andThen (r : Outcome K V) (f : World K V → Outcome K V) : Outcome K V :=
  match r with
  | (.ok (), w) => f w
  | (.error e, w) => (.error e, w)

/-- The pattern `V_OPENCL( <platform call>, message )`. -/
def checkedCall (P : Platform K V) (op : Op) (message : String) (w : World K V) :
    Outcome K V :=
  (V_OPENCL (P.status w.log op) message, w.issue op)

/-! ## `CallCompiler_SortByKey::constructAndCompile` and the once-only compile -/

/-- The local `instantiationString` of `constructAndCompile`. -/
def instantiationString (keysTypeName valuesTypeName compareTypeName : String) : String :=
  "// Host generates this instantiation string with user-specified value type and functor\n"
  ++ "template __attribute__((mangled_name(sort_by_keyInstantiated)))\n"
  ++ "kernel void sortByKeyTemplate(\n"
  ++ "global " ++ keysTypeName ++ "* keys,\n"
  ++ "global " ++ valuesTypeName ++ "* values,\n"
  ++ "const uint stage,\n"
  ++ "const uint passOfStage,\n"
  ++ "global " ++ compareTypeName ++ " * userComp\n"
  ++ ");\n\n"

/-- Modelled from the spec: `bolt::cl::constructAndCompileString` is called by
`constructAndCompile` and defined outside the sources. Following the spec's
`DeviceCompileError` ("kernel source failed to compile; carries the diagnostic
text and the `CompilationKey`") the request goes to the platform compiler
(`Platform.compile`, which stands for the catalog text `sort_by_key_kernels` as
well), a kernel is stored in `masterKernel`, and a compiler diagnostic is thrown
as a compile error. -/
def constructAndCompileString (P : Platform K V) (req : CompileRequest) (w : World K V) :
    Outcome K V :=
  let w1 := w.issue (.constructAndCompileString req)
  match P.compile req with
  | .ok k => (.ok (), { w1 with masterKernel := some k })
  | .error diagnostic => (.error (.compile diagnostic), w1)

/-- The static member `CallCompiler_SortByKey::constructAndCompile`: it builds the
instantiation string and calls `bolt::cl::constructAndCompileString` with the
kernel name, the instantiation string, the user code, the name of the key type
and the name of the comparator type. -/
def CallCompiler_SortByKey.constructAndCompile (P : Platform K V)
    (cl_code_dataType keysTypeName valuesTypeName compareTypeName : String)
    (ctl : control) (w : World K V) : Outcome K V :=
  constructAndCompileString P
    { kernelName := "sort_by_key"
      instantiationString := instantiationString keysTypeName valuesTypeName compareTypeName
      userCode := cl_code_dataType
      valueTypeName := keysTypeName
      functorTypeName := compareTypeName
      ctl := ctl } w

/-- The library call `boost::call_once( initOnlyOnce, f )`: `f` runs only while
the flag is unset, and the flag is set only when `f` returns. -/
def call_once (f : World K V → Outcome K V) (w : World K V) : Outcome K V :=
  if w.initOnlyOnce then (.ok (), w)
  else
    match f w with
    | (.ok (), w1) => (.ok (), { w1 with initOnlyOnce := true })
    | (.error e, w1) => (.error e, w1)

/-! ## `sort_by_key_enqueue` -/

/-- The loop `for(temp = szElements; temp > 1; temp >>= 1) ++numStages;`.
The first argument bounds the number of iterations; 64 is enough for a
`size_t`. -/
def numStagesLoop : Nat → Nat → Nat → Nat
  | 0, _, numStages => numStages
  | fuel + 1, temp, numStages =>
    if temp > 1 then numStagesLoop fuel (temp >>> 1) (numStages + 1) else numStages

/-- The clamp `if((szElements/2) < wgSize) wgSize = (int)szElements/2;`. -/
def clampWgSize (szElements wgSize : Nat) : Nat :=
  if szElements / 2 < wgSize then size_t_of_int (Int.tdiv (int_cast szElements) 2) else wgSize

/-- The statement pair `l_Error = ctl.commandQueue().enqueueNDRangeKernel( k, NullRange,
NDRange(szElements/2), NDRange(wgSize), NULL, NULL ); V_OPENCL( l_Error, ... );`
with `stage` and `passOfStage` the values bound to arguments 2 and 3. A launch
the platform accepts runs the kernel on the two buffers. -/
def launchKernel (P : Platform K V) (k : Option Kernel) (comp : K → K → Bool)
    (szElements wgSize stage passOfStage : Nat) (w : World K V) : Outcome K V :=
  let op := Op.enqueueNDRangeKernel k (szElements / 2) wgSize
  let l_Error := P.status w.log op
  let w1 := w.issue op
  let ran := P.runKernel k comp stage passOfStage (szElements / 2) wgSize (w1.keys, w1.values)
  let w2 := if l_Error = CL_SUCCESS then { w1 with keys := ran.1, values := ran.2 } else w1
  (V_OPENCL l_Error "enqueueNDRangeKernel() failed for sort() kernel", w2)

/-- The inner loop `for(passOfStage = 0; passOfStage < stage + 1; ++passOfStage)`,
from the given `passOfStage` on. The first argument bounds the number of
iterations left. -/
def passLoop (P : Platform K V) (k : Option Kernel) (comp : K → K → Bool)
    (szElements wgSize stage : Nat) : Nat → Nat → World K V → Outcome K V
  | 0, _, w => (.ok (), w)
  | fuel + 1, passOfStage, w =>
    if passOfStage < stage + 1 then
      (checkedCall P (.setArg 3 (.uint passOfStage)) "Error setting a kernel argument" w).andThen
      fun w1 =>
        (launchKernel P k comp szElements wgSize stage passOfStage w1).andThen
        fun w2 =>
          (checkedCall P .finish "Error calling finish on the command queue" w2).andThen
          fun w3 => passLoop P k comp szElements wgSize stage fuel (passOfStage + 1) w3
    else (.ok (), w)

/-- The outer loop `for(stage = 0; stage < numStages; ++stage)`, from the given
`stage` on. The first argument bounds the number of iterations left. -/
def stageLoop (P : Platform K V) (k : Option Kernel) (comp : K → K → Bool)
    (szElements wgSize numStages : Nat) : Nat → Nat → World K V → Outcome K V
  | 0, _, w => (.ok (), w)
  | fuel + 1, stage, w =>
    if stage < numStages then
      (checkedCall P (.setArg 2 (.uint stage)) "Error setting a kernel argument" w).andThen
      fun w1 =>
        (passLoop P k comp szElements wgSize stage (stage + 1) 0 w1).andThen
        fun w2 => stageLoop P k comp szElements wgSize numStages fuel (stage + 1) w2
    else (.ok (), w)

/-- The message the engine prints before it rejects a size. -/
def unsupportedSizeNotice : String :=
  "There is no use supporting selection sort for the sort_by_key routine.\n"
  ++ " Hence only power of 2 buffer sizes work.\n"
  ++ " non power of 2 buffer sizes will be supported once radix-sort is working\n"

/-- The accelerator engine `sort_by_key_enqueue`. The queries of
`CL_DEVICE_MAX_COMPUTE_UNITS` and `wgPerComputeUnit` compute a `resultCnt` that
is never read and are left out. The two final `enqueueMapBuffer` calls write
their status to the same `l_Error`, which is read once, after the second call:
the status of the map of `Keys` is overwritten before anything reads it. -/
def sort_by_key_enqueue (P : Platform K V) (T_keys T_values : TypeTraits) (ctl : control)
    (comp : StrictWeakOrdering K) (cl_code : String) (w : World K V) : Outcome K V :=
  let szElements := to_size_t w.keys.length
  if notPowerOfTwoTest szElements then
    (.error unsupportedSizeError, w.print unsupportedSizeNotice)
  else
    (call_once
      (CallCompiler_SortByKey.constructAndCompile P
        (cl_code ++ T_keys.ClCode ++ T_values.ClCode)
        T_keys.TypeName T_values.TypeName comp.traits.TypeName ctl) w).andThen
    fun w1 =>
      let info := P.getWorkGroupInfo w1.masterKernel ctl.device
      Outcome.andThen
        (V_OPENCL info.2 "Error querying kernel for CL_KERNEL_PREFERRED_WORK_GROUP_SIZE_MULTIPLE",
          w1.issue .getWorkGroupInfo)
      fun w2 =>
        let wgSize := clampWgSize szElements (to_size_t info.1)
        let w3 := w2.issue .createUserFunctorBuffer
        let k := w3.masterKernel
        let numStages := numStagesLoop 64 szElements 0
        (checkedCall P (.setArg 0 (.buffer .Keys)) "Error setting a kernel argument" w3).andThen
        fun w4 =>
          (checkedCall P (.setArg 1 (.buffer .Values)) "Error setting a kernel argument"
            w4).andThen
          fun w5 =>
            (checkedCall P (.setArg 4 .userFunctor) "Error setting a kernel argument" w5).andThen
            fun w6 =>
              (stageLoop P k comp.call szElements wgSize numStages numStages 0 w6).andThen
              fun w7 =>
                let w8 := w7.issue (.enqueueMapBuffer .Keys)
                let l_Error := P.status w8.log (.enqueueMapBuffer .Values)
                let w9 := w8.issue (.enqueueMapBuffer .Values)
                (V_OPENCL l_Error "Error calling map on the result buffer", w9)

end Engine

/-! ## Dispatch -/

section Dispatch

variable {K V : Type} [LinearOrder K]

/-- The library call `std::sort(keys_first, keys_last)`: ascending under the key
type's `operator<`. -/
def std_sort (keys : List K) : List K := keys.insertionSort (· ≤ ·)

/-- The device_vector specialization of `sort_by_key_pick_iterator`. -/
def sort_by_key_pick_iterator_device_vector (P : Platform K V) (T_keys T_values : TypeTraits)
    (ctl : control) (comp : StrictWeakOrdering K) (cl_code : String) (w : World K V) :
    Outcome K V :=
  let szElements := to_size_t w.keys.length
  if szElements = 0 then (.ok (), w)
  else
    let runMode := ctl.forceRunMode
    if runMode = e_RunMode.SerialCpu then
      (.error serialCpuDeviceVectorError, w)
    else if runMode = e_RunMode.MultiCoreCpu then
      (.error multiCoreCpuDeviceVectorError,
        w.print "The MultiCoreCpu version of device_vector sort is not implemented yet.\n")
    else
      sort_by_key_enqueue P T_keys T_values ctl comp cl_code w

/-- The non device_vector specialization of `sort_by_key_pick_iterator`. The two
`device_vector` objects it builds alias the host ranges (`CL_MEM_USE_HOST_PTR`)
and `data()` maps them back; `device_vector` is not among the sources, and both
are modelled from the spec as logged operations that leave the contents as they
are. -/
def sort_by_key_pick_iterator_host (P : Platform K V) (T_keys T_values : TypeTraits)
    (ctl : control) (comp : StrictWeakOrdering K) (cl_code : String) (w : World K V) :
    Outcome K V :=
  let szElements := to_size_t w.keys.length
  if szElements = 0 then (.ok (), w)
  else
    let runMode := ctl.forceRunMode
    if runMode = e_RunMode.SerialCpu ∨ szElements < WGSIZE then
      (.ok (), { w.print "The SerialCpu version of sort is not implemented yet.\n" with
        keys := std_sort w.keys })
    else if runMode = e_RunMode.MultiCoreCpu then
      (.ok (), w.print "The MultiCoreCpu version of sort is not implemented yet.\n")
    else
      let w1 := (w.issue (.device_vector .Values)).issue (.device_vector .Keys)
      (sort_by_key_enqueue P T_keys T_values ctl comp cl_code w1).andThen
      fun w2 => (.ok (), (w2.issue (.data .Values)).issue (.data .Keys))

/-- The iterator types a call can be instantiated with; both are random access
(any other category is rejected by the `static_assert` at compile time). -/
inductive IteratorKind where
  | device_vector
  | host
  deriving DecidableEq

/-- Overload resolution between the two `sort_by_key_pick_iterator` templates. -/
def sort_by_key_pick_iterator (it : IteratorKind) (P : Platform K V)
    (T_keys T_values : TypeTraits) (ctl : control) (comp : StrictWeakOrdering K)
    (cl_code : String) (w : World K V) : Outcome K V :=
  match it with
  | .device_vector => sort_by_key_pick_iterator_device_vector P T_keys T_values ctl comp cl_code w
  | .host => sort_by_key_pick_iterator_host P T_keys T_values ctl comp cl_code w

/-- The `std::random_access_iterator_tag` overload of
`sort_by_key_detect_random_access`. -/
def sort_by_key_detect_random_access (it : IteratorKind) (P : Platform K V)
    (T_keys T_values : TypeTraits) (ctl : control) (comp : StrictWeakOrdering K)
    (cl_code : String) (w : World K V) : Outcome K V :=
  sort_by_key_pick_iterator it P T_keys T_values ctl comp cl_code w

/-- The functor `less< keys_T >( )` of `bolt/cl/functional.h`: `lhs < rhs`. Its
type's traits are a parameter, the header is not among the sources. -/
def less (T_less : TypeTraits) : StrictWeakOrdering K :=
  { call := fun lhs rhs => decide (lhs < rhs), traits := T_less }

/-- Overload 1: `sort_by_key(keys_first, keys_last, values_first, cl_code)`.
`getDefault` is the value of `control::getDefault( )`. -/
def sort_by_key_1 (getDefault : control) (T_less : TypeTraits) (it : IteratorKind)
    (P : Platform K V) (T_keys T_values : TypeTraits) (cl_code : String) (w : World K V) :
    Outcome K V :=
  sort_by_key_detect_random_access it P T_keys T_values getDefault (less T_less) cl_code w

/-- Overload 2: `sort_by_key(keys_first, keys_last, values_first, comp, cl_code)`. -/
def sort_by_key_2 (getDefault : control) (it : IteratorKind)
    (P : Platform K V) (T_keys T_values : TypeTraits) (comp : StrictWeakOrdering K)
    (cl_code : String) (w : World K V) : Outcome K V :=
  sort_by_key_detect_random_access it P T_keys T_values getDefault comp cl_code w

/-- Overload 3: `sort_by_key(ctl, keys_first, keys_last, values_first, cl_code)`. -/
def sort_by_key_3 (T_less : TypeTraits) (it : IteratorKind)
    (P : Platform K V) (T_keys T_values : TypeTraits) (ctl : control) (cl_code : String)
    (w : World K V) : Outcome K V :=
  sort_by_key_detect_random_access it P T_keys T_values ctl (less T_less) cl_code w

/-- Overload 4: `sort_by_key(ctl, keys_first, keys_last, values_first, comp, cl_code)`. -/
def sort_by_key_4 (it : IteratorKind)
    (P : Platform K V) (T_keys T_values : TypeTraits) (ctl : control)
    (comp : StrictWeakOrdering K) (cl_code : String) (w : World K V) : Outcome K V :=
  sort_by_key_detect_random_access it P T_keys T_values ctl comp cl_code w

end Dispatch

/-! ## Type registry: the traits `TypeName` and `ClCode` of `clcode.h` -/

section Registry

/-- The explicit specializations of the two trait templates that are in scope,
for types identified by `T`, and the host's `typeid(T).name()`. -/
structure Traits (T : Type) where
  typeid_name : T → String
  TypeName : T → Option String
  ClCode : T → Option String

/-- The call `TypeName<T>::get()`: the specialization for the type if there is
one, else the base template. -/
def TypeName.get {T : Type} (traits : Traits T) (t : T) : String :=
  match traits.TypeName t with
  | some name => name
  | none =>
    "ERROR (bolt): Unknown typename; define missing TypeName<" ++ traits.typeid_name t ++ ">"

/-- The call `ClCode<T>::get()`: the specialization for the type if there is one,
else the base template. -/
def ClCode.get {T : Type} (traits : Traits T) (t : T) : String :=
  match traits.ClCode t with
  | some code => code
  | none => ""

/-- The two traits of a type, as the engine reads them. -/
def traitsOf {T : Type} (traits : Traits T) (t : T) : TypeTraits :=
  { TypeName := TypeName.get traits t, ClCode := ClCode.get traits t }

end Registry

/-! ## The schedule of one engine call, for comparison with the code -/

section Schedule

variable {K V : Type}

/-- The operations of `n` passes of one stage, from pass `p` on. -/
def passOps (k : Option Kernel) (globalSize localSize : Nat) : Nat → Nat → List Op
  | _, 0 => []
  | p, n + 1 =>
    .setArg 3 (.uint p) :: .enqueueNDRangeKernel k globalSize localSize :: .finish
      :: passOps k globalSize localSize (p + 1) n

/-- The operations of `n` stages, from stage `s` on; stage `s` has `s + 1` passes. -/
def stageOps (k : Option Kernel) (globalSize localSize : Nat) : Nat → Nat → List Op
  | _, 0 => []
  | s, n + 1 =>
    .setArg 2 (.uint s)
      :: (passOps k globalSize localSize 0 (s + 1) ++ stageOps k globalSize localSize (s + 1) n)

/-- The request the engine's compile step sends to the compiler. -/
def engineCompileRequest (T_keys T_values : TypeTraits) (ctl : control)
    (comp : StrictWeakOrdering K) (cl_code : String) : CompileRequest :=
  { kernelName := "sort_by_key"
    instantiationString :=
      instantiationString T_keys.TypeName T_values.TypeName comp.traits.TypeName
    userCode := cl_code ++ T_keys.ClCode ++ T_values.ClCode
    valueTypeName := T_keys.TypeName
    functorTypeName := comp.traits.TypeName
    ctl := ctl }

/-- The kernel held by `masterKernel` once the once-only compile has returned. -/
def kernelAfterOnce (P : Platform K V) (req : CompileRequest) (w : World K V) : Option Kernel :=
  if w.initOnlyOnce then w.masterKernel
  else
    match P.compile req with
    | .ok k => some k
    | .error _ => w.masterKernel

/-- The local size of the launches of a call. -/
def engineWgSize (P : Platform K V) (T_keys T_values : TypeTraits) (ctl : control)
    (comp : StrictWeakOrdering K) (cl_code : String) (w : World K V) : Nat :=
  clampWgSize (to_size_t w.keys.length)
    (to_size_t (P.getWorkGroupInfo
      (kernelAfterOnce P (engineCompileRequest T_keys T_values ctl comp cl_code) w) ctl.device).1)

/-- Every operation of an engine call that passes the size test and on which
nothing fails, in order. -/
def engineOps (P : Platform K V) (T_keys T_values : TypeTraits) (ctl : control)
    (comp : StrictWeakOrdering K) (cl_code : String) (w : World K V) : List Op :=
  (if w.initOnlyOnce then []
    else [Op.constructAndCompileString (engineCompileRequest T_keys T_values ctl comp cl_code)])
  ++ [.getWorkGroupInfo, .createUserFunctorBuffer, .setArg 0 (.buffer .Keys),
      .setArg 1 (.buffer .Values), .setArg 4 .userFunctor]
  ++ stageOps (kernelAfterOnce P (engineCompileRequest T_keys T_values ctl comp cl_code) w)
      (to_size_t w.keys.length / 2) (engineWgSize P T_keys T_values ctl comp cl_code w) 0
      (numStagesLoop 64 (to_size_t w.keys.length) 0)
  ++ [.enqueueMapBuffer .Keys, .enqueueMapBuffer .Values]

/-- The status the engine acts on after each operation: the compiler's verdict,
the status of the work-group query, the platform's status for the calls wrapped
in `V_OPENCL` and for the last map; the buffer creation and the map of `Keys`
yield no status that is read. -/
def engineStatus (P : Platform K V) (k : Option Kernel) (device : Nat) : List Op → Op → Int
  | _, .constructAndCompileString req =>
    match P.compile req with
    | .ok _ => CL_SUCCESS
    | .error _ => 1
  | _, .getWorkGroupInfo => (P.getWorkGroupInfo k device).2
  | _, .createUserFunctorBuffer => CL_SUCCESS
  | _, .enqueueMapBuffer .Keys => CL_SUCCESS
  | log, op => P.status log op

/-- Issue the operations of a schedule in order until one yields a status other
than `CL_SUCCESS`: the operations issued, and whether all succeeded. -/
def issueUntilFailure (status : List Op → Op → Int) : List Op → List Op → List Op × Bool
  | _, [] => ([], true)
  | log, op :: ops =>
    if status log op = CL_SUCCESS then
      (op :: (issueUntilFailure status (log ++ [op]) ops).1,
        (issueUntilFailure status (log ++ [op]) ops).2)
    else ([op], false)

/-- Whether an operation is a call of the kernel compiler. -/
def Op.isCompile : Op → Bool
  | .constructAndCompileString _ => true
  | _ => false

/-- Number of calls of the kernel compiler in a log. -/
def compileCount (log : List Op) : Nat := log.countP Op.isCompile

/-- Whether an operation is a kernel launch. -/
def Op.isLaunch : Op → Bool
  | .enqueueNDRangeKernel _ _ _ => true
  | _ => false

/-- The kernels handed to the launches of a log, in order. -/
def launchKernels : List Op → List (Option Kernel)
  | [] => []
  | .enqueueNDRangeKernel k _ _ :: ops => k :: launchKernels ops
  | _ :: ops => launchKernels ops

/-- A kernel launch as the command queue sees it: the values bound to
arguments 2 (`stage`) and 3 (`passOfStage`) when it is issued, and its sizes. -/
structure Launch where
  stage : Option Nat
  passOfStage : Option Nat
  globalSize : Nat
  localSize : Nat
  deriving DecidableEq

/-- The launches of a log, given the values bound to arguments 2 and 3 before
its first operation. -/
def launchesFrom : Option Nat → Option Nat → List Op → List Launch
  | _, _, [] => []
  | stage, passOfStage, op :: ops =>
    match op with
    | .setArg 2 (.uint s) => launchesFrom (some s) passOfStage ops
    | .setArg 3 (.uint p) => launchesFrom stage (some p) ops
    | .enqueueNDRangeKernel _ g l => ⟨stage, passOfStage, g, l⟩ :: launchesFrom stage passOfStage ops
    | _ => launchesFrom stage passOfStage ops

/-- The pairs `(stage, pass)` with `pass ≤ stage < k`, in lexicographic order. -/
def stagePassPairs (k : Nat) : List (Nat × Nat) :=
  (List.range k).flatMap fun stage => (List.range (stage + 1)).map fun pass => (stage, pass)

/-- Every launch of the list has a `finish` right after it. -/
def EveryLaunchAwaited (ops : List Op) : Prop :=
  ∀ pre k g l post, ops = pre ++ Op.enqueueNDRangeKernel k g l :: post →
    ∃ post1, post = Op.finish :: post1

/-- The index of the kernel argument an operation binds, if it is a bind. -/
def Op.bindIndex : Op → Option Nat
  | .setArg index _ => some index
  | _ => none

/-- Number of binds of the kernel argument with the given index in a list. -/
def bindCount (index : Nat) (ops : List Op) : Nat :=
  ops.countP fun op => op.bindIndex == some index

/-- The requests handed to the kernel compiler in a log, in order. -/
def compileRequests : List Op → List CompileRequest
  | [] => []
  | .constructAndCompileString req :: ops => req :: compileRequests ops
  | _ :: ops => compileRequests ops

/-- What one engine call is given: its arguments, and the contents the caller
has put in the two ranges before it. -/
structure EngineCall (K V : Type) where
  T_keys : TypeTraits
  T_values : TypeTraits
  ctl : control
  comp : StrictWeakOrdering K
  cl_code : String
  keys : List K
  values : List V

/-- One engine call on the ranges the caller hands it, on the statics and the
log the earlier calls have left. -/
def EngineCall.run (P : Platform K V) (c : EngineCall K V) (w : World K V) : Outcome K V :=
  sort_by_key_enqueue P c.T_keys c.T_values c.ctl c.comp c.cl_code
    { w with keys := c.keys, values := c.values }

/-- Engine calls made one after another; a call that throws ends the sequence.
The two statics of a `World` are those of one instantiation of
`sort_by_key_enqueue`, so the calls are calls of that instantiation: they may
differ in prelude, control and data, not in the key, value and comparator
types. -/
def runCalls (P : Platform K V) : List (EngineCall K V) → World K V → Outcome K V
  | [], w => (.ok (), w)
  | c :: cs, w => (c.run P w).andThen (runCalls P cs)

/-- Engine calls made one after another by a caller that catches what a call
throws and goes on with the next call: the world the calls leave. -/
def runCallsCatching (P : Platform K V) (cs : List (EngineCall K V)) (w : World K V) :
    World K V :=
  cs.foldl (fun w1 c => (c.run P w1).2) w

/-- The engine from the work-group query on: the body of `sort_by_key_enqueue`
that follows the once-only compile, as a function of the world the compile
leaves. -/
def engineTail (P : Platform K V) (ctl : control) (comp : StrictWeakOrdering K)
    (szElements : Nat) (w1 : World K V) : Outcome K V :=
  let info := P.getWorkGroupInfo w1.masterKernel ctl.device
  Outcome.andThen
    (V_OPENCL info.2 "Error querying kernel for CL_KERNEL_PREFERRED_WORK_GROUP_SIZE_MULTIPLE",
      w1.issue .getWorkGroupInfo)
  fun w2 =>
    let wgSize := clampWgSize szElements (to_size_t info.1)
    let w3 := w2.issue .createUserFunctorBuffer
    let k := w3.masterKernel
    let numStages := numStagesLoop 64 szElements 0
    (checkedCall P (.setArg 0 (.buffer .Keys)) "Error setting a kernel argument" w3).andThen
    fun w4 =>
      (checkedCall P (.setArg 1 (.buffer .Values)) "Error setting a kernel argument"
        w4).andThen
      fun w5 =>
        (checkedCall P (.setArg 4 .userFunctor) "Error setting a kernel argument" w5).andThen
        fun w6 =>
          (stageLoop P k comp.call szElements wgSize numStages numStages 0 w6).andThen
          fun w7 =>
            let w8 := w7.issue (.enqueueMapBuffer .Keys)
            let l_Error := P.status w8.log (.enqueueMapBuffer .Values)
            let w9 := w8.issue (.enqueueMapBuffer .Values)
            (V_OPENCL l_Error "Error calling map on the result buffer", w9)

/-- The trace every invocation of `sort_by_key_enqueue` leaves and nothing else
in the dispatchers does: the unsupported-size notice on standard output, or a
compiler call or a work-group query in the log. -/
def engineTrace (w : World K V) (r : Outcome K V) : Prop :=
  unsupportedSizeNotice ∈ r.2.cout.drop w.cout.length
  ∨ ∃ op ∈ r.2.log.drop w.log.length, op.isCompile = true ∨ op = Op.getWorkGroupInfo

/-- An outcome follows a schedule from a world: its log is the world's log and
then the operations of the schedule up to the first one that fails, it is a
normal return exactly when none fails, and standard output and the two statics
are as in the world. -/
def Follows (st : List Op → Op → Int) (w : World K V) (r : Outcome K V) (ops : List Op) : Prop :=
  r.2.log = w.log ++ (issueUntilFailure st w.log ops).1
  ∧ (r.1 = .ok () ↔ (issueUntilFailure st w.log ops).2 = true)
  ∧ r.2.initOnlyOnce = w.initOnlyOnce
  ∧ r.2.masterKernel = w.masterKernel
  ∧ r.2.cout = w.cout

end Schedule

/-! ## The engine over the exceptions of the OpenCL C++ wrapper -/

section Throwing

variable {K V : Type}

/-- The error handler `detail::errHandler( err, errStr )` of the OpenCL C++ wrapper
`cl.hpp`, which lies outside the repository like the platform under it.
`sort_by_key.inl` throws `::cl::Error` itself, a class the wrapper declares only
when it is built with exceptions; built so, every wrapper call hands its status
to this handler before the status reaches the caller, and the handler throws
`::cl::Error( err, errStr )` unless the status is `CL_SUCCESS`. -/
def errHandler (err : Int) (errStr : String) : Except Error Unit :=
  if err = CL_SUCCESS then .ok () else .error (.cl err errStr)

/-- A call of the wrapper: the operation is issued and its status goes through
the wrapper's error handler, under the wrapper's name for the call. -/
def wrapperCall (status : Int) (op : Op) (errStr : String) (w : World K V) : Outcome K V :=
  (errHandler status errStr, w.issue op)

/-- The pattern `V_OPENCL( <platform call>, message )` over the throwing wrapper:
`V_OPENCL` reads the status only if the wrapper has let the call return. -/
def checkedWrapperCall (P : Platform K V) (op : Op) (errStr message : String)
    (w : World K V) : Outcome K V :=
  (wrapperCall (P.status w.log op) op errStr w).andThen
  fun w1 => (V_OPENCL (P.status w.log op) message, w1)

/-- The launch of `launchKernel` over the throwing wrapper: the kernel runs on
the two buffers when the wrapper lets `enqueueNDRangeKernel` return. -/
def launchKernel_throwing (P : Platform K V) (k : Option Kernel) (comp : K → K → Bool)
    (szElements wgSize stage passOfStage : Nat) (w : World K V) : Outcome K V :=
  let op := Op.enqueueNDRangeKernel k (szElements / 2) wgSize
  let l_Error := P.status w.log op
  (wrapperCall l_Error op "clEnqueueNDRangeKernel" w).andThen
  fun w1 =>
    let ran := P.runKernel k comp stage passOfStage (szElements / 2) wgSize (w1.keys, w1.values)
    (V_OPENCL l_Error "enqueueNDRangeKernel() failed for sort() kernel",
      { w1 with keys := ran.1, values := ran.2 })

/-- The inner loop of the engine over the throwing wrapper, as `passLoop`. -/
def passLoop_throwing (P : Platform K V) (k : Option Kernel) (comp : K → K → Bool)
    (szElements wgSize stage : Nat) : Nat → Nat → World K V → Outcome K V
  | 0, _, w => (.ok (), w)
  | fuel + 1, passOfStage, w =>
    if passOfStage < stage + 1 then
      (checkedWrapperCall P (.setArg 3 (.uint passOfStage)) "clSetKernelArg"
        "Error setting a kernel argument" w).andThen
      fun w1 =>
        (launchKernel_throwing P k comp szElements wgSize stage passOfStage w1).andThen
        fun w2 =>
          (checkedWrapperCall P .finish "clFinish"
            "Error calling finish on the command queue" w2).andThen
          fun w3 => passLoop_throwing P k comp szElements wgSize stage fuel (passOfStage + 1) w3
    else (.ok (), w)

/-- The outer loop of the engine over the throwing wrapper, as `stageLoop`. -/
def stageLoop_throwing (P : Platform K V) (k : Option Kernel) (comp : K → K → Bool)
    (szElements wgSize numStages : Nat) : Nat → Nat → World K V → Outcome K V
  | 0, _, w => (.ok (), w)
  | fuel + 1, stage, w =>
    if stage < numStages then
      (checkedWrapperCall P (.setArg 2 (.uint stage)) "clSetKernelArg"
        "Error setting a kernel argument" w).andThen
      fun w1 =>
        (passLoop_throwing P k comp szElements wgSize stage (stage + 1) 0 w1).andThen
        fun w2 => stageLoop_throwing P k comp szElements wgSize numStages fuel (stage + 1) w2
    else (.ok (), w)

/-- The accelerator engine `sort_by_key_enqueue` over the throwing wrapper: the
statements of `sort_by_key_enqueue`, with every call of the wrapper passing
through the wrapper's error handler. That holds for the two calls whose status
the source does not read as well, the construction of the `userFunctor` buffer
and the map of `Keys`. The query of `CL_DEVICE_MAX_COMPUTE_UNITS` is left out as
in `sort_by_key_enqueue`. -/
def sort_by_key_enqueue_throwing (P : Platform K V) (T_keys T_values : TypeTraits)
    (ctl : control) (comp : StrictWeakOrdering K) (cl_code : String) (w : World K V) :
    Outcome K V :=
  let szElements := to_size_t w.keys.length
  if notPowerOfTwoTest szElements then
    (.error unsupportedSizeError, w.print unsupportedSizeNotice)
  else
    (call_once
      (CallCompiler_SortByKey.constructAndCompile P
        (cl_code ++ T_keys.ClCode ++ T_values.ClCode)
        T_keys.TypeName T_values.TypeName comp.traits.TypeName ctl) w).andThen
    fun w1 =>
      let info := P.getWorkGroupInfo w1.masterKernel ctl.device
      (wrapperCall info.2 .getWorkGroupInfo "clGetKernelWorkGroupInfo" w1).andThen
      fun w2 =>
        Outcome.andThen
          (V_OPENCL info.2
            "Error querying kernel for CL_KERNEL_PREFERRED_WORK_GROUP_SIZE_MULTIPLE", w2)
        fun w2 =>
          let wgSize := clampWgSize szElements (to_size_t info.1)
          (wrapperCall (P.status w2.log .createUserFunctorBuffer) .createUserFunctorBuffer
            "clCreateBuffer" w2).andThen
          fun w3 =>
            let k := w3.masterKernel
            let numStages := numStagesLoop 64 szElements 0
            (checkedWrapperCall P (.setArg 0 (.buffer .Keys)) "clSetKernelArg"
              "Error setting a kernel argument" w3).andThen
            fun w4 =>
              (checkedWrapperCall P (.setArg 1 (.buffer .Values)) "clSetKernelArg"
                "Error setting a kernel argument" w4).andThen
              fun w5 =>
                (checkedWrapperCall P (.setArg 4 .userFunctor) "clSetKernelArg"
                  "Error setting a kernel argument" w5).andThen
                fun w6 =>
                  (stageLoop_throwing P k comp.call szElements wgSize numStages numStages 0
                    w6).andThen
                  fun w7 =>
                    (wrapperCall (P.status w7.log (.enqueueMapBuffer .Keys))
                      (.enqueueMapBuffer .Keys) "clEnqueueMapBuffer" w7).andThen
                    fun w8 =>
                      checkedWrapperCall P (.enqueueMapBuffer .Values) "clEnqueueMapBuffer"
                        "Error calling map on the result buffer" w8

/-- The engine over the throwing wrapper from the work-group query on, as
`engineTail`. -/
def engineTail_throwing (P : Platform K V) (ctl : control) (comp : StrictWeakOrdering K)
    (szElements : Nat) (w1 : World K V) : Outcome K V :=
  let info := P.getWorkGroupInfo w1.masterKernel ctl.device
  (wrapperCall info.2 .getWorkGroupInfo "clGetKernelWorkGroupInfo" w1).andThen
  fun w2 =>
    Outcome.andThen
      (V_OPENCL info.2
        "Error querying kernel for CL_KERNEL_PREFERRED_WORK_GROUP_SIZE_MULTIPLE", w2)
    fun w2 =>
      let wgSize := clampWgSize szElements (to_size_t info.1)
      (wrapperCall (P.status w2.log .createUserFunctorBuffer) .createUserFunctorBuffer
        "clCreateBuffer" w2).andThen
      fun w3 =>
        let k := w3.masterKernel
        let numStages := numStagesLoop 64 szElements 0
        (checkedWrapperCall P (.setArg 0 (.buffer .Keys)) "clSetKernelArg"
          "Error setting a kernel argument" w3).andThen
        fun w4 =>
          (checkedWrapperCall P (.setArg 1 (.buffer .Values)) "clSetKernelArg"
            "Error setting a kernel argument" w4).andThen
          fun w5 =>
            (checkedWrapperCall P (.setArg 4 .userFunctor) "clSetKernelArg"
              "Error setting a kernel argument" w5).andThen
            fun w6 =>
              (stageLoop_throwing P k comp.call szElements wgSize numStages numStages 0
                w6).andThen
              fun w7 =>
                (wrapperCall (P.status w7.log (.enqueueMapBuffer .Keys))
                  (.enqueueMapBuffer .Keys) "clEnqueueMapBuffer" w7).andThen
                fun w8 =>
                  checkedWrapperCall P (.enqueueMapBuffer .Values) "clEnqueueMapBuffer"
                    "Error calling map on the result buffer" w8

/-- The status the platform reports for each operation after the compile: that of
the work-group query for the kernel and device at hand, and `Platform.status`
for every other operation. -/
def platformStatus (P : Platform K V) (k : Option Kernel) (device : Nat) : List Op → Op → Int
  | _, .getWorkGroupInfo => (P.getWorkGroupInfo k device).2
  | log, op => P.status log op

/-- An outcome follows a schedule over the throwing wrapper: it follows the
schedule, and when it is an error, the error is the wrapper's `::cl::Error` for
the operation issued last, with the status of that operation as its code. -/
def FollowsThrowing (st : List Op → Op → Int) (w : World K V) (r : Outcome K V)
    (ops : List Op) : Prop :=
  Follows st w r ops
  ∧ ∀ e, r.1 = .error e →
      ∃ pre op what, r.2.log = w.log ++ (pre ++ [op]) ∧ e = .cl (st (w.log ++ pre) op) what

end Throwing

/-! ## Sample inputs -/

section Samples

/-- The functor `greater< keys_T >( )` of `bolt/cl/functional.h`: `lhs > rhs`. Its
type's traits are a parameter, the header is not among the sources. -/
def greater {K : Type} [LinearOrder K] (T_greater : TypeTraits) : StrictWeakOrdering K :=
  { call := fun lhs rhs => decide (lhs > rhs), traits := T_greater }

/-- A platform on which every operation succeeds, the compiler returns kernel 0
with preferred multiple 64, and a launch leaves the buffers as they are. It
fills the platform argument of the sample calls below, none of which reaches a
kernel launch. -/
def idlePlatform : Platform Nat Char :=
  { compile := fun _ => .ok ⟨0⟩
    getWorkGroupInfo := fun _ _ => (64, CL_SUCCESS)
    status := fun _ _ => CL_SUCCESS
    runKernel := fun _ _ _ _ _ _ buffers => buffers }

/-- Traits of `int` keys. -/
def T_int : TypeTraits := ⟨"int", ""⟩

/-- Traits of `char` values. -/
def T_char : TypeTraits := ⟨"char", ""⟩

/-- Traits of a comparator type on `int`. -/
def T_functor : TypeTraits := ⟨"functor<int>", ""⟩

/-- A control with the given forced run mode. -/
def controlWith (runMode : e_RunMode) : control := ⟨runMode, 0, 8⟩

/-- A world before the first call: nothing printed, nothing logged, nothing
compiled. -/
def freshWorld (keys : List Nat) (values : List Char) : World Nat Char :=
  ⟨keys, values, [], [], false, none⟩

/-- A registry in which only `int` is known, on a host whose `typeid` names are
the type names themselves; types are identified by their names. -/
def builtinTraits : Traits String :=
  { typeid_name := fun t => t
    TypeName := fun t => if t = "int" then some "int" else none
    ClCode := fun _ => none }

/-- A platform as `idlePlatform`, except that the compiler returns a kernel
handle computed from the prelude and the device of the request. -/
def preludePlatform : Platform Nat Char :=
  { compile := fun req => .ok ⟨req.userCode.length + 100 * req.ctl.device⟩
    getWorkGroupInfo := fun _ _ => (64, CL_SUCCESS)
    status := fun _ _ => CL_SUCCESS
    runKernel := fun _ _ _ _ _ _ buffers => buffers }

/-- A platform as `idlePlatform`, except that the compiler rejects every
request. -/
def rejectingPlatform : Platform Nat Char :=
  { compile := fun _ => .error "build failed"
    getWorkGroupInfo := fun _ _ => (64, CL_SUCCESS)
    status := fun _ _ => CL_SUCCESS
    runKernel := fun _ _ _ _ _ _ buffers => buffers }

/-- A platform as `idlePlatform`, except that the compiler rejects a request whose
user code is the prelude `"A"` and compiles every other request to kernel 1. -/
def selectivePlatform : Platform Nat Char :=
  { compile := fun req => if req.userCode = "A" then .error "build failed" else .ok ⟨1⟩
    getWorkGroupInfo := fun _ _ => (64, CL_SUCCESS)
    status := fun _ _ => CL_SUCCESS
    runKernel := fun _ _ _ _ _ _ buffers => buffers }

/-- OpenCL status `CL_MAP_FAILURE`. -/
def CL_MAP_FAILURE : Int := -12

/-- A platform as `idlePlatform`, except that the status of mapping the keys
buffer is `CL_MAP_FAILURE`; the status of mapping the values buffer is
`CL_SUCCESS` like that of every other operation. -/
def mapFailurePlatform : Platform Nat Char :=
  { compile := fun _ => .ok ⟨0⟩
    getWorkGroupInfo := fun _ _ => (64, CL_SUCCESS)
    status := fun _ op => if op = .enqueueMapBuffer .Keys then CL_MAP_FAILURE else CL_SUCCESS
    runKernel := fun _ _ _ _ _ _ buffers => buffers }

/-- OpenCL status `CL_OUT_OF_RESOURCES`. -/
def CL_OUT_OF_RESOURCES : Int := -5

/-- A platform as `idlePlatform`, except that every kernel launch fails. -/
def launchFailsPlatform : Platform Nat Char :=
  { compile := fun _ => .ok ⟨0⟩
    getWorkGroupInfo := fun _ _ => (64, CL_SUCCESS)
    status := fun _ op => if op.isLaunch then CL_OUT_OF_RESOURCES else CL_SUCCESS
    runKernel := fun _ _ _ _ _ _ buffers => buffers }

/-- A world in which an earlier call has compiled kernel 0. -/
def warmWorld (keys : List Nat) (values : List Char) : World Nat Char :=
  ⟨keys, values, [], [], true, some ⟨0⟩⟩

/-- A platform as `idlePlatform`, except that the preferred work-group-size
multiple it reports for every kernel is `p`. -/
def multiplePlatform (p : Nat) : Platform Nat Char :=
  { compile := fun _ => .ok ⟨0⟩
    getWorkGroupInfo := fun _ _ => (p, CL_SUCCESS)
    status := fun _ _ => CL_SUCCESS
    runKernel := fun _ _ _ _ _ _ buffers => buffers }

/-- Traits of a user type `UDD` registered with `BOLT_FUNCTOR`. -/
def T_UDD : TypeTraits := ⟨"UDD", "struct UDD \x7b int a; \x7d;"⟩

/-- Traits of a user comparator type `UDDLess` registered with `BOLT_FUNCTOR`. -/
def T_UDDLess : TypeTraits :=
  ⟨"UDDLess",
    "struct UDDLess \x7b bool operator() (const UDD& l, const UDD& r) "
      ++ "\x7b return l.a < r.a; \x7d \x7d;"⟩

/-- A platform as `idlePlatform`, for keys and values of one and the same type. -/
def sameTypePlatform : Platform Nat Nat :=
  { compile := fun _ => .ok ⟨0⟩
    getWorkGroupInfo := fun _ _ => (64, CL_SUCCESS)
    status := fun _ _ => CL_SUCCESS
    runKernel := fun _ _ _ _ _ _ buffers => buffers }

/-- An engine call on `int` keys and `char` values with comparator `less`. -/
def sampleCall (ctl : control) (cl_code : String) (keys : List Nat) (values : List Char) :
    EngineCall Nat Char :=
  ⟨T_int, T_char, ctl, less T_functor, cl_code, keys, values⟩

/-- The sample call on the keys `[2, 1]` with the given device and prelude. -/
def preludeCall (device : Nat) (cl_code : String) : EngineCall Nat Char :=
  sampleCall ⟨.Automatic, device, 8⟩ cl_code [2, 1] ['a', 'b']

end Samples

end bolt.cl

/-! # Theorems -/

namespace bolt.cl

/-! ## Arithmetic of the size test -/

/-- For a positive `n`, clearing the lowest set bit gives zero exactly for the
powers of two. -/
theorem pred_land_self_eq_zero_iff :
    ∀ n : Nat, 1 ≤ n → ((n - 1) &&& n = 0 ↔ ∃ k, n = 2 ^ k) := by
  intro n
  induction n using Nat.strong_induction_on with
  | _ n ih =>
    intro hn
    rcases Nat.even_or_odd' n with ⟨m, rfl | rfl⟩
    · have hm : 1 ≤ m := by omega
      have key : (2 * m - 1) &&& (2 * m) = 2 * ((m - 1) &&& m) := by
        apply Nat.eq_of_testBit_eq
        intro i
        cases i with
        | zero => simp [Nat.testBit_zero]
        | succ j =>
          simp only [Nat.testBit_and, Nat.testBit_succ]
          have h1 : (2 * m - 1) / 2 = m - 1 := by omega
          have h2 : 2 * m / 2 = m := by omega
          have h3 : 2 * ((m - 1) &&& m) / 2 = (m - 1) &&& m := by omega
          rw [Nat.and_div_two, h1, h2, h3]
      rw [key]
      have hrec := ih m (by omega) hm
      constructor
      · intro h
        have h0 : (m - 1) &&& m = 0 := by omega
        obtain ⟨k, hk⟩ := hrec.mp h0
        exact ⟨k + 1, by rw [hk, pow_succ]; ring⟩
      · rintro ⟨k, hk⟩
        cases k with
        | zero => omega
        | succ k =>
          have hmk : m = 2 ^ k := by rw [pow_succ] at hk; omega
          have h0 := hrec.mpr ⟨k, hmk⟩
          omega
    · have key : (2 * m + 1 - 1) &&& (2 * m + 1) = 2 * m := by
        apply Nat.eq_of_testBit_eq
        intro i
        cases i with
        | zero => simp [Nat.testBit_zero]
        | succ j =>
          simp only [Nat.testBit_and, Nat.testBit_succ]
          have h1 : (2 * m + 1 - 1) / 2 = m := by omega
          have h2 : (2 * m + 1) / 2 = m := by omega
          have h3 : 2 * m / 2 = m := by omega
          rw [Nat.and_div_two, h1, h2, h3, Nat.and_self]
      rw [key]
      constructor
      · intro h
        exact ⟨0, by omega⟩
      · rintro ⟨k, hk⟩
        cases k with
        | zero => simp at hk; omega
        | succ k => rw [pow_succ] at hk; omega

/-- A count that fits a `size_t` is converted unchanged. -/
theorem to_size_t_of_lt {n : Nat} (h : n < SIZE_T_RANGE) : to_size_t n = n :=
  Nat.mod_eq_of_lt h

/-- No wrap-around in `szElements - 1` for a positive count. -/
theorem size_t_pred_of_pos {n : Nat} (h1 : 1 ≤ n) (h2 : n < SIZE_T_RANGE) :
    size_t_pred n = n - 1 := by
  unfold size_t_pred
  have h : n + SIZE_T_RANGE - 1 = (n - 1) + SIZE_T_RANGE := by omega
  rw [h, Nat.add_mod_right, Nat.mod_eq_of_lt (by omega)]

/-- The size test is true exactly for the counts that are not a power of two. -/
theorem notPowerOfTwoTest_iff {n : Nat} (h1 : 1 ≤ n) (h2 : n < SIZE_T_RANGE) :
    notPowerOfTwoTest n = true ↔ ¬ ∃ k, n = 2 ^ k := by
  unfold notPowerOfTwoTest
  rw [size_t_pred_of_pos h1 h2, ← pred_land_self_eq_zero_iff n h1]
  simp

/-! ## Which errors the engine can leave with -/

section EngineErrors

variable {K V : Type}

/-- A checked platform call never throws a `cl` error written in the source. -/
theorem V_OPENCL_ne_cl (status : Int) (message : String) (err : Int) (what : String) :
    V_OPENCL status message ≠ .error (.cl err what) := by
  unfold V_OPENCL
  split <;> simp

/-- Sequencing keeps out an error neither part can throw. -/
theorem andThen_fst_ne {r : Outcome K V} {f : World K V → Outcome K V} {e : Error}
    (hr : r.1 ≠ .error e) (hf : ∀ w, (f w).1 ≠ .error e) : (r.andThen f).1 ≠ .error e := by
  rcases r with ⟨x, w⟩
  cases x with
  | error e1 => simpa [Outcome.andThen] using hr
  | ok u => cases u; simpa [Outcome.andThen] using hf w

/-- The pass loop throws only through `V_OPENCL`. -/
theorem passLoop_fst_ne_cl (P : Platform K V) (k : Option Kernel) (comp : K → K → Bool)
    (szElements wgSize stage : Nat) (err : Int) (what : String) :
    ∀ (fuel passOfStage : Nat) (w : World K V),
      (passLoop P k comp szElements wgSize stage fuel passOfStage w).1 ≠ .error (.cl err what) := by
  intro fuel
  induction fuel with
  | zero => intro p w; simp [passLoop]
  | succ n ih =>
    intro p w
    unfold passLoop
    split
    · apply andThen_fst_ne
      · exact V_OPENCL_ne_cl _ _ _ _
      · intro w1
        apply andThen_fst_ne
        · exact V_OPENCL_ne_cl _ _ _ _
        · intro w4
          apply andThen_fst_ne
          · exact V_OPENCL_ne_cl _ _ _ _
          · intro w5; exact ih _ _
    · simp

/-- The stage loop throws only through `V_OPENCL`. -/
theorem stageLoop_fst_ne_cl (P : Platform K V) (k : Option Kernel) (comp : K → K → Bool)
    (szElements wgSize numStages : Nat) (err : Int) (what : String) :
    ∀ (fuel stage : Nat) (w : World K V),
      (stageLoop P k comp szElements wgSize numStages fuel stage w).1 ≠ .error (.cl err what) := by
  intro fuel
  induction fuel with
  | zero => intro s w; simp [stageLoop]
  | succ n ih =>
    intro s w
    unfold stageLoop
    split
    · apply andThen_fst_ne
      · exact V_OPENCL_ne_cl _ _ _ _
      · intro w1
        apply andThen_fst_ne
        · exact passLoop_fst_ne_cl _ _ _ _ _ _ _ _ _ _ _
        · intro w2; exact ih _ _
    · simp

/-- The compile step throws only a compile error. -/
theorem constructAndCompile_fst_ne_cl (P : Platform K V) (a b c d : String) (ctl : control)
    (w : World K V) (err : Int) (what : String) :
    (CallCompiler_SortByKey.constructAndCompile P a b c d ctl w).1 ≠ .error (.cl err what) := by
  unfold CallCompiler_SortByKey.constructAndCompile constructAndCompileString
  simp only
  split <;> simp

/-- Running a function once-only throws only what the function throws. -/
theorem call_once_fst_ne {f : World K V → Outcome K V} {e : Error} (w : World K V)
    (hf : (f w).1 ≠ .error e) : (call_once f w).1 ≠ .error e := by
  unfold call_once
  split
  · simp
  · rcases hfw : f w with ⟨x, w1⟩
    rw [hfw] at hf
    cases x with
    | error e1 => simpa using hf
    | ok u => simp

/-- The once-only compile throws only a compile error. -/
theorem call_once_compile_fst_ne_cl (P : Platform K V) (a b c d : String) (ctl : control)
    (w : World K V) (err : Int) (what : String) :
    (call_once (CallCompiler_SortByKey.constructAndCompile P a b c d ctl) w).1
      ≠ .error (.cl err what) :=
  call_once_fst_ne w (constructAndCompile_fst_ne_cl P a b c d ctl w err what)

/-- The engine on a size that passes the test. -/
theorem sort_by_key_enqueue_fst_ne_cl (P : Platform K V) (T_keys T_values : TypeTraits)
    (ctl : control) (comp : StrictWeakOrdering K) (cl_code : String) (w : World K V)
    (h : notPowerOfTwoTest (to_size_t w.keys.length) = false) (err : Int) (what : String) :
    (sort_by_key_enqueue P T_keys T_values ctl comp cl_code w).1 ≠ .error (.cl err what) := by
  rw [sort_by_key_enqueue]
  simp only [h, Bool.false_eq_true, if_false]
  apply andThen_fst_ne
  · exact call_once_compile_fst_ne_cl _ _ _ _ _ _ _ _ _
  · intro w1
    apply andThen_fst_ne
    · exact V_OPENCL_ne_cl _ _ _ _
    · intro w2
      apply andThen_fst_ne
      · exact V_OPENCL_ne_cl _ _ _ _
      · intro w4
        apply andThen_fst_ne
        · exact V_OPENCL_ne_cl _ _ _ _
        · intro w5
          apply andThen_fst_ne
          · exact V_OPENCL_ne_cl _ _ _ _
          · intro w6
            apply andThen_fst_ne
            · exact stageLoop_fst_ne_cl _ _ _ _ _ _ _ _ _ _ _
            · intro w7; exact V_OPENCL_ne_cl _ _ _ _

/-- The engine on a size that fails the test: the error, and a world that differs
from the input only by the printed line. -/
theorem sort_by_key_enqueue_of_test (P : Platform K V) (T_keys T_values : TypeTraits)
    (ctl : control) (comp : StrictWeakOrdering K) (cl_code : String) (w : World K V)
    (h : notPowerOfTwoTest (to_size_t w.keys.length) = true) :
    sort_by_key_enqueue P T_keys T_values ctl comp cl_code w
      = (.error unsupportedSizeError, w.print unsupportedSizeNotice) := by
  rw [sort_by_key_enqueue]
  simp only [h, if_true]

end EngineErrors

/-! ## Dispatch lemmas -/

section DispatchLemmas

variable {K V : Type}

/-- The device_vector dispatcher on its accelerator branch. -/
theorem pick_iterator_device_vector_of_accelerator (P : Platform K V)
    (T_keys T_values : TypeTraits) (ctl : control) (comp : StrictWeakOrdering K)
    (cl_code : String) (w : World K V)
    (hs : ctl.forceRunMode ≠ e_RunMode.SerialCpu) (hm : ctl.forceRunMode ≠ e_RunMode.MultiCoreCpu)
    (h0 : to_size_t w.keys.length ≠ 0) :
    sort_by_key_pick_iterator_device_vector P T_keys T_values ctl comp cl_code w
      = sort_by_key_enqueue P T_keys T_values ctl comp cl_code w := by
  rw [sort_by_key_pick_iterator_device_vector]
  simp only [if_neg h0, if_neg hs, if_neg hm]

/-- The device_vector dispatcher with `SerialCpu` forced. -/
theorem pick_iterator_device_vector_of_serialCpu (P : Platform K V)
    (T_keys T_values : TypeTraits) (ctl : control) (comp : StrictWeakOrdering K)
    (cl_code : String) (w : World K V)
    (hs : ctl.forceRunMode = e_RunMode.SerialCpu) (h0 : to_size_t w.keys.length ≠ 0) :
    sort_by_key_pick_iterator_device_vector P T_keys T_values ctl comp cl_code w
      = (.error serialCpuDeviceVectorError, w) := by
  rw [sort_by_key_pick_iterator_device_vector]
  simp only [if_neg h0, if_pos hs]

/-- The device_vector dispatcher with `MultiCoreCpu` forced. -/
theorem pick_iterator_device_vector_of_multiCore (P : Platform K V)
    (T_keys T_values : TypeTraits) (ctl : control) (comp : StrictWeakOrdering K)
    (cl_code : String) (w : World K V)
    (hm : ctl.forceRunMode = e_RunMode.MultiCoreCpu) (h0 : to_size_t w.keys.length ≠ 0) :
    sort_by_key_pick_iterator_device_vector P T_keys T_values ctl comp cl_code w
      = (.error multiCoreCpuDeviceVectorError,
          w.print "The MultiCoreCpu version of device_vector sort is not implemented yet.\n") := by
  have hs : ctl.forceRunMode ≠ e_RunMode.SerialCpu := by rw [hm]; decide
  rw [sort_by_key_pick_iterator_device_vector]
  simp only [if_neg h0, if_neg hs, if_pos hm]

variable [LinearOrder K]

/-- The host dispatcher on its small-size or `SerialCpu` branch. -/
theorem pick_iterator_host_of_small (P : Platform K V) (T_keys T_values : TypeTraits)
    (ctl : control) (comp : StrictWeakOrdering K) (cl_code : String) (w : World K V)
    (h0 : to_size_t w.keys.length ≠ 0)
    (h : ctl.forceRunMode = e_RunMode.SerialCpu ∨ to_size_t w.keys.length < WGSIZE) :
    sort_by_key_pick_iterator_host P T_keys T_values ctl comp cl_code w
      = (.ok (), { w.print "The SerialCpu version of sort is not implemented yet.\n" with
          keys := std_sort w.keys }) := by
  rw [sort_by_key_pick_iterator_host]
  simp only [if_neg h0, if_pos h]

/-- The host dispatcher on its `MultiCoreCpu` branch. -/
theorem pick_iterator_host_of_multiCore (P : Platform K V) (T_keys T_values : TypeTraits)
    (ctl : control) (comp : StrictWeakOrdering K) (cl_code : String) (w : World K V)
    (hm : ctl.forceRunMode = e_RunMode.MultiCoreCpu)
    (h : WGSIZE ≤ to_size_t w.keys.length) :
    sort_by_key_pick_iterator_host P T_keys T_values ctl comp cl_code w
      = (.ok (), w.print "The MultiCoreCpu version of sort is not implemented yet.\n") := by
  have h0 : to_size_t w.keys.length ≠ 0 := by
    intro hz; rw [hz] at h; exact absurd h (by decide)
  have h1 : ¬ (ctl.forceRunMode = e_RunMode.SerialCpu ∨ to_size_t w.keys.length < WGSIZE) := by
    rintro (hs | hlt)
    · rw [hm] at hs; exact absurd hs (by decide)
    · exact absurd h (not_le.mpr hlt)
  rw [sort_by_key_pick_iterator_host]
  simp only [if_neg h0, if_neg h1, if_pos hm]

/-- The host dispatcher on its accelerator branch. -/
theorem pick_iterator_host_of_accelerator (P : Platform K V) (T_keys T_values : TypeTraits)
    (ctl : control) (comp : StrictWeakOrdering K) (cl_code : String) (w : World K V)
    (hs : ctl.forceRunMode ≠ e_RunMode.SerialCpu) (hm : ctl.forceRunMode ≠ e_RunMode.MultiCoreCpu)
    (h : WGSIZE ≤ to_size_t w.keys.length) :
    sort_by_key_pick_iterator_host P T_keys T_values ctl comp cl_code w
      = (sort_by_key_enqueue P T_keys T_values ctl comp cl_code
          ((w.issue (.device_vector .Values)).issue (.device_vector .Keys))).andThen
        (fun w2 => (.ok (), (w2.issue (.data .Values)).issue (.data .Keys))) := by
  have h0 : to_size_t w.keys.length ≠ 0 := by
    intro hz; rw [hz] at h; exact absurd h (by decide)
  have h1 : ¬ (ctl.forceRunMode = e_RunMode.SerialCpu ∨ to_size_t w.keys.length < WGSIZE) := by
    rintro (hs1 | hlt)
    · exact hs hs1
    · exact absurd h (not_le.mpr hlt)
  rw [sort_by_key_pick_iterator_host]
  simp only [if_neg h0, if_neg h1, if_neg hm]

/-- The public overload with control and comparator is the dispatcher picked by
the iterator kind. -/
theorem sort_by_key_4_eq (it : IteratorKind) (P : Platform K V) (T_keys T_values : TypeTraits)
    (ctl : control) (comp : StrictWeakOrdering K) (cl_code : String) (w : World K V) :
    sort_by_key_4 it P T_keys T_values ctl comp cl_code w
      = match it with
        | .device_vector =>
          sort_by_key_pick_iterator_device_vector P T_keys T_values ctl comp cl_code w
        | .host => sort_by_key_pick_iterator_host P T_keys T_values ctl comp cl_code w := by
  cases it <;> rfl

end DispatchLemmas

/-! ## The claims -/

/-- C1 (code defect). Host iterators, default control, `N = 2`, comparator
`greater`: the call returns normally with the keys `[1, 2]`, ascending under
`operator<`; under the comparator passed in they are not sorted, since
`greater(K[1], K[0])` is true. -/
theorem C1_small_host_sort_ignores_comparator :
    (sort_by_key_2 (controlWith .Automatic) .host idlePlatform T_int T_char
        (greater T_functor) "" (freshWorld [1, 2] ['a', 'b'])).1 = .ok ()
    ∧ (sort_by_key_2 (controlWith .Automatic) .host idlePlatform T_int T_char
        (greater T_functor) "" (freshWorld [1, 2] ['a', 'b'])).2.keys = [1, 2]
    ∧ (greater T_functor : StrictWeakOrdering Nat).call 2 1 = true := by
  decide

/-- C2 (code defect). Host iterators, default control, the spec's scenario S1
(`K=[4,2,1,3]`, `V=[d,b,a,c]`, `less`): the call returns with the keys sorted
and the values where they were, so the pairs of the result are not a
permutation of the pairs of the input. -/
theorem C2_small_host_sort_leaves_values :
    (sort_by_key_2 (controlWith .Automatic) .host idlePlatform T_int T_char
        (less T_functor) "" (freshWorld [4, 2, 1, 3] ['d', 'b', 'a', 'c'])).2.keys = [1, 2, 3, 4]
    ∧ (sort_by_key_2 (controlWith .Automatic) .host idlePlatform T_int T_char
        (less T_functor) "" (freshWorld [4, 2, 1, 3] ['d', 'b', 'a', 'c'])).2.values
        = ['d', 'b', 'a', 'c']
    ∧ ¬ (List.zip [1, 2, 3, 4] ['d', 'b', 'a', 'c']).Perm
        (List.zip [4, 2, 1, 3] ['d', 'b', 'a', 'c']) := by
  refine ⟨by decide, by decide, ?_⟩
  intro h
  have hmem : ((1 : Nat), 'd') ∈ List.zip [4, 2, 1, 3] ['d', 'b', 'a', 'c'] :=
    h.subset (by simp)
  simp at hmem

/-- C3. For a count `N ≥ 1` that fits a `size_t`, the engine ends with the
unsupported-size error exactly when `N` is not a power of two, and the test
`((N-1) & N) != 0` is true exactly then. -/
theorem C3_unsupported_size_iff_not_power_of_two {K V : Type} (P : Platform K V)
    (T_keys T_values : TypeTraits) (ctl : control) (comp : StrictWeakOrdering K)
    (cl_code : String) (w : World K V)
    (h1 : 1 ≤ w.keys.length) (h2 : w.keys.length < SIZE_T_RANGE) :
    ((sort_by_key_enqueue P T_keys T_values ctl comp cl_code w).1 = .error unsupportedSizeError
        ↔ ¬ ∃ k, w.keys.length = 2 ^ k)
    ∧ (notPowerOfTwoTest (to_size_t w.keys.length) = true ↔ ¬ ∃ k, w.keys.length = 2 ^ k) := by
  have htest := notPowerOfTwoTest_iff h1 h2
  rw [to_size_t_of_lt h2]
  refine ⟨?_, htest⟩
  rw [← htest]
  constructor
  · intro herr
    by_contra hne
    have hfalse : notPowerOfTwoTest (to_size_t w.keys.length) = false := by
      rw [to_size_t_of_lt h2]; simpa using hne
    exact sort_by_key_enqueue_fst_ne_cl P T_keys T_values ctl comp cl_code w hfalse _ _ herr
  · intro ht
    rw [sort_by_key_enqueue_of_test P T_keys T_values ctl comp cl_code w
      (by rw [to_size_t_of_lt h2]; exact ht)]

/-- C3 at `N = 3` and at `N = 4`: three keys are rejected, four are not. -/
theorem C3_witness :
    (((sort_by_key_enqueue idlePlatform T_int T_char (controlWith .Automatic)
          (less T_functor) "" (freshWorld [3, 1, 2] ['x', 'y', 'z'])).1
        = .error unsupportedSizeError ↔ ¬ ∃ k, 3 = 2 ^ k)
      ∧ (notPowerOfTwoTest (to_size_t 3) = true ↔ ¬ ∃ k, 3 = 2 ^ k))
    ∧ (sort_by_key_enqueue idlePlatform T_int T_char (controlWith .Automatic)
          (less T_functor) "" (freshWorld [3, 1, 2] ['x', 'y', 'z'])).1
        = .error unsupportedSizeError
    ∧ (sort_by_key_enqueue idlePlatform T_int T_char (controlWith .Automatic)
          (less T_functor) "" (freshWorld [4, 2, 1, 3] ['d', 'b', 'a', 'c'])).1 = .ok () :=
  ⟨C3_unsupported_size_iff_not_power_of_two idlePlatform T_int T_char (controlWith .Automatic)
      (less T_functor) "" (freshWorld [3, 1, 2] ['x', 'y', 'z']) (by decide) (by decide),
    by decide, by decide⟩

/-- C4. A call that reaches the accelerator engine (run mode neither `SerialCpu`
nor `MultiCoreCpu`; at least `WGSIZE` keys from host iterators, at least one
from device_vector iterators) with a count that is not a power of two ends with
the unsupported-size error; keys, values and the two statics are as they were,
and the log has gained nothing but the two `device_vector` wrappers of the host
path: no compile, no argument bind, no launch. -/
theorem C4_non_power_of_two_rejected_before_any_work {K V : Type} [LinearOrder K]
    (it : IteratorKind) (P : Platform K V) (T_keys T_values : TypeTraits) (ctl : control)
    (comp : StrictWeakOrdering K) (cl_code : String) (w : World K V)
    (hs : ctl.forceRunMode ≠ e_RunMode.SerialCpu) (hm : ctl.forceRunMode ≠ e_RunMode.MultiCoreCpu)
    (h2 : w.keys.length < SIZE_T_RANGE)
    (h1 : (match it with | .host => WGSIZE | .device_vector => 1) ≤ w.keys.length)
    (hnp : ¬ ∃ k, w.keys.length = 2 ^ k) :
    (sort_by_key_4 it P T_keys T_values ctl comp cl_code w).1 = .error unsupportedSizeError
    ∧ (sort_by_key_4 it P T_keys T_values ctl comp cl_code w).2.keys = w.keys
    ∧ (sort_by_key_4 it P T_keys T_values ctl comp cl_code w).2.values = w.values
    ∧ (sort_by_key_4 it P T_keys T_values ctl comp cl_code w).2.initOnlyOnce = w.initOnlyOnce
    ∧ (sort_by_key_4 it P T_keys T_values ctl comp cl_code w).2.masterKernel = w.masterKernel
    ∧ (sort_by_key_4 it P T_keys T_values ctl comp cl_code w).2.log
        = w.log ++ (match it with
            | .host => [Op.device_vector .Values, Op.device_vector .Keys]
            | .device_vector => []) := by
  have hpos : 1 ≤ w.keys.length := by
    cases it
    · exact h1
    · exact le_trans (by decide) h1
  have htest : notPowerOfTwoTest (to_size_t w.keys.length) = true := by
    rw [to_size_t_of_lt h2]; exact (notPowerOfTwoTest_iff hpos h2).mpr hnp
  have h0 : to_size_t w.keys.length ≠ 0 := by
    rw [to_size_t_of_lt h2]; exact Nat.pos_iff_ne_zero.mp hpos
  rw [sort_by_key_4_eq]
  cases it
  · simp only
    rw [pick_iterator_device_vector_of_accelerator P T_keys T_values ctl comp cl_code w hs hm h0,
      sort_by_key_enqueue_of_test P T_keys T_values ctl comp cl_code w htest]
    exact ⟨rfl, rfl, rfl, rfl, rfl, (List.append_nil _).symm⟩
  · simp only
    rw [pick_iterator_host_of_accelerator P T_keys T_values ctl comp cl_code w hs hm
        (by rw [to_size_t_of_lt h2]; exact h1),
      sort_by_key_enqueue_of_test P T_keys T_values ctl comp cl_code
        ((w.issue (.device_vector .Values)).issue (.device_vector .Keys)) htest]
    exact ⟨rfl, rfl, rfl, rfl, rfl, List.append_assoc _ _ _⟩

set_option maxRecDepth 20000 in
/-- C4 at the spec's scenario S4: 1000 keys from host iterators under the default
control. -/
theorem C4_witness :
    (sort_by_key_4 .host idlePlatform T_int T_char (controlWith .Automatic) (less T_functor) ""
        (freshWorld (List.range 1000) (List.replicate 1000 'v'))).1 = .error unsupportedSizeError
    ∧ (sort_by_key_4 .host idlePlatform T_int T_char (controlWith .Automatic) (less T_functor) ""
        (freshWorld (List.range 1000) (List.replicate 1000 'v'))).2.keys = List.range 1000
    ∧ (sort_by_key_4 .host idlePlatform T_int T_char (controlWith .Automatic) (less T_functor) ""
        (freshWorld (List.range 1000) (List.replicate 1000 'v'))).2.values
        = List.replicate 1000 'v'
    ∧ (sort_by_key_4 .host idlePlatform T_int T_char (controlWith .Automatic) (less T_functor) ""
        (freshWorld (List.range 1000) (List.replicate 1000 'v'))).2.initOnlyOnce = false
    ∧ (sort_by_key_4 .host idlePlatform T_int T_char (controlWith .Automatic) (less T_functor) ""
        (freshWorld (List.range 1000) (List.replicate 1000 'v'))).2.masterKernel = none
    ∧ (sort_by_key_4 .host idlePlatform T_int T_char (controlWith .Automatic) (less T_functor) ""
        (freshWorld (List.range 1000) (List.replicate 1000 'v'))).2.log
        = [] ++ [Op.device_vector .Values, Op.device_vector .Keys] :=
  C4_non_power_of_two_rejected_before_any_work .host idlePlatform T_int T_char
    (controlWith .Automatic) (less T_functor) ""
    (freshWorld (List.range 1000) (List.replicate 1000 'v'))
    (by decide) (by decide)
    (by simp [freshWorld, SIZE_T_RANGE])
    (by simp [freshWorld, WGSIZE])
    (by
      have hlen : (freshWorld (List.range 1000) (List.replicate 1000 'v')).keys.length = 1000 := by
        simp [freshWorld]
      rw [hlen]
      exact (notPowerOfTwoTest_iff (by decide) (by decide)).mp (by decide))

/-- C5, the claim as stated fails: the spec's scenario S6 (`K=[3,1,2]`,
`V=[x,y,z]`, host iterators, forced `SerialCpu`) returns normally. -/
theorem C5_counterexample :
    (sort_by_key_4 .host idlePlatform T_int T_char (controlWith .SerialCpu) (less T_functor) ""
        (freshWorld [3, 1, 2] ['x', 'y', 'z'])).1 = .ok () := by
  decide

/-- C5 as amended. With `SerialCpu` forced and a non-empty key range: on
device_vector iterators the call throws `CL_INVALID_DEVICE` and changes nothing;
on host iterators it prints the not-implemented notice and returns normally
without issuing any platform operation. -/
theorem C5_serialCpu_device_vector_throws_host_returns {K V : Type} [LinearOrder K]
    (P : Platform K V) (T_keys T_values : TypeTraits) (ctl : control)
    (comp : StrictWeakOrdering K) (cl_code : String) (w : World K V)
    (hs : ctl.forceRunMode = e_RunMode.SerialCpu)
    (h1 : 1 ≤ w.keys.length) (h2 : w.keys.length < SIZE_T_RANGE) :
    sort_by_key_4 .device_vector P T_keys T_values ctl comp cl_code w
        = (.error serialCpuDeviceVectorError, w)
    ∧ (sort_by_key_4 .host P T_keys T_values ctl comp cl_code w).1 = .ok ()
    ∧ (sort_by_key_4 .host P T_keys T_values ctl comp cl_code w).2.cout
        = w.cout ++ ["The SerialCpu version of sort is not implemented yet.\n"]
    ∧ (sort_by_key_4 .host P T_keys T_values ctl comp cl_code w).2.log = w.log := by
  have h0 : to_size_t w.keys.length ≠ 0 := by
    rw [to_size_t_of_lt h2]; exact Nat.pos_iff_ne_zero.mp h1
  simp only [sort_by_key_4_eq]
  rw [pick_iterator_host_of_small P T_keys T_values ctl comp cl_code w h0 (Or.inl hs),
    pick_iterator_device_vector_of_serialCpu P T_keys T_values ctl comp cl_code w hs h0]
  exact ⟨rfl, rfl, rfl, rfl⟩

/-- C5 as amended, at `K=[3,1,2]`, `V=[x,y,z]`. -/
theorem C5_witness :
    sort_by_key_4 .device_vector idlePlatform T_int T_char (controlWith .SerialCpu)
        (less T_functor) "" (freshWorld [3, 1, 2] ['x', 'y', 'z'])
        = (.error serialCpuDeviceVectorError, freshWorld [3, 1, 2] ['x', 'y', 'z'])
    ∧ (sort_by_key_4 .host idlePlatform T_int T_char (controlWith .SerialCpu)
        (less T_functor) "" (freshWorld [3, 1, 2] ['x', 'y', 'z'])).1 = .ok ()
    ∧ (sort_by_key_4 .host idlePlatform T_int T_char (controlWith .SerialCpu)
        (less T_functor) "" (freshWorld [3, 1, 2] ['x', 'y', 'z'])).2.cout
        = [] ++ ["The SerialCpu version of sort is not implemented yet.\n"]
    ∧ (sort_by_key_4 .host idlePlatform T_int T_char (controlWith .SerialCpu)
        (less T_functor) "" (freshWorld [3, 1, 2] ['x', 'y', 'z'])).2.log = [] :=
  C5_serialCpu_device_vector_throws_host_returns idlePlatform T_int T_char
    (controlWith .SerialCpu) (less T_functor) "" (freshWorld [3, 1, 2] ['x', 'y', 'z'])
    rfl (by decide) (by decide)

/-- C6, the claim as stated fails: 64 keys from host iterators with `MultiCoreCpu`
forced; the call returns normally. -/
theorem C6_counterexample :
    (sort_by_key_4 .host idlePlatform T_int T_char (controlWith .MultiCoreCpu) (less T_functor) ""
        (freshWorld (List.range 64) (List.replicate 64 'v'))).1 = .ok () := by
  decide

/-- C6 as amended. With `MultiCoreCpu` forced and a non-empty key range: on
device_vector iterators the call prints its notice and throws
`CL_INVALID_DEVICE`; on host iterators it returns normally without issuing any
platform operation, and from `WGSIZE` keys on what it prints is the
`MultiCoreCpu` not-implemented notice. -/
theorem C6_multiCoreCpu_device_vector_throws_host_returns {K V : Type} [LinearOrder K]
    (P : Platform K V) (T_keys T_values : TypeTraits) (ctl : control)
    (comp : StrictWeakOrdering K) (cl_code : String) (w : World K V)
    (hm : ctl.forceRunMode = e_RunMode.MultiCoreCpu)
    (h1 : 1 ≤ w.keys.length) (h2 : w.keys.length < SIZE_T_RANGE) :
    sort_by_key_4 .device_vector P T_keys T_values ctl comp cl_code w
        = (.error multiCoreCpuDeviceVectorError,
            w.print "The MultiCoreCpu version of device_vector sort is not implemented yet.\n")
    ∧ (sort_by_key_4 .host P T_keys T_values ctl comp cl_code w).1 = .ok ()
    ∧ (sort_by_key_4 .host P T_keys T_values ctl comp cl_code w).2.log = w.log
    ∧ (WGSIZE ≤ w.keys.length →
        (sort_by_key_4 .host P T_keys T_values ctl comp cl_code w).2.cout
          = w.cout ++ ["The MultiCoreCpu version of sort is not implemented yet.\n"]) := by
  have h0 : to_size_t w.keys.length ≠ 0 := by
    rw [to_size_t_of_lt h2]; exact Nat.pos_iff_ne_zero.mp h1
  simp only [sort_by_key_4_eq]
  rw [pick_iterator_device_vector_of_multiCore P T_keys T_values ctl comp cl_code w hm h0]
  refine ⟨rfl, ?_⟩
  by_cases hsmall : to_size_t w.keys.length < WGSIZE
  · rw [pick_iterator_host_of_small P T_keys T_values ctl comp cl_code w h0 (Or.inr hsmall)]
    refine ⟨rfl, rfl, ?_⟩
    intro hbig
    rw [to_size_t_of_lt h2] at hsmall
    exact absurd hbig (not_le.mpr hsmall)
  · rw [pick_iterator_host_of_multiCore P T_keys T_values ctl comp cl_code w hm
      (not_lt.mp hsmall)]
    exact ⟨rfl, rfl, fun _ => rfl⟩

/-- C6 as amended, at 64 keys. -/
theorem C6_witness :
    sort_by_key_4 .device_vector idlePlatform T_int T_char (controlWith .MultiCoreCpu)
        (less T_functor) "" (freshWorld (List.range 64) (List.replicate 64 'v'))
        = (.error multiCoreCpuDeviceVectorError,
            (freshWorld (List.range 64) (List.replicate 64 'v')).print
              "The MultiCoreCpu version of device_vector sort is not implemented yet.\n")
    ∧ (sort_by_key_4 .host idlePlatform T_int T_char (controlWith .MultiCoreCpu)
        (less T_functor) "" (freshWorld (List.range 64) (List.replicate 64 'v'))).1 = .ok ()
    ∧ (sort_by_key_4 .host idlePlatform T_int T_char (controlWith .MultiCoreCpu)
        (less T_functor) "" (freshWorld (List.range 64) (List.replicate 64 'v'))).2.log = []
    ∧ (WGSIZE ≤ (freshWorld (List.range 64) (List.replicate 64 'v')).keys.length →
        (sort_by_key_4 .host idlePlatform T_int T_char (controlWith .MultiCoreCpu)
          (less T_functor) "" (freshWorld (List.range 64) (List.replicate 64 'v'))).2.cout
          = [] ++ ["The MultiCoreCpu version of sort is not implemented yet.\n"]) :=
  C6_multiCoreCpu_device_vector_throws_host_returns idlePlatform T_int T_char
    (controlWith .MultiCoreCpu) (less T_functor) ""
    (freshWorld (List.range 64) (List.replicate 64 'v'))
    rfl (by decide) (by decide)

/-- C7, the claim as stated fails: three keys from host iterators under the
default control; the call returns normally, with a result. -/
theorem C7_counterexample :
    sort_by_key_4 .host idlePlatform T_int T_char (controlWith .Automatic) (less T_functor) ""
        (freshWorld [3, 1, 2] ['x', 'y', 'z'])
      = (.ok (), { freshWorld [1, 2, 3] ['x', 'y', 'z'] with
          cout := ["The SerialCpu version of sort is not implemented yet.\n"] }) := by
  decide

/-- C7 as amended. From host iterators with `1 ≤ N < WGSIZE`, in any run mode,
the call prints the not-implemented notice on standard output and returns
normally; it raises no error and issues no platform operation. -/
theorem C7_small_host_input_returns_normally {K V : Type} [LinearOrder K]
    (P : Platform K V) (T_keys T_values : TypeTraits) (ctl : control)
    (comp : StrictWeakOrdering K) (cl_code : String) (w : World K V)
    (h1 : 1 ≤ w.keys.length) (h2 : w.keys.length < WGSIZE) :
    (sort_by_key_4 .host P T_keys T_values ctl comp cl_code w).1 = .ok ()
    ∧ (sort_by_key_4 .host P T_keys T_values ctl comp cl_code w).2.cout
        = w.cout ++ ["The SerialCpu version of sort is not implemented yet.\n"]
    ∧ (sort_by_key_4 .host P T_keys T_values ctl comp cl_code w).2.log = w.log := by
  have hlt : w.keys.length < SIZE_T_RANGE := lt_trans h2 (by decide)
  have h0 : to_size_t w.keys.length ≠ 0 := by
    rw [to_size_t_of_lt hlt]; exact Nat.pos_iff_ne_zero.mp h1
  simp only [sort_by_key_4_eq]
  rw [pick_iterator_host_of_small P T_keys T_values ctl comp cl_code w h0
    (Or.inr (by rw [to_size_t_of_lt hlt]; exact h2))]
  exact ⟨rfl, rfl, rfl⟩

/-- C7 as amended, at two keys with the accelerator mode forced. -/
theorem C7_witness :
    (sort_by_key_4 .host idlePlatform T_int T_char (controlWith .OpenCL) (less T_functor) ""
        (freshWorld [2, 1] ['x', 'y'])).1 = .ok ()
    ∧ (sort_by_key_4 .host idlePlatform T_int T_char (controlWith .OpenCL) (less T_functor) ""
        (freshWorld [2, 1] ['x', 'y'])).2.cout
        = [] ++ ["The SerialCpu version of sort is not implemented yet.\n"]
    ∧ (sort_by_key_4 .host idlePlatform T_int T_char (controlWith .OpenCL) (less T_functor) ""
        (freshWorld [2, 1] ['x', 'y'])).2.log = [] :=
  C7_small_host_input_returns_normally idlePlatform T_int T_char (controlWith .OpenCL)
    (less T_functor) "" (freshWorld [2, 1] ['x', 'y']) (by decide) (by decide)

/-- C8. On an empty key range the call returns normally and leaves the world as
it was, whatever the iterator kind, the run mode, the comparator and the
platform: nothing is printed, logged, compiled or written. -/
theorem C8_empty_range_returns_unchanged {K V : Type} [LinearOrder K]
    (it : IteratorKind) (P : Platform K V) (T_keys T_values : TypeTraits) (ctl : control)
    (comp : StrictWeakOrdering K) (cl_code : String) (w : World K V)
    (hempty : w.keys = []) :
    sort_by_key_4 it P T_keys T_values ctl comp cl_code w = (.ok (), w) := by
  have h0 : to_size_t w.keys.length = 0 := by rw [hempty]; rfl
  rw [sort_by_key_4_eq]
  cases it
  · simp only
    rw [sort_by_key_pick_iterator_device_vector]
    simp only [if_pos h0]
  · simp only
    rw [sort_by_key_pick_iterator_host]
    simp only [if_pos h0]

/-- C8 on the device_vector path with `SerialCpu` forced, where a non-empty range
would throw, and on the host path with `MultiCoreCpu` forced. -/
theorem C8_witness :
    sort_by_key_4 .device_vector idlePlatform T_int T_char (controlWith .SerialCpu)
        (less T_functor) "" (freshWorld [] ['x', 'y'])
      = (.ok (), freshWorld [] ['x', 'y'])
    ∧ sort_by_key_4 .host idlePlatform T_int T_char (controlWith .MultiCoreCpu)
        (less T_functor) "" (freshWorld [] ['x', 'y'])
      = (.ok (), freshWorld [] ['x', 'y']) :=
  ⟨C8_empty_range_returns_unchanged .device_vector idlePlatform T_int T_char
      (controlWith .SerialCpu) (less T_functor) "" (freshWorld [] ['x', 'y']) rfl,
    by decide⟩

/-- C9. The four overloads agree: leaving out the control is passing
`control::getDefault( )`, leaving out the comparator is passing `less< keys_T >( )`,
which answers `lhs < rhs`; every other argument is forwarded as it is. -/
theorem C9_overloads_agree {K V : Type} [LinearOrder K]
    (getDefault : control) (T_less : TypeTraits) (it : IteratorKind) (P : Platform K V)
    (T_keys T_values : TypeTraits) (ctl : control) (comp : StrictWeakOrdering K)
    (cl_code : String) (w : World K V) :
    sort_by_key_1 getDefault T_less it P T_keys T_values cl_code w
        = sort_by_key_3 T_less it P T_keys T_values getDefault cl_code w
    ∧ sort_by_key_2 getDefault it P T_keys T_values comp cl_code w
        = sort_by_key_4 it P T_keys T_values getDefault comp cl_code w
    ∧ sort_by_key_3 T_less it P T_keys T_values ctl cl_code w
        = sort_by_key_4 it P T_keys T_values ctl (less T_less) cl_code w
    ∧ sort_by_key_1 getDefault T_less it P T_keys T_values cl_code w
        = sort_by_key_4 it P T_keys T_values getDefault (less T_less) cl_code w
    ∧ (∀ lhs rhs : K, (less T_less : StrictWeakOrdering K).call lhs rhs = true ↔ lhs < rhs) := by
  refine ⟨rfl, rfl, rfl, rfl, ?_⟩
  intro lhs rhs
  simp [less]

/-- C10 (code defect). Host iterators, default control, `N = 2`, comparator
`greater`: the keys `[2, 1]` are already sorted under `greater`
(`greater(K[1], K[0])` is false), yet the call returns with the keys `[1, 2]`. -/
theorem C10_sorted_input_is_reordered :
    (greater T_functor : StrictWeakOrdering Nat).call 1 2 = false
    ∧ (sort_by_key_2 (controlWith .Automatic) .host idlePlatform T_int T_char
        (greater T_functor) "" (freshWorld [2, 1] ['x', 'y'])).1 = .ok ()
    ∧ (sort_by_key_2 (controlWith .Automatic) .host idlePlatform T_int T_char
        (greater T_functor) "" (freshWorld [2, 1] ['x', 'y'])).2.keys = [1, 2]
    ∧ (sort_by_key_2 (controlWith .Automatic) .host idlePlatform T_int T_char
        (greater T_functor) "" (freshWorld [2, 1] ['x', 'y'])).2.values = ['x', 'y'] := by
  decide

/-! ## The type registry -/

/-- C15. For a type with no `TypeName` specialization, `TypeName<T>::get()` is the
error text followed by the type's `typeid` name and `>`; it is not the empty
string. -/
theorem C15_unregistered_typename_is_error_sentinel {T : Type} (traits : Traits T) (t : T)
    (h : traits.TypeName t = none) :
    TypeName.get traits t
        = "ERROR (bolt): Unknown typename; define missing TypeName<"
          ++ traits.typeid_name t ++ ">"
    ∧ TypeName.get traits t ≠ "" := by
  have hget : TypeName.get traits t
      = "ERROR (bolt): Unknown typename; define missing TypeName<"
        ++ traits.typeid_name t ++ ">" := by
    rw [TypeName.get, h]
  refine ⟨hget, ?_⟩
  intro hempty
  have hlen := congrArg String.length hempty
  rw [hget, String.length_append, String.length_append] at hlen
  have h56 : ("ERROR (bolt): Unknown typename; define missing TypeName<" : String).length = 56 := by
    decide
  have h0 : ("" : String).length = 0 := rfl
  rw [h56, h0] at hlen
  omega

/-- C15 at the unregistered type `UDD`. -/
theorem C15_witness :
    TypeName.get builtinTraits "UDD"
        = "ERROR (bolt): Unknown typename; define missing TypeName<"
          ++ builtinTraits.typeid_name "UDD" ++ ">"
    ∧ TypeName.get builtinTraits "UDD" ≠ "" :=
  C15_unregistered_typename_is_error_sentinel builtinTraits "UDD" (by decide)

/-- C16. For a type with no `ClCode` specialization, `ClCode<T>::get()` is the empty
string. -/
theorem C16_unregistered_clcode_is_empty {T : Type} (traits : Traits T) (t : T)
    (h : traits.ClCode t = none) : ClCode.get traits t = "" := by
  rw [ClCode.get, h]

/-- C16 at the type `int`, which has a name and no definition. -/
theorem C16_witness : ClCode.get builtinTraits "int" = "" :=
  C16_unregistered_clcode_is_empty builtinTraits "int" rfl

section IssueUntilFailure

variable (st : List Op → Op → Int)

/-- An operation that succeeds is issued and the schedule goes on. -/
theorem issueUntilFailure_cons_ok {log : List Op} {op : Op} (ops : List Op)
    (h : st log op = CL_SUCCESS) :
    issueUntilFailure st log (op :: ops)
      = (op :: (issueUntilFailure st (log ++ [op]) ops).1,
          (issueUntilFailure st (log ++ [op]) ops).2) := by
  rw [issueUntilFailure, if_pos h]

/-- An operation that fails is issued and is the last one. -/
theorem issueUntilFailure_cons_fail {log : List Op} {op : Op} (ops : List Op)
    (h : st log op ≠ CL_SUCCESS) :
    issueUntilFailure st log (op :: ops) = ([op], false) := by
  rw [issueUntilFailure, if_neg h]

/-- When nothing fails the whole schedule is issued. -/
theorem issueUntilFailure_all_ok :
    ∀ (ops log : List Op), (issueUntilFailure st log ops).2 = true →
      (issueUntilFailure st log ops).1 = ops := by
  intro ops
  induction ops with
  | nil => intro log _; rfl
  | cons op ops ih =>
    intro log h
    by_cases hop : st log op = CL_SUCCESS
    · rw [issueUntilFailure_cons_ok st ops hop] at h ⊢
      simp only at h ⊢
      rw [ih _ h]
    · rw [issueUntilFailure_cons_fail st ops hop] at h
      simp at h

/-- What is issued is a prefix of the schedule. -/
theorem issueUntilFailure_isPrefix :
    ∀ (ops log : List Op), (issueUntilFailure st log ops).1 <+: ops := by
  intro ops
  induction ops with
  | nil => intro log; exact List.prefix_refl _
  | cons op ops ih =>
    intro log
    by_cases hop : st log op = CL_SUCCESS
    · rw [issueUntilFailure_cons_ok st ops hop]
      exact (List.prefix_cons_inj op).mpr (ih _)
    · rw [issueUntilFailure_cons_fail st ops hop]
      exact ⟨ops, rfl⟩

/-- Issuing two schedules one after the other. -/
theorem issueUntilFailure_append :
    ∀ (xs log ys : List Op),
      issueUntilFailure st log (xs ++ ys)
        = if (issueUntilFailure st log xs).2 = true then
            (xs ++ (issueUntilFailure st (log ++ xs) ys).1,
              (issueUntilFailure st (log ++ xs) ys).2)
          else issueUntilFailure st log xs := by
  intro xs
  induction xs with
  | nil => intro log ys; simp [issueUntilFailure]
  | cons x xs ih =>
    intro log ys
    by_cases hop : st log x = CL_SUCCESS
    · rw [List.cons_append, issueUntilFailure_cons_ok st _ hop,
        issueUntilFailure_cons_ok st _ hop, ih]
      by_cases h2 : (issueUntilFailure st (log ++ [x]) xs).2 = true
      · simp [h2, List.append_assoc]
      · simp [h2]
    · rw [List.cons_append, issueUntilFailure_cons_fail st _ hop,
        issueUntilFailure_cons_fail st _ hop]
      simp

/-- An issued operation that fails has nothing after it. -/
theorem issueUntilFailure_failure_last :
    ∀ (ops log pre : List Op) (op : Op) (post : List Op),
      (issueUntilFailure st log ops).1 = pre ++ op :: post →
      st (log ++ pre) op ≠ CL_SUCCESS → post = [] := by
  intro ops
  induction ops with
  | nil =>
    intro log pre op post h _
    simp [issueUntilFailure] at h
  | cons x xs ih =>
    intro log pre op post h hfail
    by_cases hop : st log x = CL_SUCCESS
    · rw [issueUntilFailure_cons_ok st xs hop] at h
      cases pre with
      | nil =>
        simp only [List.nil_append, List.cons.injEq] at h
        rw [List.append_nil, ← h.1] at hfail
        exact absurd hop hfail
      | cons y pre =>
        simp only [List.cons_append, List.cons.injEq] at h
        apply ih (log ++ [x]) pre op post h.2
        rw [List.append_assoc, List.singleton_append, h.1]
        exact hfail
    · rw [issueUntilFailure_cons_fail st xs hop] at h
      cases pre with
      | nil =>
        simp only [List.nil_append, List.cons.injEq] at h
        exact h.2.symm
      | cons y pre =>
        simp only [List.cons_append, List.cons.injEq] at h
        exact absurd h.2 (by simp)

/-- Every issued operation but the last has succeeded. -/
theorem issueUntilFailure_ok_before_last :
    ∀ (ops log pre : List Op) (op : Op) (post : List Op),
      (issueUntilFailure st log ops).1 = pre ++ op :: post → post ≠ [] →
      st (log ++ pre) op = CL_SUCCESS := by
  intro ops log pre op post h hpost
  by_contra hfail
  exact hpost (issueUntilFailure_failure_last st ops log pre op post h hfail)

end IssueUntilFailure

/-! ## The engine follows its schedule -/

section FollowsLemmas

variable {K V : Type} (st : List Op → Op → Int)

/-- A checked status is a normal return exactly when it is `CL_SUCCESS`. -/
theorem V_OPENCL_eq_ok_iff (status : Int) (message : String) :
    V_OPENCL status message = .ok () ↔ status = CL_SUCCESS := by
  rw [V_OPENCL]
  by_cases h : status = CL_SUCCESS
  · simp [h]
  · simp [h]

/-- Doing nothing follows the empty schedule. -/
theorem follows_nil (w : World K V) : Follows st w (.ok (), w) [] :=
  ⟨(List.append_nil _).symm, ⟨fun _ => rfl, fun _ => rfl⟩, rfl, rfl, rfl⟩

/-- One operation whose status is checked. -/
theorem follows_status_step (w : World K V) (op : Op) (status : Int) (message : String)
    (hst : st w.log op = status) :
    Follows st w (V_OPENCL status message, w.issue op) [op] := by
  by_cases h : status = CL_SUCCESS
  · have hq : issueUntilFailure st w.log [op] = ([op], true) := by
      rw [issueUntilFailure_cons_ok st [] (hst.trans h)]; rfl
    refine ⟨?_, ?_, rfl, rfl, rfl⟩
    · rw [hq]; rfl
    · rw [hq]; simp [V_OPENCL_eq_ok_iff, h]
  · have hq : issueUntilFailure st w.log [op] = ([op], false) :=
      issueUntilFailure_cons_fail st [] (by rw [hst]; exact h)
    refine ⟨?_, ?_, rfl, rfl, rfl⟩
    · rw [hq]; rfl
    · rw [hq]; simp [V_OPENCL_eq_ok_iff, h]

/-- The pattern `V_OPENCL( <platform call>, message )`. -/
theorem follows_checkedCall (P : Platform K V) (w : World K V) (op : Op) (message : String)
    (hst : st w.log op = P.status w.log op) :
    Follows st w (checkedCall P op message w) [op] :=
  follows_status_step st w op _ message hst

/-- A kernel launch and its check. -/
theorem follows_launchKernel (P : Platform K V) (k : Option Kernel) (comp : K → K → Bool)
    (szElements wgSize stage passOfStage : Nat) (w : World K V)
    (hst : st w.log (.enqueueNDRangeKernel k (szElements / 2) wgSize)
      = P.status w.log (.enqueueNDRangeKernel k (szElements / 2) wgSize)) :
    Follows st w (launchKernel P k comp szElements wgSize stage passOfStage w)
      [.enqueueNDRangeKernel k (szElements / 2) wgSize] := by
  have hbase := follows_status_step st w (.enqueueNDRangeKernel k (szElements / 2) wgSize)
    (P.status w.log (.enqueueNDRangeKernel k (szElements / 2) wgSize))
    "enqueueNDRangeKernel() failed for sort() kernel" hst
  obtain ⟨hlog, hok, _, _, _⟩ := hbase
  rw [launchKernel]
  by_cases h : P.status w.log (.enqueueNDRangeKernel k (szElements / 2) wgSize) = CL_SUCCESS
  · simp only [h, if_true]
    rw [h] at hlog hok
    exact ⟨hlog, hok, rfl, rfl, rfl⟩
  · simp only [h, if_false]
    exact ⟨hlog, hok, rfl, rfl, rfl⟩

/-- An operation whose status nothing reads, then the rest. -/
theorem follows_issue (w : World K V) (op : Op) (r : Outcome K V) (ops : List Op)
    (hst : st w.log op = CL_SUCCESS) (h : Follows st (w.issue op) r ops) :
    Follows st w r (op :: ops) := by
  obtain ⟨hlog, hok, hi, hm, hc⟩ := h
  rw [Follows, issueUntilFailure_cons_ok st ops hst]
  refine ⟨?_, hok, hi, hm, hc⟩
  rw [hlog]
  exact List.append_assoc _ _ _

/-- Sequencing follows the two schedules one after the other. -/
theorem follows_andThen {w : World K V} {r1 : Outcome K V} {f : World K V → Outcome K V}
    {ops1 ops2 : List Op} (h1 : Follows st w r1 ops1)
    (h2 : r1.1 = .ok () → Follows st r1.2 (f r1.2) ops2) :
    Follows st w (r1.andThen f) (ops1 ++ ops2) := by
  obtain ⟨hlog, hok, hi, hm, hc⟩ := h1
  rcases r1 with ⟨x, w1⟩
  cases x with
  | error e =>
    have hfalse : ¬ (issueUntilFailure st w.log ops1).2 = true := fun h => by
      have hbad := hok.mpr h
      simp at hbad
    refine ⟨?_, ?_, hi, hm, hc⟩
    · rw [issueUntilFailure_append, if_neg hfalse]; exact hlog
    · rw [issueUntilFailure_append, if_neg hfalse]; exact hok
  | ok u =>
    cases u
    have htrue : (issueUntilFailure st w.log ops1).2 = true := hok.mp rfl
    obtain ⟨hlog2, hok2, hi2, hm2, hc2⟩ := h2 rfl
    have hall := issueUntilFailure_all_ok st ops1 w.log htrue
    have hw1 : w1.log = w.log ++ ops1 := by rw [← hall]; exact hlog
    refine ⟨?_, ?_, hi2.trans hi, hm2.trans hm, hc2.trans hc⟩
    · rw [issueUntilFailure_append, if_pos htrue]
      show (f w1).2.log = w.log ++ (ops1 ++ (issueUntilFailure st (w.log ++ ops1) ops2).1)
      rw [← List.append_assoc, ← hw1]
      exact hlog2
    · rw [issueUntilFailure_append, if_pos htrue]
      show (f w1).1 = .ok () ↔ (issueUntilFailure st (w.log ++ ops1) ops2).2 = true
      rw [← hw1]
      exact hok2

end FollowsLemmas

section LoopsFollow

variable {K V : Type} (P : Platform K V) (kst : Option Kernel) (device : Nat)

/-- The pass loop follows the schedule of its passes. -/
theorem follows_passLoop (k : Option Kernel) (comp : K → K → Bool)
    (szElements wgSize stage : Nat) :
    ∀ (fuel passOfStage : Nat) (w : World K V), fuel + passOfStage = stage + 1 →
      Follows (engineStatus P kst device) w
        (passLoop P k comp szElements wgSize stage fuel passOfStage w)
        (passOps k (szElements / 2) wgSize passOfStage fuel) := by
  intro fuel
  induction fuel with
  | zero =>
    intro p w _
    rw [passLoop, passOps]
    exact follows_nil _ w
  | succ n ih =>
    intro p w h
    have hlt : p < stage + 1 := by omega
    have hops : passOps k (szElements / 2) wgSize p (n + 1)
        = [Op.setArg 3 (.uint p)] ++ ([Op.enqueueNDRangeKernel k (szElements / 2) wgSize]
            ++ ([Op.finish] ++ passOps k (szElements / 2) wgSize (p + 1) n)) := rfl
    rw [passLoop, if_pos hlt, hops]
    apply follows_andThen
    · exact follows_checkedCall _ P w _ _ rfl
    · intro _
      apply follows_andThen
      · exact follows_launchKernel _ P k comp szElements wgSize stage p _ rfl
      · intro _
        apply follows_andThen
        · exact follows_checkedCall _ P _ _ _ rfl
        · intro _
          exact ih (p + 1) _ (by omega)

/-- The stage loop follows the schedule of its stages. -/
theorem follows_stageLoop (k : Option Kernel) (comp : K → K → Bool)
    (szElements wgSize numStages : Nat) :
    ∀ (fuel stage : Nat) (w : World K V), fuel + stage = numStages →
      Follows (engineStatus P kst device) w
        (stageLoop P k comp szElements wgSize numStages fuel stage w)
        (stageOps k (szElements / 2) wgSize stage fuel) := by
  intro fuel
  induction fuel with
  | zero =>
    intro s w _
    rw [stageLoop, stageOps]
    exact follows_nil _ w
  | succ n ih =>
    intro s w h
    have hlt : s < numStages := by omega
    have hops : stageOps k (szElements / 2) wgSize s (n + 1)
        = [Op.setArg 2 (.uint s)] ++ (passOps k (szElements / 2) wgSize 0 (s + 1)
            ++ stageOps k (szElements / 2) wgSize (s + 1) n) := rfl
    rw [stageLoop, if_pos hlt, hops]
    apply follows_andThen
    · exact follows_checkedCall _ P w _ _ rfl
    · intro _
      apply follows_andThen
      · exact follows_passLoop P kst device k comp szElements wgSize s (s + 1) 0 _ rfl
      · intro _
        exact ih (s + 1) _ (by omega)

end LoopsFollow

section EngineFollows

variable {K V : Type} (P : Platform K V)

/-- The engine after the compile follows the rest of the schedule. -/
theorem follows_engineTail (ctl : control) (comp : StrictWeakOrdering K) (szElements : Nat)
    (w1 : World K V) :
    Follows (engineStatus P w1.masterKernel ctl.device) w1 (engineTail P ctl comp szElements w1)
      ([Op.getWorkGroupInfo, .createUserFunctorBuffer, .setArg 0 (.buffer .Keys),
          .setArg 1 (.buffer .Values), .setArg 4 .userFunctor]
        ++ stageOps w1.masterKernel (szElements / 2)
            (clampWgSize szElements
              (to_size_t (P.getWorkGroupInfo w1.masterKernel ctl.device).1))
            0 (numStagesLoop 64 szElements 0)
        ++ [.enqueueMapBuffer .Keys, .enqueueMapBuffer .Values]) := by
  have hops : ([Op.getWorkGroupInfo, .createUserFunctorBuffer, .setArg 0 (.buffer .Keys),
          .setArg 1 (.buffer .Values), .setArg 4 .userFunctor]
        ++ stageOps w1.masterKernel (szElements / 2)
            (clampWgSize szElements
              (to_size_t (P.getWorkGroupInfo w1.masterKernel ctl.device).1))
            0 (numStagesLoop 64 szElements 0)
        ++ [.enqueueMapBuffer .Keys, .enqueueMapBuffer .Values])
      = [Op.getWorkGroupInfo] ++ (Op.createUserFunctorBuffer :: ([Op.setArg 0 (.buffer .Keys)]
          ++ ([Op.setArg 1 (.buffer .Values)] ++ ([Op.setArg 4 .userFunctor]
          ++ (stageOps w1.masterKernel (szElements / 2)
                (clampWgSize szElements
                  (to_size_t (P.getWorkGroupInfo w1.masterKernel ctl.device).1))
                0 (numStagesLoop 64 szElements 0)
              ++ (Op.enqueueMapBuffer .Keys :: [Op.enqueueMapBuffer .Values])))))) := by
    simp only [List.cons_append, List.nil_append, List.append_assoc]
  rw [hops, engineTail]
  apply follows_andThen
  · exact follows_status_step _ w1 .getWorkGroupInfo _ _ rfl
  · intro _
    apply follows_issue _ _ .createUserFunctorBuffer _ _ rfl
    apply follows_andThen
    · exact follows_checkedCall _ P _ _ _ rfl
    · intro _
      apply follows_andThen
      · exact follows_checkedCall _ P _ _ _ rfl
      · intro _
        apply follows_andThen
        · exact follows_checkedCall _ P _ _ _ rfl
        · intro _
          apply follows_andThen
          · exact follows_stageLoop P _ _ _ comp.call szElements _ _ _ 0 _ rfl
          · intro _
            apply follows_issue _ _ (.enqueueMapBuffer .Keys) _ _ rfl
            exact follows_status_step _ _ (.enqueueMapBuffer .Values) _ _ rfl

/-- The engine is its size test, the once-only compile and the rest. -/
theorem sort_by_key_enqueue_eq (T_keys T_values : TypeTraits) (ctl : control)
    (comp : StrictWeakOrdering K) (cl_code : String) (w : World K V) :
    sort_by_key_enqueue P T_keys T_values ctl comp cl_code w
      = if notPowerOfTwoTest (to_size_t w.keys.length) then
          (.error unsupportedSizeError, w.print unsupportedSizeNotice)
        else
          (call_once
            (CallCompiler_SortByKey.constructAndCompile P
              (cl_code ++ T_keys.ClCode ++ T_values.ClCode)
              T_keys.TypeName T_values.TypeName comp.traits.TypeName ctl) w).andThen
            (engineTail P ctl comp (to_size_t w.keys.length)) := by
  rw [sort_by_key_enqueue]
  rfl

/-- The once-only compile of the engine, case by case. -/
theorem call_once_compile_eq (T_keys T_values : TypeTraits) (ctl : control)
    (comp : StrictWeakOrdering K) (cl_code : String) (w : World K V) :
    call_once
        (CallCompiler_SortByKey.constructAndCompile P
          (cl_code ++ T_keys.ClCode ++ T_values.ClCode)
          T_keys.TypeName T_values.TypeName comp.traits.TypeName ctl) w
      = if w.initOnlyOnce = true then (.ok (), w)
        else
          match P.compile (engineCompileRequest T_keys T_values ctl comp cl_code) with
          | .ok k =>
            (.ok (),
              { w.issue (.constructAndCompileString
                  (engineCompileRequest T_keys T_values ctl comp cl_code)) with
                masterKernel := some k, initOnlyOnce := true })
          | .error diagnostic =>
            (.error (.compile diagnostic),
              w.issue (.constructAndCompileString
                (engineCompileRequest T_keys T_values ctl comp cl_code))) := by
  rw [call_once]
  by_cases hflag : w.initOnlyOnce = true
  · rw [if_pos hflag, if_pos hflag]
  · rw [if_neg hflag, if_neg hflag, CallCompiler_SortByKey.constructAndCompile,
      constructAndCompileString]
    simp only
    have hreq : ({ kernelName := "sort_by_key"
                   instantiationString :=
                     instantiationString T_keys.TypeName T_values.TypeName comp.traits.TypeName
                   userCode := cl_code ++ T_keys.ClCode ++ T_values.ClCode
                   valueTypeName := T_keys.TypeName
                   functorTypeName := comp.traits.TypeName
                   ctl := ctl } : CompileRequest)
        = engineCompileRequest T_keys T_values ctl comp cl_code := rfl
    rw [hreq]
    cases P.compile (engineCompileRequest T_keys T_values ctl comp cl_code) with
    | ok k => rfl
    | error d => rfl

end EngineFollows

section EngineSchedule

variable {K V : Type} (P : Platform K V)

/-- The operations of the loops: binds of arguments 2 and 3, launches of the one
kernel with the one pair of sizes, and waits. -/
theorem mem_passOps (k : Option Kernel) (g l : Nat) (op : Op) :
    ∀ (n p : Nat), op ∈ passOps k g l p n →
      (∃ q, op = .setArg 3 (.uint q)) ∨ op = .enqueueNDRangeKernel k g l ∨ op = .finish := by
  intro n
  induction n with
  | zero => intro p h; simp [passOps] at h
  | succ n ih =>
    intro p h
    rw [passOps] at h
    simp only [List.mem_cons] at h
    rcases h with h | h | h | h
    · exact Or.inl ⟨p, h⟩
    · exact Or.inr (Or.inl h)
    · exact Or.inr (Or.inr h)
    · exact ih (p + 1) h

/-- The operations of the stage loop. -/
theorem mem_stageOps (k : Option Kernel) (g l : Nat) (op : Op) :
    ∀ (n s : Nat), op ∈ stageOps k g l s n →
      (∃ q, op = .setArg 2 (.uint q)) ∨ (∃ q, op = .setArg 3 (.uint q))
        ∨ op = .enqueueNDRangeKernel k g l ∨ op = .finish := by
  intro n
  induction n with
  | zero => intro s h; simp [stageOps] at h
  | succ n ih =>
    intro s h
    rw [stageOps] at h
    simp only [List.mem_cons, List.mem_append] at h
    rcases h with h | h | h
    · exact Or.inl ⟨s, h⟩
    · exact Or.inr (mem_passOps k g l op _ _ h)
    · exact ih (s + 1) h

/-- The schedule of a call, split at the compile. -/
theorem engineOps_eq (T_keys T_values : TypeTraits) (ctl : control)
    (comp : StrictWeakOrdering K) (cl_code : String) (w : World K V) :
    engineOps P T_keys T_values ctl comp cl_code w
      = (if w.initOnlyOnce = true then []
          else [Op.constructAndCompileString
            (engineCompileRequest T_keys T_values ctl comp cl_code)])
        ++ ([Op.getWorkGroupInfo, .createUserFunctorBuffer, .setArg 0 (.buffer .Keys),
              .setArg 1 (.buffer .Values), .setArg 4 .userFunctor]
            ++ stageOps (kernelAfterOnce P (engineCompileRequest T_keys T_values ctl comp cl_code) w)
                (to_size_t w.keys.length / 2)
                (clampWgSize (to_size_t w.keys.length)
                  (to_size_t (P.getWorkGroupInfo
                    (kernelAfterOnce P (engineCompileRequest T_keys T_values ctl comp cl_code) w)
                    ctl.device).1))
                0 (numStagesLoop 64 (to_size_t w.keys.length) 0)
            ++ [.enqueueMapBuffer .Keys, .enqueueMapBuffer .Values]) := by
  rw [engineOps, engineWgSize]
  simp only [List.append_assoc]

/-- No operation of the schedule after the compile is a compile, and every launch
is of the kernel the once-only compile leaves. -/
theorem mem_engineOps (T_keys T_values : TypeTraits) (ctl : control)
    (comp : StrictWeakOrdering K) (cl_code : String) (w : World K V) (op : Op)
    (h : op ∈ engineOps P T_keys T_values ctl comp cl_code w) :
    (w.initOnlyOnce = false
        ∧ op = .constructAndCompileString (engineCompileRequest T_keys T_values ctl comp cl_code))
    ∨ (op.isCompile = false
        ∧ ∀ k g l, op = .enqueueNDRangeKernel k g l →
            k = kernelAfterOnce P (engineCompileRequest T_keys T_values ctl comp cl_code) w) := by
  rw [engineOps_eq] at h
  simp only [List.mem_append, List.mem_cons] at h
  rcases h with h | ((h | h | h | h | h | h) | h) | (h | h | h)
  · by_cases hflag : w.initOnlyOnce = true
    · rw [if_pos hflag] at h; simp at h
    · rw [if_neg hflag] at h
      simp only [List.mem_singleton] at h
      exact Or.inl ⟨by simpa using hflag, h⟩
  · right; subst h; exact ⟨rfl, fun _ _ _ hk => by cases hk⟩
  · right; subst h; exact ⟨rfl, fun _ _ _ hk => by cases hk⟩
  · right; subst h; exact ⟨rfl, fun _ _ _ hk => by cases hk⟩
  · right; subst h; exact ⟨rfl, fun _ _ _ hk => by cases hk⟩
  · right; subst h; exact ⟨rfl, fun _ _ _ hk => by cases hk⟩
  · simp at h
  · right
    rcases mem_stageOps _ _ _ op _ _ h with ⟨q, hq⟩ | ⟨q, hq⟩ | hq | hq
    · subst hq; exact ⟨rfl, fun _ _ _ hk => by cases hk⟩
    · subst hq; exact ⟨rfl, fun _ _ _ hk => by cases hk⟩
    · subst hq; exact ⟨rfl, fun _ _ _ hk => by cases hk; rfl⟩
    · subst hq; exact ⟨rfl, fun _ _ _ hk => by cases hk⟩
  · right; subst h; exact ⟨rfl, fun _ _ _ hk => by cases hk⟩
  · right; subst h; exact ⟨rfl, fun _ _ _ hk => by cases hk⟩
  · simp at h

/-- The engine on a size that passes the test follows its schedule, whatever
fails: the log, the outcome, standard output and the two statics. -/
theorem sort_by_key_enqueue_follows (T_keys T_values : TypeTraits) (ctl : control)
    (comp : StrictWeakOrdering K) (cl_code : String) (w : World K V)
    (htest : notPowerOfTwoTest (to_size_t w.keys.length) = false) :
    (sort_by_key_enqueue P T_keys T_values ctl comp cl_code w).2.log
        = w.log ++ (issueUntilFailure
            (engineStatus P
              (kernelAfterOnce P (engineCompileRequest T_keys T_values ctl comp cl_code) w)
              ctl.device)
            w.log (engineOps P T_keys T_values ctl comp cl_code w)).1
    ∧ ((sort_by_key_enqueue P T_keys T_values ctl comp cl_code w).1 = .ok ()
        ↔ (issueUntilFailure
            (engineStatus P
              (kernelAfterOnce P (engineCompileRequest T_keys T_values ctl comp cl_code) w)
              ctl.device)
            w.log (engineOps P T_keys T_values ctl comp cl_code w)).2 = true)
    ∧ (sort_by_key_enqueue P T_keys T_values ctl comp cl_code w).2.cout = w.cout
    ∧ (sort_by_key_enqueue P T_keys T_values ctl comp cl_code w).2.masterKernel
        = kernelAfterOnce P (engineCompileRequest T_keys T_values ctl comp cl_code) w
    ∧ ((sort_by_key_enqueue P T_keys T_values ctl comp cl_code w).2.initOnlyOnce = true
        ↔ (w.initOnlyOnce = true
            ∨ ∃ k, P.compile (engineCompileRequest T_keys T_values ctl comp cl_code) = .ok k)) := by
  have hnt : ¬ (notPowerOfTwoTest (to_size_t w.keys.length) = true) := by
    rw [htest]; exact Bool.false_ne_true
  rw [sort_by_key_enqueue_eq, if_neg hnt, call_once_compile_eq, engineOps_eq]
  by_cases hflag : w.initOnlyOnce = true
  · have hk : kernelAfterOnce P (engineCompileRequest T_keys T_values ctl comp cl_code) w
        = w.masterKernel := by rw [kernelAfterOnce, if_pos hflag]
    rw [if_pos hflag, if_pos hflag, hk, List.nil_append]
    obtain ⟨hlog, hok, hi, hm, hc⟩ :=
      follows_engineTail P ctl comp (to_size_t w.keys.length) w
    exact ⟨hlog, hok, hc, hm, by rw [show Outcome.andThen (Except.ok (), w)
        (engineTail P ctl comp (to_size_t w.keys.length))
        = engineTail P ctl comp (to_size_t w.keys.length) w from rfl, hi]; simp [hflag]⟩
  · rw [if_neg hflag, if_neg hflag]
    rcases hcomp : P.compile (engineCompileRequest T_keys T_values ctl comp cl_code) with d | k
    · have hk : kernelAfterOnce P (engineCompileRequest T_keys T_values ctl comp cl_code) w
          = w.masterKernel := by rw [kernelAfterOnce, if_neg hflag, hcomp]
      have hst : engineStatus P w.masterKernel ctl.device w.log
          (.constructAndCompileString (engineCompileRequest T_keys T_values ctl comp cl_code))
          ≠ CL_SUCCESS := by
        rw [engineStatus, hcomp]
        show (1 : Int) ≠ CL_SUCCESS
        decide
      rw [hk, List.singleton_append, issueUntilFailure_cons_fail _ _ hst]
      refine ⟨rfl, ?_, rfl, rfl, ?_⟩
      · simp [Outcome.andThen]
      · simp [Outcome.andThen, World.issue, hflag]
    · have hk : kernelAfterOnce P (engineCompileRequest T_keys T_values ctl comp cl_code) w
          = some k := by rw [kernelAfterOnce, if_neg hflag, hcomp]
      have hst : engineStatus P (some k) ctl.device w.log
          (.constructAndCompileString (engineCompileRequest T_keys T_values ctl comp cl_code))
          = CL_SUCCESS := by
        rw [engineStatus, hcomp]
      rw [hk, List.singleton_append, issueUntilFailure_cons_ok _ _ hst]
      obtain ⟨hlog, hok, hi, hm, hc⟩ :=
        follows_engineTail P ctl comp (to_size_t w.keys.length)
          { w.issue (.constructAndCompileString
              (engineCompileRequest T_keys T_values ctl comp cl_code)) with
            masterKernel := some k, initOnlyOnce := true }
      refine ⟨?_, hok, hc, hm, ?_⟩
      · show (engineTail P ctl comp (to_size_t w.keys.length) _).2.log = _
        rw [hlog]
        exact List.append_assoc _ _ _
      · show (engineTail P ctl comp (to_size_t w.keys.length) _).2.initOnlyOnce = true ↔ _
        rw [hi]
        simp

end EngineSchedule

section EngineCalls

variable {K V : Type} (P : Platform K V)

/-- After a first part that returned normally the outcome is that of the
continuation. -/
theorem andThen_of_ok (r : Outcome K V) (f : World K V → Outcome K V)
    (h : r.1 = .ok ()) : r.andThen f = f r.2 := by
  rcases r with ⟨⟨e⟩ | ⟨⟨⟩⟩, w1⟩
  · cases h
  · rfl

/-- A schedule without compile has no compile among the operations issued. -/
theorem compileCount_eq_zero_of_forall (ops : List Op)
    (h : ∀ op ∈ ops, op.isCompile = false) : compileCount ops = 0 := by
  rw [compileCount, List.countP_eq_zero]
  intro op hop
  rw [h op hop]
  exact Bool.false_ne_true

/-- The engine on a world whose once-flag is set, whatever the arguments and
however the call ends: the flag and the stored kernel stay, the compiler is not
called, and every launch is handed the stored kernel. -/
theorem sort_by_key_enqueue_warm (T_keys T_values : TypeTraits) (ctl : control)
    (comp : StrictWeakOrdering K) (cl_code : String) (w : World K V)
    (hflag : w.initOnlyOnce = true) :
    (sort_by_key_enqueue P T_keys T_values ctl comp cl_code w).2.initOnlyOnce = true
    ∧ (sort_by_key_enqueue P T_keys T_values ctl comp cl_code w).2.masterKernel = w.masterKernel
    ∧ ∃ ops, (sort_by_key_enqueue P T_keys T_values ctl comp cl_code w).2.log = w.log ++ ops
        ∧ compileCount ops = 0
        ∧ ∀ k g l, Op.enqueueNDRangeKernel k g l ∈ ops → k = w.masterKernel := by
  by_cases htest : notPowerOfTwoTest (to_size_t w.keys.length) = true
  · rw [sort_by_key_enqueue_of_test P T_keys T_values ctl comp cl_code w htest]
    exact ⟨hflag, rfl, [], (List.append_nil _).symm, rfl, fun _ _ _ h => by cases h⟩
  · have htest2 : notPowerOfTwoTest (to_size_t w.keys.length) = false := by
      simpa using htest
    obtain ⟨hlog, -, -, hm, hi⟩ :=
      sort_by_key_enqueue_follows P T_keys T_values ctl comp cl_code w htest2
    have hk : kernelAfterOnce P (engineCompileRequest T_keys T_values ctl comp cl_code) w
        = w.masterKernel := by rw [kernelAfterOnce, if_pos hflag]
    have hmem : ∀ op ∈ (issueUntilFailure
          (engineStatus P
            (kernelAfterOnce P (engineCompileRequest T_keys T_values ctl comp cl_code) w)
            ctl.device)
          w.log (engineOps P T_keys T_values ctl comp cl_code w)).1,
        op.isCompile = false
        ∧ ∀ k g l, op = .enqueueNDRangeKernel k g l → k = w.masterKernel := by
      intro op hop
      have hop2 := (issueUntilFailure_isPrefix _ _ _).subset hop
      rcases mem_engineOps P T_keys T_values ctl comp cl_code w op hop2 with ⟨hf, -⟩ | h
      · rw [hflag] at hf; cases hf
      · rw [hk] at h; exact h
    refine ⟨hi.mpr (Or.inl hflag), hm.trans hk, _, hlog, ?_, ?_⟩
    · exact compileCount_eq_zero_of_forall _ fun op hop => (hmem op hop).1
    · intro k g l hop
      exact (hmem _ hop).2 k g l rfl

/-- The first engine call of a process (once-flag unset) that returns normally:
the compiler accepted the call's request, its kernel is stored and the flag is
set, the compiler was called once, and every launch was handed that kernel. -/
theorem sort_by_key_enqueue_cold_ok (T_keys T_values : TypeTraits) (ctl : control)
    (comp : StrictWeakOrdering K) (cl_code : String) (w : World K V)
    (hflag : w.initOnlyOnce = false)
    (hok : (sort_by_key_enqueue P T_keys T_values ctl comp cl_code w).1 = .ok ()) :
    ∃ k, P.compile (engineCompileRequest T_keys T_values ctl comp cl_code) = .ok k
      ∧ (sort_by_key_enqueue P T_keys T_values ctl comp cl_code w).2.initOnlyOnce = true
      ∧ (sort_by_key_enqueue P T_keys T_values ctl comp cl_code w).2.masterKernel = some k
      ∧ ∃ ops, (sort_by_key_enqueue P T_keys T_values ctl comp cl_code w).2.log = w.log ++ ops
          ∧ compileCount ops = 1
          ∧ ∀ k1 g l, Op.enqueueNDRangeKernel k1 g l ∈ ops → k1 = some k := by
  have hflag2 : ¬ (w.initOnlyOnce = true) := by rw [hflag]; exact Bool.false_ne_true
  by_cases htest : notPowerOfTwoTest (to_size_t w.keys.length) = true
  · rw [sort_by_key_enqueue_of_test P T_keys T_values ctl comp cl_code w htest] at hok
    cases hok
  · have htest2 : notPowerOfTwoTest (to_size_t w.keys.length) = false := by
      simpa using htest
    obtain ⟨hlog, hiff, -, hm, hi⟩ :=
      sort_by_key_enqueue_follows P T_keys T_values ctl comp cl_code w htest2
    have hall := hiff.mp hok
    have hops := issueUntilFailure_all_ok _ _ _ hall
    rw [hops] at hlog
    rcases hcomp : P.compile (engineCompileRequest T_keys T_values ctl comp cl_code) with d | k
    · exfalso
      rw [engineOps_eq, if_neg hflag2, List.singleton_append,
        issueUntilFailure_cons_fail _ _ (by
          rw [engineStatus, hcomp]
          show (1 : Int) ≠ CL_SUCCESS
          decide)] at hall
      cases hall
    · have hk : kernelAfterOnce P (engineCompileRequest T_keys T_values ctl comp cl_code) w
          = some k := by rw [kernelAfterOnce, if_neg hflag2, hcomp]
      refine ⟨k, rfl, hi.mpr (Or.inr ⟨k, hcomp⟩), hm.trans hk, _, hlog, ?_, ?_⟩
      · rw [engineOps_eq, if_neg hflag2, List.singleton_append, compileCount,
          List.countP_cons_of_pos _ _ rfl]
        have h0 := compileCount_eq_zero_of_forall
          ([Op.getWorkGroupInfo, .createUserFunctorBuffer, .setArg 0 (.buffer .Keys),
              .setArg 1 (.buffer .Values), .setArg 4 .userFunctor]
            ++ stageOps (kernelAfterOnce P (engineCompileRequest T_keys T_values ctl comp cl_code) w)
                (to_size_t w.keys.length / 2)
                (clampWgSize (to_size_t w.keys.length)
                  (to_size_t (P.getWorkGroupInfo
                    (kernelAfterOnce P (engineCompileRequest T_keys T_values ctl comp cl_code) w)
                    ctl.device).1))
                0 (numStagesLoop 64 (to_size_t w.keys.length) 0)
            ++ [.enqueueMapBuffer .Keys, .enqueueMapBuffer .Values]) (by
          intro op hop
          have hop2 : op ∈ engineOps P T_keys T_values ctl comp cl_code w := by
            rw [engineOps_eq]; exact List.mem_append_right _ hop
          rcases mem_engineOps P T_keys T_values ctl comp cl_code w op hop2 with ⟨-, h⟩ | h
          · rw [h]
            exfalso
            rw [h] at hop
            simp only [List.mem_append, List.mem_cons] at hop
            rcases hop with ((h1 | h1 | h1 | h1 | h1 | h1) | h1) | (h1 | h1 | h1)
            · cases h1
            · cases h1
            · cases h1
            · cases h1
            · cases h1
            · simp at h1
            · rcases mem_stageOps _ _ _ _ _ _ h1 with ⟨q, hq⟩ | ⟨q, hq⟩ | hq | hq <;> cases hq
            · cases h1
            · cases h1
            · simp at h1
          · exact h.1)
        rw [compileCount] at h0
        rw [h0]
      · intro k1 g l hop
        rcases mem_engineOps P T_keys T_values ctl comp cl_code w _ hop with ⟨-, h⟩ | h
        · cases h
        · rw [← hk]; exact h.2 k1 g l rfl

/-- Engine calls made one after another on a world whose once-flag is set,
whatever their arguments and however they end: the flag and the stored kernel
stay, the compiler is not called, and every launch is handed the stored
kernel. -/
theorem runCalls_warm :
    ∀ (cs : List (EngineCall K V)) (w : World K V), w.initOnlyOnce = true →
      (runCalls P cs w).2.initOnlyOnce = true
      ∧ (runCalls P cs w).2.masterKernel = w.masterKernel
      ∧ ∃ ops, (runCalls P cs w).2.log = w.log ++ ops
          ∧ compileCount ops = 0
          ∧ ∀ k g l, Op.enqueueNDRangeKernel k g l ∈ ops → k = w.masterKernel := by
  intro cs
  induction cs with
  | nil =>
    intro w hflag
    exact ⟨hflag, rfl, [], (List.append_nil _).symm, rfl, fun _ _ _ h => by cases h⟩
  | cons c cs ih =>
    intro w hflag
    obtain ⟨hi, hm, ops, hlog, hc, hl⟩ :=
      sort_by_key_enqueue_warm P c.T_keys c.T_values c.ctl c.comp c.cl_code
        { w with keys := c.keys, values := c.values } hflag
    rw [runCalls]
    change (c.run P w).2.initOnlyOnce = true at hi
    change (c.run P w).2.masterKernel = w.masterKernel at hm
    change (c.run P w).2.log = w.log ++ ops at hlog
    rcases hrun : c.run P w with ⟨⟨e⟩ | ⟨⟨⟩⟩, w1⟩
    · rw [hrun] at hi hm hlog
      exact ⟨hi, hm, ops, hlog, hc, hl⟩
    · rw [hrun] at hi hm hlog
      obtain ⟨hi2, hm2, ops2, hlog2, hc2, hl2⟩ := ih w1 hi
      refine ⟨hi2, hm2.trans hm, ops ++ ops2, ?_, ?_, ?_⟩
      · show (runCalls P cs w1).2.log = _
        rw [hlog2, hlog, List.append_assoc]
      · rw [compileCount, List.countP_append]
        rw [compileCount] at hc hc2
        rw [hc, hc2]
      · intro k g l hop
        rcases List.mem_append.mp hop with h | h
        · exact hl k g l h
        · rw [hl2 k g l h, hm]

end EngineCalls

/-! ## Once-only compile -/

/-- C12, the claim as stated fails. Three calls of one instantiation on a
compiler whose kernel handle is the length of the prelude plus 100 times the
device: prelude `"A"` on device 0, then prelude `"BB"` on device 0, then prelude
`"A"` on device 1. The three compilation keys differ and the later two would
compile to kernels 2 and 101, yet all calls return normally, the compiler is
called once in all, and the launches of the second and the third call are
handed kernel 1. -/
theorem C12_counterexample :
    engineCompileRequest T_int T_char ⟨.Automatic, 0, 8⟩
        (less T_functor : StrictWeakOrdering Nat) "BB"
        ≠ engineCompileRequest T_int T_char ⟨.Automatic, 0, 8⟩
            (less T_functor : StrictWeakOrdering Nat) "A"
    ∧ engineCompileRequest T_int T_char ⟨.Automatic, 1, 8⟩
        (less T_functor : StrictWeakOrdering Nat) "A"
        ≠ engineCompileRequest T_int T_char ⟨.Automatic, 0, 8⟩
            (less T_functor : StrictWeakOrdering Nat) "A"
    ∧ preludePlatform.compile
        (engineCompileRequest T_int T_char ⟨.Automatic, 0, 8⟩
          (less T_functor : StrictWeakOrdering Nat) "BB") = .ok ⟨2⟩
    ∧ preludePlatform.compile
        (engineCompileRequest T_int T_char ⟨.Automatic, 1, 8⟩
          (less T_functor : StrictWeakOrdering Nat) "A") = .ok ⟨101⟩
    ∧ (runCalls preludePlatform [preludeCall 0 "A", preludeCall 0 "BB", preludeCall 1 "A"]
        (freshWorld [] [])).1 = .ok ()
    ∧ compileCount (runCalls preludePlatform
        [preludeCall 0 "A", preludeCall 0 "BB", preludeCall 1 "A"] (freshWorld [] [])).2.log = 1
    ∧ launchKernels ((runCalls preludePlatform
          [preludeCall 0 "A", preludeCall 0 "BB", preludeCall 1 "A"] (freshWorld [] [])).2.log.drop
        ((preludeCall 0 "A").run preludePlatform (freshWorld [] [])).2.log.length)
        = [some ⟨1⟩, some ⟨1⟩] :=
  ⟨fun h => absurd (congrArg CompileRequest.userCode h) (by decide),
    fun h => absurd (congrArg (fun req => req.ctl.device) h) (by decide),
    rfl, rfl, by decide, by decide, by decide⟩

/-- C12 as amended. The once-only compile is one slot per instantiation of the
engine, not a map by compilation key. When the first call of an instantiation
(once-flag unset) returns normally, the compiler accepted that call's request
with some kernel `k`; whatever calls of the instantiation follow, with whatever
prelude, control or device and however they end, the compiler is called once in
all, the stored kernel stays `k`, and every launch is handed `k`. -/
theorem C12_later_calls_reuse_the_first_kernel {K V : Type} (P : Platform K V)
    (c : EngineCall K V) (cs : List (EngineCall K V)) (w : World K V)
    (hflag : w.initOnlyOnce = false) (hok : (c.run P w).1 = .ok ()) :
    ∃ k, P.compile (engineCompileRequest c.T_keys c.T_values c.ctl c.comp c.cl_code) = .ok k
      ∧ compileCount (runCalls P (c :: cs) w).2.log = compileCount w.log + 1
      ∧ (runCalls P (c :: cs) w).2.masterKernel = some k
      ∧ ∀ k1 g l,
          Op.enqueueNDRangeKernel k1 g l ∈ (runCalls P (c :: cs) w).2.log.drop w.log.length →
            k1 = some k := by
  rw [runCalls, andThen_of_ok _ _ hok]
  obtain ⟨k, hcomp, hi, hm, ops, hlog, hc, hl⟩ :=
    sort_by_key_enqueue_cold_ok P c.T_keys c.T_values c.ctl c.comp c.cl_code
      { w with keys := c.keys, values := c.values } hflag hok
  change (c.run P w).2.initOnlyOnce = true at hi
  change (c.run P w).2.masterKernel = some k at hm
  change (c.run P w).2.log = w.log ++ ops at hlog
  obtain ⟨-, hm2, ops2, hlog2, hc2, hl2⟩ := runCalls_warm P cs (c.run P w).2 hi
  refine ⟨k, hcomp, ?_, hm2.trans hm, ?_⟩
  · rw [hlog2, hlog, compileCount, List.countP_append, List.countP_append]
    rw [compileCount] at hc hc2
    rw [hc, hc2, compileCount]
  · intro k1 g l hop
    rw [hlog2, hlog, List.append_assoc, List.drop_left] at hop
    rcases List.mem_append.mp hop with h | h
    · exact hl k1 g l h
    · rw [hl2 k1 g l h, hm]

/-- C12 as amended, at the three calls of the counterexample. -/
theorem C12_witness :
    ∃ k, preludePlatform.compile
          (engineCompileRequest (preludeCall 0 "A").T_keys (preludeCall 0 "A").T_values
            (preludeCall 0 "A").ctl (preludeCall 0 "A").comp (preludeCall 0 "A").cl_code) = .ok k
      ∧ compileCount (runCalls preludePlatform
          [preludeCall 0 "A", preludeCall 0 "BB", preludeCall 1 "A"] (freshWorld [] [])).2.log
          = compileCount (freshWorld [] []).log + 1
      ∧ (runCalls preludePlatform
          [preludeCall 0 "A", preludeCall 0 "BB", preludeCall 1 "A"]
          (freshWorld [] [])).2.masterKernel = some k
      ∧ ∀ k1 g l,
          Op.enqueueNDRangeKernel k1 g l ∈ (runCalls preludePlatform
            [preludeCall 0 "A", preludeCall 0 "BB", preludeCall 1 "A"]
            (freshWorld [] [])).2.log.drop (freshWorld [] []).log.length →
            k1 = some k :=
  C12_later_calls_reuse_the_first_kernel preludePlatform (preludeCall 0 "A")
    [preludeCall 0 "BB", preludeCall 1 "A"] (freshWorld [] []) rfl (by decide)

/-- C13, the claim as stated fails. On a compiler that rejects every request the
first call ends with the compile error and one compiler call in the log; the
same call made again ends with the same error and the compiler has been called
a second time. -/
theorem C13_counterexample :
    ((preludeCall 0 "A").run rejectingPlatform (freshWorld [] [])).1
        = .error (.compile "build failed")
    ∧ compileCount ((preludeCall 0 "A").run rejectingPlatform (freshWorld [] [])).2.log = 1
    ∧ ((preludeCall 0 "A").run rejectingPlatform
        ((preludeCall 0 "A").run rejectingPlatform (freshWorld [] [])).2).1
        = .error (.compile "build failed")
    ∧ compileCount ((preludeCall 0 "A").run rejectingPlatform
        ((preludeCall 0 "A").run rejectingPlatform (freshWorld [] [])).2).2.log = 2 := by
  decide

section ColdCalls

variable {K V : Type} (P : Platform K V)

/-- A call on a world whose once-flag is unset, with a size that passes the test
and a request the compiler rejects: the compile error, the compiler call as the
only operation issued, and both statics as they were. -/
theorem run_of_rejected (c : EngineCall K V) (w : World K V) (d : String)
    (hflag : w.initOnlyOnce = false)
    (htest : notPowerOfTwoTest (to_size_t c.keys.length) = false)
    (hcomp : P.compile (engineCompileRequest c.T_keys c.T_values c.ctl c.comp c.cl_code)
      = .error d) :
    c.run P w
      = (.error (.compile d),
          { w with
            keys := c.keys
            values := c.values
            log := w.log ++ [.constructAndCompileString
              (engineCompileRequest c.T_keys c.T_values c.ctl c.comp c.cl_code)] }) := by
  have hf2 : ¬ ((({ w with keys := c.keys, values := c.values } : World K V)).initOnlyOnce
      = true) := by
    show ¬ (w.initOnlyOnce = true)
    rw [hflag]; exact Bool.false_ne_true
  have ht2 : ¬ (notPowerOfTwoTest (to_size_t
      (({ w with keys := c.keys, values := c.values } : World K V)).keys.length) = true) := by
    show ¬ (notPowerOfTwoTest (to_size_t c.keys.length) = true)
    rw [htest]; exact Bool.false_ne_true
  rw [EngineCall.run, sort_by_key_enqueue_eq, if_neg ht2, call_once_compile_eq, if_neg hf2, hcomp]
  rfl

/-- A call that does not compile successfully, because its size fails the test or
because the compiler rejects its request, leaves an unset once-flag unset and
the stored kernel as it was. -/
theorem run_keeps_cold (c : EngineCall K V) (w : World K V)
    (hflag : w.initOnlyOnce = false)
    (hc : notPowerOfTwoTest (to_size_t c.keys.length) = true
      ∨ ∃ d, P.compile (engineCompileRequest c.T_keys c.T_values c.ctl c.comp c.cl_code)
          = .error d) :
    (c.run P w).2.initOnlyOnce = false ∧ (c.run P w).2.masterKernel = w.masterKernel := by
  by_cases htest : notPowerOfTwoTest (to_size_t c.keys.length) = true
  · rw [EngineCall.run, sort_by_key_enqueue_of_test P c.T_keys c.T_values c.ctl c.comp c.cl_code
      { w with keys := c.keys, values := c.values } htest]
    exact ⟨hflag, rfl⟩
  · rcases hc with h | ⟨d, hd⟩
    · exact absurd h htest
    · rw [run_of_rejected P c w d hflag (by simpa using htest) hd]
      exact ⟨hflag, rfl⟩

/-- Calls none of which compiles successfully, made one after another by a
caller that catches what they throw, leave an unset once-flag unset and the
stored kernel as it was. -/
theorem runCallsCatching_keeps_cold :
    ∀ (cs : List (EngineCall K V)) (w : World K V), w.initOnlyOnce = false →
      (∀ c ∈ cs, notPowerOfTwoTest (to_size_t c.keys.length) = true
        ∨ ∃ d, P.compile (engineCompileRequest c.T_keys c.T_values c.ctl c.comp c.cl_code)
            = .error d) →
      (runCallsCatching P cs w).initOnlyOnce = false
      ∧ (runCallsCatching P cs w).masterKernel = w.masterKernel := by
  intro cs
  induction cs with
  | nil =>
    intro w hflag _
    exact ⟨hflag, rfl⟩
  | cons c cs ih =>
    intro w hflag hcs
    obtain ⟨hi, hm⟩ := run_keeps_cold P c w hflag (hcs c (List.mem_cons_self c cs))
    obtain ⟨hi2, hm2⟩ := ih (c.run P w).2 hi
      (fun c2 hc2 => hcs c2 (List.mem_cons_of_mem c hc2))
    rw [runCallsCatching] at hi2 hm2
    rw [runCallsCatching, List.foldl_cons]
    exact ⟨hi2, hm2.trans hm⟩

/-- No operation of the schedule after the compile is a compiler call. -/
theorem isCompile_of_mem_tail (k : Option Kernel) (g l numStages : Nat) (op : Op)
    (h : op ∈ [Op.getWorkGroupInfo, .createUserFunctorBuffer, .setArg 0 (.buffer .Keys),
          .setArg 1 (.buffer .Values), .setArg 4 .userFunctor]
        ++ stageOps k g l 0 numStages
        ++ [.enqueueMapBuffer .Keys, .enqueueMapBuffer .Values]) :
    op.isCompile = false := by
  simp only [List.mem_append, List.mem_cons] at h
  rcases h with ((h | h | h | h | h | h) | h) | (h | h | h)
  · rw [h]; rfl
  · rw [h]; rfl
  · rw [h]; rfl
  · rw [h]; rfl
  · rw [h]; rfl
  · simp at h
  · rcases mem_stageOps _ _ _ _ _ _ h with ⟨q, hq⟩ | ⟨q, hq⟩ | hq | hq <;> (rw [hq]; rfl)
  · rw [h]; rfl
  · rw [h]; rfl
  · simp at h

/-- A call on a world whose once-flag is unset, with a size that passes the test,
whatever the compiler answers: the first operation it issues is the compiler
call with its own request, and it issues no other compiler call. -/
theorem run_cold_compiles_once (c : EngineCall K V) (w : World K V)
    (hflag : w.initOnlyOnce = false)
    (htest : notPowerOfTwoTest (to_size_t c.keys.length) = false) :
    ∃ rest, (c.run P w).2.log
        = w.log ++ Op.constructAndCompileString
            (engineCompileRequest c.T_keys c.T_values c.ctl c.comp c.cl_code) :: rest
      ∧ compileCount rest = 0 := by
  have hflag2 : ¬ ((({ w with keys := c.keys, values := c.values } : World K V)).initOnlyOnce
      = true) := by
    show ¬ (w.initOnlyOnce = true)
    rw [hflag]; exact Bool.false_ne_true
  obtain ⟨hlog, -, -, -, -⟩ :=
    sort_by_key_enqueue_follows P c.T_keys c.T_values c.ctl c.comp c.cl_code
      { w with keys := c.keys, values := c.values } htest
  rw [engineOps_eq, if_neg hflag2, List.singleton_append] at hlog
  rw [EngineCall.run, hlog]
  by_cases hop : engineStatus P
      (kernelAfterOnce P (engineCompileRequest c.T_keys c.T_values c.ctl c.comp c.cl_code)
        { w with keys := c.keys, values := c.values })
      c.ctl.device w.log
      (.constructAndCompileString
        (engineCompileRequest c.T_keys c.T_values c.ctl c.comp c.cl_code)) = CL_SUCCESS
  · rw [issueUntilFailure_cons_ok _ _ hop]
    refine ⟨_, rfl, ?_⟩
    apply compileCount_eq_zero_of_forall
    intro op hmem
    exact isCompile_of_mem_tail _ _ _ _ op ((issueUntilFailure_isPrefix _ _ _).subset hmem)
  · rw [issueUntilFailure_cons_fail _ _ hop]
    exact ⟨[], rfl, rfl⟩

end ColdCalls

/-- C13 as amended. A failed compile is not cached. A call made while the
once-flag is unset, with a size that passes the power-of-two test and a request
the compiler rejects, ends with the compile error, has issued the compiler call
and nothing after it, and leaves the once-flag unset and the stored kernel as
it was. Whatever calls of the instantiation follow, as long as none of them
compiles successfully (each is rejected by the size test or by the compiler),
the once-flag stays unset and the stored kernel unchanged, and a further call
whose size passes the test calls the compiler again: the first operation it
issues is the compiler call with its own request, it issues no other compiler
call, and if the compiler rejects that request it ends as the first call did. -/
theorem C13_failed_compile_is_retried {K V : Type} (P : Platform K V)
    (c : EngineCall K V) (cs : List (EngineCall K V)) (c1 : EngineCall K V) (w : World K V)
    (d : String)
    (hflag : w.initOnlyOnce = false)
    (htest : notPowerOfTwoTest (to_size_t c.keys.length) = false)
    (hcomp : P.compile (engineCompileRequest c.T_keys c.T_values c.ctl c.comp c.cl_code)
      = .error d)
    (hcs : ∀ c2 ∈ cs, notPowerOfTwoTest (to_size_t c2.keys.length) = true
      ∨ ∃ d2, P.compile (engineCompileRequest c2.T_keys c2.T_values c2.ctl c2.comp c2.cl_code)
          = .error d2)
    (htest1 : notPowerOfTwoTest (to_size_t c1.keys.length) = false) :
    c.run P w
        = (.error (.compile d),
            { w with
              keys := c.keys
              values := c.values
              log := w.log ++ [.constructAndCompileString
                (engineCompileRequest c.T_keys c.T_values c.ctl c.comp c.cl_code)] })
    ∧ (runCallsCatching P (c :: cs) w).initOnlyOnce = false
    ∧ (runCallsCatching P (c :: cs) w).masterKernel = w.masterKernel
    ∧ (∃ rest, (c1.run P (runCallsCatching P (c :: cs) w)).2.log
          = (runCallsCatching P (c :: cs) w).log
            ++ Op.constructAndCompileString
                (engineCompileRequest c1.T_keys c1.T_values c1.ctl c1.comp c1.cl_code) :: rest
        ∧ compileCount rest = 0)
    ∧ ∀ d1,
        P.compile (engineCompileRequest c1.T_keys c1.T_values c1.ctl c1.comp c1.cl_code)
          = .error d1 →
        c1.run P (runCallsCatching P (c :: cs) w)
          = (.error (.compile d1),
              { runCallsCatching P (c :: cs) w with
                keys := c1.keys
                values := c1.values
                log := (runCallsCatching P (c :: cs) w).log ++ [.constructAndCompileString
                  (engineCompileRequest c1.T_keys c1.T_values c1.ctl c1.comp c1.cl_code)] }) := by
  have hall : ∀ c2 ∈ c :: cs, notPowerOfTwoTest (to_size_t c2.keys.length) = true
      ∨ ∃ d2, P.compile
          (engineCompileRequest c2.T_keys c2.T_values c2.ctl c2.comp c2.cl_code) = .error d2 := by
    intro c2 hc2
    rcases List.mem_cons.mp hc2 with h | h
    · rw [h]; exact Or.inr ⟨d, hcomp⟩
    · exact hcs c2 h
  obtain ⟨hi, hm⟩ := runCallsCatching_keeps_cold P (c :: cs) w hflag hall
  exact ⟨run_of_rejected P c w d hflag htest hcomp, hi, hm,
    run_cold_compiles_once P c1 _ hi htest1,
    fun d1 hd1 => run_of_rejected P c1 _ d1 hi htest1 hd1⟩

/-- C13 as amended, on a compiler that rejects the prelude `"A"` and compiles
every other request to kernel 1: the call with prelude `"A"` fails in the
compiler, a call on three keys is rejected by the size test, the call with
prelude `"A"` fails in the compiler once more, and the call with prelude
`"BB"` that follows calls the compiler again. -/
theorem C13_witness :
    (preludeCall 0 "A").run selectivePlatform (freshWorld [] [])
        = (.error (.compile "build failed"),
            { freshWorld [] [] with
              keys := (preludeCall 0 "A").keys
              values := (preludeCall 0 "A").values
              log := (freshWorld [] []).log ++ [.constructAndCompileString
                (engineCompileRequest (preludeCall 0 "A").T_keys (preludeCall 0 "A").T_values
                  (preludeCall 0 "A").ctl (preludeCall 0 "A").comp (preludeCall 0 "A").cl_code)] })
    ∧ (runCallsCatching selectivePlatform
        [preludeCall 0 "A", sampleCall (controlWith .Automatic) "BB" [3, 1, 2] ['x', 'y', 'z'],
          preludeCall 0 "A"] (freshWorld [] [])).initOnlyOnce = false
    ∧ (runCallsCatching selectivePlatform
        [preludeCall 0 "A", sampleCall (controlWith .Automatic) "BB" [3, 1, 2] ['x', 'y', 'z'],
          preludeCall 0 "A"] (freshWorld [] [])).masterKernel = (freshWorld [] []).masterKernel
    ∧ (∃ rest, ((preludeCall 0 "BB").run selectivePlatform
          (runCallsCatching selectivePlatform
            [preludeCall 0 "A", sampleCall (controlWith .Automatic) "BB" [3, 1, 2] ['x', 'y', 'z'],
              preludeCall 0 "A"] (freshWorld [] []))).2.log
          = (runCallsCatching selectivePlatform
              [preludeCall 0 "A",
                sampleCall (controlWith .Automatic) "BB" [3, 1, 2] ['x', 'y', 'z'],
                preludeCall 0 "A"] (freshWorld [] [])).log
            ++ Op.constructAndCompileString
                (engineCompileRequest (preludeCall 0 "BB").T_keys (preludeCall 0 "BB").T_values
                  (preludeCall 0 "BB").ctl (preludeCall 0 "BB").comp
                  (preludeCall 0 "BB").cl_code) :: rest
        ∧ compileCount rest = 0)
    ∧ ∀ d1,
        selectivePlatform.compile
            (engineCompileRequest (preludeCall 0 "BB").T_keys (preludeCall 0 "BB").T_values
              (preludeCall 0 "BB").ctl (preludeCall 0 "BB").comp (preludeCall 0 "BB").cl_code)
          = .error d1 →
        (preludeCall 0 "BB").run selectivePlatform
            (runCallsCatching selectivePlatform
              [preludeCall 0 "A",
                sampleCall (controlWith .Automatic) "BB" [3, 1, 2] ['x', 'y', 'z'],
                preludeCall 0 "A"] (freshWorld [] []))
          = (.error (.compile d1),
              { runCallsCatching selectivePlatform
                  [preludeCall 0 "A",
                    sampleCall (controlWith .Automatic) "BB" [3, 1, 2] ['x', 'y', 'z'],
                    preludeCall 0 "A"] (freshWorld [] []) with
                keys := (preludeCall 0 "BB").keys
                values := (preludeCall 0 "BB").values
                log := (runCallsCatching selectivePlatform
                    [preludeCall 0 "A",
                      sampleCall (controlWith .Automatic) "BB" [3, 1, 2] ['x', 'y', 'z'],
                      preludeCall 0 "A"] (freshWorld [] [])).log ++ [.constructAndCompileString
                  (engineCompileRequest (preludeCall 0 "BB").T_keys (preludeCall 0 "BB").T_values
                    (preludeCall 0 "BB").ctl (preludeCall 0 "BB").comp
                    (preludeCall 0 "BB").cl_code)] }) :=
  C13_failed_compile_is_retried selectivePlatform (preludeCall 0 "A")
    [sampleCall (controlWith .Automatic) "BB" [3, 1, 2] ['x', 'y', 'z'], preludeCall 0 "A"]
    (preludeCall 0 "BB") (freshWorld [] []) "build failed" rfl (by decide) rfl
    (fun c2 hc2 => by
      rcases List.mem_cons.mp hc2 with h | h
      · rw [h]; exact Or.inl (by decide)
      · rw [List.mem_singleton.mp h]; exact Or.inr ⟨"build failed", rfl⟩)
    (by decide)

/-! ## The launches of a call -/

section Launches

/-- The stage count of a power of two is its exponent. -/
theorem numStagesLoop_two_pow :
    ∀ (fuel k numStages : Nat), k ≤ fuel →
      numStagesLoop fuel (2 ^ k) numStages = numStages + k := by
  intro fuel
  induction fuel with
  | zero =>
    intro k numStages hk
    have hk0 : k = 0 := Nat.le_zero.mp hk
    subst hk0
    rfl
  | succ fuel ih =>
    intro k numStages hk
    cases k with
    | zero =>
      rw [numStagesLoop, if_neg (by decide)]
      rfl
    | succ k =>
      have hgt : 2 ^ (k + 1) > 1 := Nat.one_lt_two_pow (Nat.succ_ne_zero k)
      have hshift : 2 ^ (k + 1) >>> 1 = 2 ^ k := by
        rw [Nat.shiftRight_eq_div_pow, pow_one, pow_succ, Nat.mul_div_cancel _ (by decide)]
      rw [numStagesLoop, if_pos hgt, hshift, ih k (numStages + 1) (Nat.le_of_succ_le_succ hk)]
      omega

/-- The launches of the passes of one stage, followed by operations whose
launches do not depend on the arguments bound before them. -/
theorem launchesFrom_passOps (k : Option Kernel) (g l stage : Nat) (rest : List Op)
    (R : List Launch) (hrest : ∀ s p, launchesFrom s p rest = R) :
    ∀ (n p0 : Nat) (p : Option Nat),
      launchesFrom (some stage) p (passOps k g l p0 n ++ rest)
        = (List.range' p0 n).map (fun q => (⟨some stage, some q, g, l⟩ : Launch)) ++ R := by
  intro n
  induction n with
  | zero =>
    intro p0 p
    rw [passOps, List.nil_append, hrest]
    rfl
  | succ n ih =>
    intro p0 p
    rw [passOps, List.range'_succ, List.map_cons, List.cons_append]
    show (⟨some stage, some p0, g, l⟩ : Launch)
        :: launchesFrom (some stage) (some p0) (passOps k g l (p0 + 1) n ++ rest) = _
    rw [ih (p0 + 1) (some p0)]
    rfl

/-- The launches of the stages, followed by operations whose launches do not
depend on the arguments bound before them. -/
theorem launchesFrom_stageOps (k : Option Kernel) (g l : Nat) (rest : List Op)
    (R : List Launch) (hrest : ∀ s p, launchesFrom s p rest = R) :
    ∀ (n s0 : Nat) (s p : Option Nat),
      launchesFrom s p (stageOps k g l s0 n ++ rest)
        = ((List.range' s0 n).flatMap fun stage =>
            (List.range' 0 (stage + 1)).map fun q => (⟨some stage, some q, g, l⟩ : Launch))
          ++ R := by
  intro n
  induction n with
  | zero =>
    intro s0 s p
    rw [stageOps, List.nil_append, hrest]
    rfl
  | succ n ih =>
    intro s0 s p
    rw [stageOps, List.cons_append, List.append_assoc, List.range'_succ, List.flatMap_cons,
      List.append_assoc]
    show launchesFrom (some s0) p
        (passOps k g l 0 (s0 + 1) ++ (stageOps k g l (s0 + 1) n ++ rest)) = _
    rw [launchesFrom_passOps k g l s0 (stageOps k g l (s0 + 1) n ++ rest) _
      (fun s1 p1 => ih (s0 + 1) s1 p1)]

/-- Twice the number of stage and pass pairs below `k`. -/
theorem two_mul_length_stagePassPairs (k : Nat) :
    2 * (stagePassPairs k).length = k * (k + 1) := by
  induction k with
  | zero => rfl
  | succ k ih =>
    have h : (stagePassPairs (k + 1)).length = (stagePassPairs k).length + (k + 1) := by
      simp [stagePassPairs, List.range_succ, List.flatMap_append]
    rw [h, Nat.mul_add, ih]
    ring

end Launches

section EngineLaunches

variable {K V : Type} (P : Platform K V)

/-- A schedule on which every operation succeeds is issued without failure. -/
theorem issueUntilFailure_of_success (st : List Op → Op → Int) :
    ∀ (ops log : List Op), (∀ log1 op, op ∈ ops → st log1 op = CL_SUCCESS) →
      (issueUntilFailure st log ops).2 = true := by
  intro ops
  induction ops with
  | nil => intro log _; rfl
  | cons op ops ih =>
    intro log h
    rw [issueUntilFailure_cons_ok st ops (h log op (List.mem_cons_self _ _))]
    exact ih _ fun log1 op1 hop1 => h log1 op1 (List.mem_cons_of_mem _ hop1)

/-- On a platform whose status codes are all `CL_SUCCESS` the engine reads
`CL_SUCCESS` after every operation but a rejected compile. -/
theorem engineStatus_of_success (k : Option Kernel) (device : Nat)
    (hstatus : ∀ log op, P.status log op = CL_SUCCESS)
    (hinfo : ∀ k1 d, (P.getWorkGroupInfo k1 d).2 = CL_SUCCESS)
    (log : List Op) (op : Op) (hop : op.isCompile = false) :
    engineStatus P k device log op = CL_SUCCESS := by
  cases op with
  | device_vector b => exact hstatus _ _
  | constructAndCompileString req => cases hop
  | getWorkGroupInfo => exact hinfo _ _
  | createUserFunctorBuffer => rfl
  | setArg index arg => exact hstatus _ _
  | enqueueNDRangeKernel k1 g l => exact hstatus _ _
  | finish => exact hstatus _ _
  | enqueueMapBuffer b =>
    cases b with
    | Keys => rfl
    | Values => exact hstatus _ _
  | data b => exact hstatus _ _

/-- The launches of the whole schedule of a call: per stage in increasing order,
per pass in increasing order within the stage, all with the same sizes. -/
theorem launchesFrom_engineOps (T_keys T_values : TypeTraits) (ctl : control)
    (comp : StrictWeakOrdering K) (cl_code : String) (w : World K V) (s0 p0 : Option Nat) :
    launchesFrom s0 p0 (engineOps P T_keys T_values ctl comp cl_code w)
      = (List.range' 0 (numStagesLoop 64 (to_size_t w.keys.length) 0)).flatMap fun stage =>
          (List.range' 0 (stage + 1)).map fun q =>
            (⟨some stage, some q, to_size_t w.keys.length / 2,
              engineWgSize P T_keys T_values ctl comp cl_code w⟩ : Launch) := by
  have htail : ∀ s p,
      launchesFrom s p
        ([Op.getWorkGroupInfo, .createUserFunctorBuffer, .setArg 0 (.buffer .Keys),
              .setArg 1 (.buffer .Values), .setArg 4 .userFunctor]
            ++ (stageOps (kernelAfterOnce P (engineCompileRequest T_keys T_values ctl comp cl_code) w)
                (to_size_t w.keys.length / 2)
                (clampWgSize (to_size_t w.keys.length)
                  (to_size_t (P.getWorkGroupInfo
                    (kernelAfterOnce P (engineCompileRequest T_keys T_values ctl comp cl_code) w)
                    ctl.device).1))
                0 (numStagesLoop 64 (to_size_t w.keys.length) 0)
            ++ [.enqueueMapBuffer .Keys, .enqueueMapBuffer .Values]))
        = (List.range' 0 (numStagesLoop 64 (to_size_t w.keys.length) 0)).flatMap fun stage =>
            (List.range' 0 (stage + 1)).map fun q =>
              (⟨some stage, some q, to_size_t w.keys.length / 2,
                engineWgSize P T_keys T_values ctl comp cl_code w⟩ : Launch) := by
    intro s p
    show launchesFrom s p
        (stageOps (kernelAfterOnce P (engineCompileRequest T_keys T_values ctl comp cl_code) w)
            (to_size_t w.keys.length / 2)
            (engineWgSize P T_keys T_values ctl comp cl_code w)
            0 (numStagesLoop 64 (to_size_t w.keys.length) 0)
          ++ [.enqueueMapBuffer .Keys, .enqueueMapBuffer .Values]) = _
    rw [launchesFrom_stageOps _ _ _ [.enqueueMapBuffer .Keys, .enqueueMapBuffer .Values] []
      (fun _ _ => rfl), List.append_nil]
  rw [engineOps_eq, List.append_assoc]
  by_cases hflag : w.initOnlyOnce = true
  · rw [if_pos hflag, List.nil_append]
    exact htail s0 p0
  · rw [if_neg hflag, List.singleton_append]
    exact htail s0 p0

end EngineLaunches

/-- C19. An engine call on `N = 2 ^ k` keys (`k < 64`, so that `N` fits a
`size_t`; `k = 0` included). The stage count is `k`. If the call returns
normally, its launches, each identified by the values bound to arguments 2 and
3 when it is issued and by its global size, are the pairs `(stage, pass)` with
`pass ≤ stage < k` in lexicographic order, each with global size `N / 2`; there
are `k * (k + 1) / 2` of them. And the call does return normally when no
platform operation fails and the kernel is compiled or gets compiled. -/
theorem C19_launches_are_the_stage_pass_pairs_in_order {K V : Type} (P : Platform K V)
    (T_keys T_values : TypeTraits) (ctl : control) (comp : StrictWeakOrdering K)
    (cl_code : String) (w : World K V) (k : Nat)
    (hk : k < 64) (hN : w.keys.length = 2 ^ k) :
    numStagesLoop 64 (to_size_t w.keys.length) 0 = k
    ∧ ((sort_by_key_enqueue P T_keys T_values ctl comp cl_code w).1 = .ok () →
        (∀ s0 p0,
          (launchesFrom s0 p0
              ((sort_by_key_enqueue P T_keys T_values ctl comp cl_code w).2.log.drop
                w.log.length)).map (fun L => (L.stage, L.passOfStage, L.globalSize))
            = (stagePassPairs k).map (fun sp => (some sp.1, some sp.2, 2 ^ k / 2)))
        ∧ (launchesFrom none none
              ((sort_by_key_enqueue P T_keys T_values ctl comp cl_code w).2.log.drop
                w.log.length)).length = k * (k + 1) / 2)
    ∧ ((∀ log op, P.status log op = CL_SUCCESS) →
        (∀ k1 d, (P.getWorkGroupInfo k1 d).2 = CL_SUCCESS) →
        (w.initOnlyOnce = true
          ∨ ∃ k1, P.compile (engineCompileRequest T_keys T_values ctl comp cl_code) = .ok k1) →
        (sort_by_key_enqueue P T_keys T_values ctl comp cl_code w).1 = .ok ()) := by
  have hlt : 2 ^ k < SIZE_T_RANGE := by
    unfold SIZE_T_RANGE
    exact Nat.pow_lt_pow_right (by decide) hk
  have hsz : to_size_t w.keys.length = 2 ^ k := by
    rw [hN]; exact to_size_t_of_lt hlt
  have htest : notPowerOfTwoTest (to_size_t w.keys.length) = false := by
    rw [hsz]
    exact Bool.eq_false_iff.mpr fun h =>
      (notPowerOfTwoTest_iff (Nat.one_le_two_pow) hlt).mp h ⟨k, rfl⟩
  have hstages : numStagesLoop 64 (to_size_t w.keys.length) 0 = k := by
    rw [hsz, numStagesLoop_two_pow 64 k 0 (Nat.le_of_lt hk), Nat.zero_add]
  obtain ⟨hlog, hiff, -, -, -⟩ :=
    sort_by_key_enqueue_follows P T_keys T_values ctl comp cl_code w htest
  have hpairs : ∀ s0 p0,
      (launchesFrom s0 p0 (engineOps P T_keys T_values ctl comp cl_code w)).map
          (fun L => (L.stage, L.passOfStage, L.globalSize))
        = (stagePassPairs k).map (fun sp => (some sp.1, some sp.2, 2 ^ k / 2)) := by
    intro s0 p0
    rw [launchesFrom_engineOps, hstages, hsz, stagePassPairs]
    simp only [List.map_flatMap, List.map_map, List.range_eq_range']
    rfl
  refine ⟨hstages, ?_, ?_⟩
  · intro hok
    have hops := issueUntilFailure_all_ok _ _ _ (hiff.mp hok)
    rw [hlog, hops, List.drop_left]
    refine ⟨hpairs, ?_⟩
    have hlen := congrArg List.length (hpairs none none)
    rw [List.length_map, List.length_map] at hlen
    rw [hlen, ← two_mul_length_stagePassPairs k, Nat.mul_div_cancel_left _ (by decide)]
  · intro hstatus hinfo hcompile
    apply hiff.mpr
    apply issueUntilFailure_of_success
    intro log1 op hop
    rcases mem_engineOps P T_keys T_values ctl comp cl_code w op hop with ⟨hflag, hreq⟩ | ⟨hnc, -⟩
    · rcases hcompile with hset | ⟨k1, hk1⟩
      · rw [hflag] at hset; cases hset
      · rw [hreq, engineStatus, hk1]
    · exact engineStatus_of_success P _ _ hstatus hinfo log1 op hnc

/-- C19 at `N = 4` on a platform on which nothing fails: two stages, the call
returns normally, and its launches are `(0,0)`, `(1,0)`, `(1,1)` with global
size 2. -/
theorem C19_witness :
    numStagesLoop 64 (to_size_t (freshWorld [4, 3, 2, 1] ['a', 'b', 'c', 'd']).keys.length) 0 = 2
    ∧ ((∀ s0 p0,
          (launchesFrom s0 p0
              ((sort_by_key_enqueue idlePlatform T_int T_char (controlWith .Automatic)
                (less T_functor) "" (freshWorld [4, 3, 2, 1] ['a', 'b', 'c', 'd'])).2.log.drop
                (freshWorld [4, 3, 2, 1] ['a', 'b', 'c', 'd']).log.length)).map
              (fun L => (L.stage, L.passOfStage, L.globalSize))
            = [(some 0, some 0, 2), (some 1, some 0, 2), (some 1, some 1, 2)])
        ∧ (launchesFrom none none
              ((sort_by_key_enqueue idlePlatform T_int T_char (controlWith .Automatic)
                (less T_functor) "" (freshWorld [4, 3, 2, 1] ['a', 'b', 'c', 'd'])).2.log.drop
                (freshWorld [4, 3, 2, 1] ['a', 'b', 'c', 'd']).log.length)).length = 3)
    ∧ (sort_by_key_enqueue idlePlatform T_int T_char (controlWith .Automatic) (less T_functor)
        "" (freshWorld [4, 3, 2, 1] ['a', 'b', 'c', 'd'])).1 = .ok () :=
  ⟨(C19_launches_are_the_stage_pass_pairs_in_order idlePlatform T_int T_char
      (controlWith .Automatic) (less T_functor) ""
      (freshWorld [4, 3, 2, 1] ['a', 'b', 'c', 'd']) 2 (by decide) (by decide)).1,
    (C19_launches_are_the_stage_pass_pairs_in_order idlePlatform T_int T_char
      (controlWith .Automatic) (less T_functor) ""
      (freshWorld [4, 3, 2, 1] ['a', 'b', 'c', 'd']) 2 (by decide) (by decide)).2.1 (by decide),
    (C19_launches_are_the_stage_pass_pairs_in_order idlePlatform T_int T_char
      (controlWith .Automatic) (less T_functor) ""
      (freshWorld [4, 3, 2, 1] ['a', 'b', 'c', 'd']) 2 (by decide) (by decide)).2.2
      (fun _ _ => rfl) (fun _ _ => rfl) (Or.inr ⟨⟨0⟩, rfl⟩)⟩

/-! ## Every launch is awaited -/

section Awaited

variable (st : List Op → Op → Int)

/-- When nothing fails, every issued operation has succeeded. -/
theorem issueUntilFailure_ok_at :
    ∀ (ops log pre : List Op) (op : Op) (post : List Op),
      (issueUntilFailure st log ops).2 = true →
      (issueUntilFailure st log ops).1 = pre ++ op :: post →
      st (log ++ pre) op = CL_SUCCESS := by
  intro ops
  induction ops with
  | nil =>
    intro log pre op post _ h
    simp [issueUntilFailure] at h
  | cons x xs ih =>
    intro log pre op post hok h
    by_cases hop : st log x = CL_SUCCESS
    · rw [issueUntilFailure_cons_ok st xs hop] at h hok
      cases pre with
      | nil =>
        simp only [List.nil_append, List.cons.injEq] at h
        rw [List.append_nil, ← h.1]
        exact hop
      | cons y pre =>
        simp only [List.cons_append, List.cons.injEq] at h
        have h2 := ih (log ++ [x]) pre op post hok h.2
        rw [List.append_assoc, List.singleton_append, h.1] at h2
        exact h2
    · rw [issueUntilFailure_cons_fail st xs hop] at hok
      cases hok

/-- A schedule that is not empty issues at least one operation. -/
theorem issueUntilFailure_ne_nil (log : List Op) (x : Op) (xs : List Op) :
    (issueUntilFailure st log (x :: xs)).1 ≠ [] := by
  by_cases hop : st log x = CL_SUCCESS
  · rw [issueUntilFailure_cons_ok st xs hop]
    exact List.cons_ne_nil _ _
  · rw [issueUntilFailure_cons_fail st xs hop]
    exact List.cons_ne_nil _ _

/-- Issuing stops after an operation that succeeded only at the end of the
schedule. -/
theorem issueUntilFailure_stop :
    ∀ (ops log pre : List Op) (op : Op),
      (issueUntilFailure st log ops).1 = pre ++ [op] →
      st (log ++ pre) op = CL_SUCCESS → ops = pre ++ [op] := by
  intro ops
  induction ops with
  | nil =>
    intro log pre op h _
    simp [issueUntilFailure] at h
  | cons x xs ih =>
    intro log pre op h hok
    by_cases hop : st log x = CL_SUCCESS
    · rw [issueUntilFailure_cons_ok st xs hop] at h
      cases pre with
      | nil =>
        simp only [List.nil_append, List.cons.injEq] at h
        cases xs with
        | nil => rw [h.1]; rfl
        | cons y ys => exact absurd h.2 (issueUntilFailure_ne_nil st _ y ys)
      | cons y pre =>
        simp only [List.cons_append, List.cons.injEq] at h
        have h2 := ih (log ++ [x]) pre op h.2 (by
          rw [List.append_assoc, List.singleton_append, h.1]; exact hok)
        rw [h2, h.1]
        rfl
    · rw [issueUntilFailure_cons_fail st xs hop] at h
      cases pre with
      | nil =>
        simp only [List.nil_append, List.cons.injEq] at h
        rw [List.append_nil, ← h.1] at hok
        exact absurd hok hop
      | cons y pre =>
        simp only [List.cons_append, List.cons.injEq] at h
        exact absurd h.2 (by simp)

/-- The empty list has no launch. -/
theorem everyLaunchAwaited_nil : EveryLaunchAwaited [] := by
  intro pre k g l post h
  exact absurd h (by simp)

/-- An operation that is not a launch, put in front. -/
theorem everyLaunchAwaited_cons (x : Op) (xs : List Op) (hx : x.isLaunch = false)
    (h : EveryLaunchAwaited xs) : EveryLaunchAwaited (x :: xs) := by
  intro pre k g l post heq
  cases pre with
  | nil =>
    simp only [List.nil_append, List.cons.injEq] at heq
    rw [heq.1] at hx
    cases hx
  | cons y pre =>
    simp only [List.cons_append, List.cons.injEq] at heq
    exact h pre k g l post heq.2

/-- A launch and its `finish`, put in front. -/
theorem everyLaunchAwaited_launch_finish (k : Option Kernel) (g l : Nat) (xs : List Op)
    (h : EveryLaunchAwaited xs) :
    EveryLaunchAwaited (.enqueueNDRangeKernel k g l :: .finish :: xs) := by
  intro pre k1 g1 l1 post heq
  cases pre with
  | nil =>
    simp only [List.nil_append, List.cons.injEq] at heq
    exact ⟨xs, heq.2.symm⟩
  | cons y pre =>
    simp only [List.cons_append, List.cons.injEq] at heq
    exact everyLaunchAwaited_cons .finish xs rfl h pre k1 g1 l1 post heq.2

/-- The passes of a stage, put in front. -/
theorem everyLaunchAwaited_passOps (k : Option Kernel) (g l : Nat) (rest : List Op)
    (h : EveryLaunchAwaited rest) :
    ∀ (n p : Nat), EveryLaunchAwaited (passOps k g l p n ++ rest) := by
  intro n
  induction n with
  | zero =>
    intro p
    rw [passOps, List.nil_append]
    exact h
  | succ n ih =>
    intro p
    rw [passOps, List.cons_append, List.cons_append, List.cons_append]
    exact everyLaunchAwaited_cons _ _ rfl (everyLaunchAwaited_launch_finish k g l _ (ih (p + 1)))

/-- The stages, put in front. -/
theorem everyLaunchAwaited_stageOps (k : Option Kernel) (g l : Nat) (rest : List Op)
    (h : EveryLaunchAwaited rest) :
    ∀ (n s : Nat), EveryLaunchAwaited (stageOps k g l s n ++ rest) := by
  intro n
  induction n with
  | zero =>
    intro s
    rw [stageOps, List.nil_append]
    exact h
  | succ n ih =>
    intro s
    rw [stageOps, List.cons_append, List.append_assoc]
    exact everyLaunchAwaited_cons _ _ rfl (everyLaunchAwaited_passOps k g l _ (ih (s + 1)) _ _)

end Awaited

section EngineAwaited

variable {K V : Type} (P : Platform K V)

/-- In the schedule of a call every launch has a `finish` right after it. -/
theorem everyLaunchAwaited_engineOps (T_keys T_values : TypeTraits) (ctl : control)
    (comp : StrictWeakOrdering K) (cl_code : String) (w : World K V) :
    EveryLaunchAwaited (engineOps P T_keys T_values ctl comp cl_code w) := by
  have htail : EveryLaunchAwaited
      ([Op.getWorkGroupInfo, .createUserFunctorBuffer, .setArg 0 (.buffer .Keys),
            .setArg 1 (.buffer .Values), .setArg 4 .userFunctor]
          ++ (stageOps (kernelAfterOnce P (engineCompileRequest T_keys T_values ctl comp cl_code) w)
              (to_size_t w.keys.length / 2)
              (clampWgSize (to_size_t w.keys.length)
                (to_size_t (P.getWorkGroupInfo
                  (kernelAfterOnce P (engineCompileRequest T_keys T_values ctl comp cl_code) w)
                  ctl.device).1))
              0 (numStagesLoop 64 (to_size_t w.keys.length) 0)
          ++ [.enqueueMapBuffer .Keys, .enqueueMapBuffer .Values])) := by
    have hmaps : EveryLaunchAwaited [Op.enqueueMapBuffer .Keys, .enqueueMapBuffer .Values] :=
      everyLaunchAwaited_cons _ _ rfl (everyLaunchAwaited_cons _ _ rfl everyLaunchAwaited_nil)
    exact everyLaunchAwaited_cons _ _ rfl (everyLaunchAwaited_cons _ _ rfl
      (everyLaunchAwaited_cons _ _ rfl (everyLaunchAwaited_cons _ _ rfl
        (everyLaunchAwaited_cons _ _ rfl (everyLaunchAwaited_stageOps _ _ _ _ hmaps _ _)))))
  rw [engineOps_eq, List.append_assoc]
  by_cases hflag : w.initOnlyOnce = true
  · rw [if_pos hflag, List.nil_append]
    exact htail
  · rw [if_neg hflag, List.singleton_append]
    exact everyLaunchAwaited_cons _ _ rfl htail

end EngineAwaited

/-- C20. One engine call, however it ends, and an operation `op` it has issued
that is a kernel launch or a `finish`, with `pre` the operations of the call
before it and `post` those after it. If `op` is a launch the platform accepted,
the operation right after it is a `finish`: nothing is launched or rebound
between a launch and the wait for it. If the platform reported a failure for
`op`, nothing was issued after it, and the call did not return normally. -/
theorem C20_every_launch_is_awaited {K V : Type} (P : Platform K V)
    (T_keys T_values : TypeTraits) (ctl : control) (comp : StrictWeakOrdering K)
    (cl_code : String) (w : World K V) (pre post : List Op) (op : Op)
    (hop : op.isLaunch = true ∨ op = .finish)
    (hlog : (sort_by_key_enqueue P T_keys T_values ctl comp cl_code w).2.log
      = w.log ++ (pre ++ op :: post)) :
    (P.status (w.log ++ pre) op = CL_SUCCESS → op.isLaunch = true →
        ∃ post1, post = .finish :: post1)
    ∧ (P.status (w.log ++ pre) op ≠ CL_SUCCESS →
        post = [] ∧ (sort_by_key_enqueue P T_keys T_values ctl comp cl_code w).1 ≠ .ok ()) := by
  by_cases htest : notPowerOfTwoTest (to_size_t w.keys.length) = true
  · rw [sort_by_key_enqueue_of_test P T_keys T_values ctl comp cl_code w htest] at hlog
    have hnil : pre ++ op :: post = [] := List.self_eq_append_right.mp hlog
    exact absurd hnil (by simp)
  · have htest2 : notPowerOfTwoTest (to_size_t w.keys.length) = false := by
      simpa using htest
    obtain ⟨hlog0, hiff, -, -, -⟩ :=
      sort_by_key_enqueue_follows P T_keys T_values ctl comp cl_code w htest2
    have hq := List.append_cancel_left (hlog0.symm.trans hlog)
    have hst : ∀ k1 d log, engineStatus P k1 d log op = P.status log op := by
      intro k1 d log
      rcases hop with h | h
      · cases op <;> first | rfl | cases h
      · rw [h]; rfl
    constructor
    · intro hs hl
      obtain ⟨t, ht⟩ := issueUntilFailure_isPrefix
        (engineStatus P
          (kernelAfterOnce P (engineCompileRequest T_keys T_values ctl comp cl_code) w)
          ctl.device)
        (engineOps P T_keys T_values ctl comp cl_code w) w.log
      cases op with
      | enqueueNDRangeKernel k1 g l =>
        have hall : engineOps P T_keys T_values ctl comp cl_code w
            = pre ++ Op.enqueueNDRangeKernel k1 g l :: (post ++ t) := by
          rw [← ht, hq, List.append_assoc, List.cons_append]
        obtain ⟨rest, hrest⟩ :=
          everyLaunchAwaited_engineOps P T_keys T_values ctl comp cl_code w pre k1 g l _ hall
        cases post with
        | nil =>
          exfalso
          have hstop := issueUntilFailure_stop _ _ _ _ _ hq (by rw [hst]; exact hs)
          rw [hstop] at hall
          have h2 := List.append_cancel_left hall
          rw [List.nil_append, List.cons.injEq] at h2
          rw [List.nil_append, ← h2.2] at hrest
          cases hrest
        | cons y post1 =>
          rw [List.cons_append, List.cons.injEq] at hrest
          exact ⟨post1, by rw [hrest.1]⟩
      | _ => cases hl
    · intro hf
      have hf2 : engineStatus P
          (kernelAfterOnce P (engineCompileRequest T_keys T_values ctl comp cl_code) w)
          ctl.device (w.log ++ pre) op ≠ CL_SUCCESS := by
        rw [hst]; exact hf
      refine ⟨issueUntilFailure_failure_last _ _ _ _ _ _ hq hf2, ?_⟩
      intro hok
      exact hf2 (issueUntilFailure_ok_at _ _ _ _ _ _ (hiff.mp hok) hq)

/-- C20 at a call on two keys with the kernel already compiled. On a platform on
which nothing fails the one launch is followed by `finish`; on a platform on
which launches fail the launch is the last operation and the call does not
return normally. -/
theorem C20_witness :
    ((sort_by_key_enqueue idlePlatform T_int T_char (controlWith .Automatic) (less T_functor) ""
          (warmWorld [2, 1] ['a', 'b'])).2.log
        = (warmWorld [2, 1] ['a', 'b']).log
          ++ ([Op.getWorkGroupInfo, .createUserFunctorBuffer, .setArg 0 (.buffer .Keys),
                .setArg 1 (.buffer .Values), .setArg 4 .userFunctor, .setArg 2 (.uint 0),
                .setArg 3 (.uint 0)]
              ++ Op.enqueueNDRangeKernel (some ⟨0⟩) 1 1
                :: [.finish, .enqueueMapBuffer .Keys, .enqueueMapBuffer .Values])
      ∧ ∃ post1, [Op.finish, .enqueueMapBuffer .Keys, .enqueueMapBuffer .Values]
          = .finish :: post1)
    ∧ ((sort_by_key_enqueue launchFailsPlatform T_int T_char (controlWith .Automatic)
          (less T_functor) "" (warmWorld [2, 1] ['a', 'b'])).2.log
        = (warmWorld [2, 1] ['a', 'b']).log
          ++ ([Op.getWorkGroupInfo, .createUserFunctorBuffer, .setArg 0 (.buffer .Keys),
                .setArg 1 (.buffer .Values), .setArg 4 .userFunctor, .setArg 2 (.uint 0),
                .setArg 3 (.uint 0)]
              ++ Op.enqueueNDRangeKernel (some ⟨0⟩) 1 1 :: [])
      ∧ ([] : List Op) = []
      ∧ (sort_by_key_enqueue launchFailsPlatform T_int T_char (controlWith .Automatic)
          (less T_functor) "" (warmWorld [2, 1] ['a', 'b'])).1 ≠ .ok ()) :=
  ⟨⟨by decide,
      (C20_every_launch_is_awaited idlePlatform T_int T_char (controlWith .Automatic)
        (less T_functor) "" (warmWorld [2, 1] ['a', 'b'])
        [Op.getWorkGroupInfo, .createUserFunctorBuffer, .setArg 0 (.buffer .Keys),
          .setArg 1 (.buffer .Values), .setArg 4 .userFunctor, .setArg 2 (.uint 0),
          .setArg 3 (.uint 0)]
        [.finish, .enqueueMapBuffer .Keys, .enqueueMapBuffer .Values]
        (Op.enqueueNDRangeKernel (some ⟨0⟩) 1 1) (Or.inl rfl) (by decide)).1 rfl rfl⟩,
    ⟨by decide,
      (C20_every_launch_is_awaited launchFailsPlatform T_int T_char (controlWith .Automatic)
        (less T_functor) "" (warmWorld [2, 1] ['a', 'b'])
        [Op.getWorkGroupInfo, .createUserFunctorBuffer, .setArg 0 (.buffer .Keys),
          .setArg 1 (.buffer .Values), .setArg 4 .userFunctor, .setArg 2 (.uint 0),
          .setArg 3 (.uint 0)]
        []
        (Op.enqueueNDRangeKernel (some ⟨0⟩) 1 1) (Or.inl rfl) (by decide)).2 (by decide)⟩⟩

/-! ## The local size of the launches -/

section WgSize

/-- The cast to `int` and back leaves half of a count below `2 ^ 31` as it is. -/
theorem size_t_of_int_half_int_cast {n : Nat} (h : n < 2 ^ 31) :
    size_t_of_int (Int.tdiv (int_cast n) 2) = n / 2 := by
  have h32 : n % 2 ^ 32 = n := Nat.mod_eq_of_lt (by omega)
  have hc : int_cast n = (n : Int) := by
    rw [int_cast, h32, if_pos h]
  have hd : Int.tdiv (n : Int) 2 = ((n / 2 : Nat) : Int) := by
    rw [Int.tdiv_eq_ediv (Int.ofNat_nonneg n) (by decide)]
    rfl
  rw [hc, hd, size_t_of_int]
  have hlt : n / 2 < SIZE_T_RANGE := by
    unfold SIZE_T_RANGE
    omega
  rw [← Int.ofNat_emod, Int.toNat_ofNat, Nat.mod_eq_of_lt hlt]

/-- For a count below `2 ^ 31` the clamp is the minimum. -/
theorem clampWgSize_eq_min {n : Nat} (p : Nat) (h : n < 2 ^ 31) :
    clampWgSize n p = min p (n / 2) := by
  rw [clampWgSize]
  by_cases hlt : n / 2 < p
  · rw [if_pos hlt, size_t_of_int_half_int_cast h, Nat.min_eq_right (Nat.le_of_lt hlt)]
  · rw [if_neg hlt, Nat.min_eq_left (Nat.le_of_not_lt hlt)]

/-- The clamp at `2 ^ 31` keys and a preferred multiple of `2 ^ 31`. -/
theorem clampWgSize_at_two_pow_31 : clampWgSize (2 ^ 31) (2 ^ 31) = 2 ^ 64 - 2 ^ 30 := by
  decide

/-- The clamp at `2 ^ 32` keys and a preferred multiple of `2 ^ 32`. -/
theorem clampWgSize_at_two_pow_32 : clampWgSize (2 ^ 32) (2 ^ 32) = 0 := by
  decide

end WgSize

section EngineSizes

variable {K V : Type} (P : Platform K V)

/-- Every launch of the schedule of a call is a launch of the stage loop. -/
theorem launch_mem_engineOps (T_keys T_values : TypeTraits) (ctl : control)
    (comp : StrictWeakOrdering K) (cl_code : String) (w : World K V)
    (k : Option Kernel) (g l : Nat)
    (h : Op.enqueueNDRangeKernel k g l ∈ engineOps P T_keys T_values ctl comp cl_code w) :
    numStagesLoop 64 (to_size_t w.keys.length) 0 ≠ 0
    ∧ k = kernelAfterOnce P (engineCompileRequest T_keys T_values ctl comp cl_code) w
    ∧ g = to_size_t w.keys.length / 2
    ∧ l = engineWgSize P T_keys T_values ctl comp cl_code w := by
  rw [engineOps_eq] at h
  simp only [List.mem_append, List.mem_cons] at h
  rcases h with h | ((h | h | h | h | h | h) | h) | (h | h | h)
  · by_cases hflag : w.initOnlyOnce = true
    · rw [if_pos hflag] at h; simp at h
    · rw [if_neg hflag] at h
      simp only [List.mem_singleton] at h
      cases h
  · cases h
  · cases h
  · cases h
  · cases h
  · cases h
  · simp at h
  · refine ⟨?_, ?_⟩
    · intro h0
      rw [h0, stageOps] at h
      simp at h
    · rcases mem_stageOps _ _ _ _ _ _ h with ⟨q, hq⟩ | ⟨q, hq⟩ | hq | hq
      · cases hq
      · cases hq
      · cases hq
        exact ⟨rfl, rfl, rfl⟩
      · cases hq
  · cases h
  · cases h
  · simp at h

/-- Every operation a call adds to the log is an operation of its schedule. -/
theorem mem_engineOps_of_log (T_keys T_values : TypeTraits) (ctl : control)
    (comp : StrictWeakOrdering K) (cl_code : String) (w : World K V) (op : Op)
    (h : op ∈ (sort_by_key_enqueue P T_keys T_values ctl comp cl_code w).2.log.drop
      w.log.length) :
    op ∈ engineOps P T_keys T_values ctl comp cl_code w := by
  by_cases htest : notPowerOfTwoTest (to_size_t w.keys.length) = true
  · rw [sort_by_key_enqueue_of_test P T_keys T_values ctl comp cl_code w htest] at h
    have hnil : (w.print unsupportedSizeNotice).log.drop w.log.length = [] :=
      List.drop_length w.log
    rw [hnil] at h
    cases h
  · have htest2 : notPowerOfTwoTest (to_size_t w.keys.length) = false := by
      simpa using htest
    obtain ⟨hlog, -, -, -, -⟩ :=
      sort_by_key_enqueue_follows P T_keys T_values ctl comp cl_code w htest2
    rw [hlog, List.drop_left] at h
    exact (issueUntilFailure_isPrefix _ _ _).subset h

/-- The sizes and the kernel of every launch a call adds to the log. -/
theorem launch_of_log (T_keys T_values : TypeTraits) (ctl : control)
    (comp : StrictWeakOrdering K) (cl_code : String) (w : World K V)
    (k : Option Kernel) (g l : Nat)
    (h : Op.enqueueNDRangeKernel k g l
      ∈ (sort_by_key_enqueue P T_keys T_values ctl comp cl_code w).2.log.drop w.log.length) :
    numStagesLoop 64 (to_size_t w.keys.length) 0 ≠ 0
    ∧ k = kernelAfterOnce P (engineCompileRequest T_keys T_values ctl comp cl_code) w
    ∧ g = to_size_t w.keys.length / 2
    ∧ l = engineWgSize P T_keys T_values ctl comp cl_code w :=
  launch_mem_engineOps P T_keys T_values ctl comp cl_code w k g l
    (mem_engineOps_of_log P T_keys T_values ctl comp cl_code w _ h)

/-- When the size passes the test, no platform operation fails and the kernel is
compiled or gets compiled, the call returns normally and has issued its whole
schedule. -/
theorem sort_by_key_enqueue_of_success (T_keys T_values : TypeTraits) (ctl : control)
    (comp : StrictWeakOrdering K) (cl_code : String) (w : World K V)
    (htest : notPowerOfTwoTest (to_size_t w.keys.length) = false)
    (hstatus : ∀ log op, P.status log op = CL_SUCCESS)
    (hinfo : ∀ k1 d, (P.getWorkGroupInfo k1 d).2 = CL_SUCCESS)
    (hcompile : w.initOnlyOnce = true
      ∨ ∃ k1, P.compile (engineCompileRequest T_keys T_values ctl comp cl_code) = .ok k1) :
    (sort_by_key_enqueue P T_keys T_values ctl comp cl_code w).1 = .ok ()
    ∧ (sort_by_key_enqueue P T_keys T_values ctl comp cl_code w).2.log
        = w.log ++ engineOps P T_keys T_values ctl comp cl_code w := by
  obtain ⟨hlog, hiff, -, -, -⟩ :=
    sort_by_key_enqueue_follows P T_keys T_values ctl comp cl_code w htest
  have hall : (issueUntilFailure
      (engineStatus P
        (kernelAfterOnce P (engineCompileRequest T_keys T_values ctl comp cl_code) w)
        ctl.device)
      w.log (engineOps P T_keys T_values ctl comp cl_code w)).2 = true := by
    apply issueUntilFailure_of_success
    intro log1 op hop
    rcases mem_engineOps P T_keys T_values ctl comp cl_code w op hop with ⟨hflag, hreq⟩ | ⟨hnc, -⟩
    · rcases hcompile with hset | ⟨k1, hk1⟩
      · rw [hflag] at hset; cases hset
      · rw [hreq, engineStatus, hk1]
    · exact engineStatus_of_success P _ _ hstatus hinfo log1 op hnc
  refine ⟨hiff.mpr hall, ?_⟩
  rw [hlog, issueUntilFailure_all_ok _ _ _ hall]

/-- The launches of the whole schedule, for a stage count `n`: as many as there
are pairs of a stage and a pass, all with the local size of the call. -/
theorem localSizes_engineOps (T_keys T_values : TypeTraits) (ctl : control)
    (comp : StrictWeakOrdering K) (cl_code : String) (w : World K V) (s0 p0 : Option Nat) :
    (launchesFrom s0 p0 (engineOps P T_keys T_values ctl comp cl_code w)).map Launch.localSize
      = List.replicate (stagePassPairs (numStagesLoop 64 (to_size_t w.keys.length) 0)).length
          (engineWgSize P T_keys T_values ctl comp cl_code w) := by
  rw [launchesFrom_engineOps, List.eq_replicate_iff]
  constructor
  · rw [List.length_map, stagePassPairs, List.range_eq_range', List.length_flatMap,
      List.length_flatMap]
    congr 1
    apply List.map_congr_left
    intro stage _
    simp
  · intro b hb
    simp only [List.mem_map, List.mem_flatMap] at hb
    obtain ⟨L, ⟨stage, -, q, -, hL⟩, hLb⟩ := hb
    rw [← hLb, ← hL]

end EngineSizes

section LocalSizes

variable {K V : Type} (P : Platform K V)

/-- The size test passes for a power of two that fits a `size_t`. -/
theorem notPowerOfTwoTest_two_pow {k : Nat} (hk : k < 64) :
    to_size_t (2 ^ k) = 2 ^ k ∧ notPowerOfTwoTest (to_size_t (2 ^ k)) = false := by
  have hlt : 2 ^ k < SIZE_T_RANGE := by
    unfold SIZE_T_RANGE
    exact Nat.pow_lt_pow_right (by decide) hk
  have hsz : to_size_t (2 ^ k) = 2 ^ k := to_size_t_of_lt hlt
  refine ⟨hsz, ?_⟩
  rw [hsz]
  exact Bool.eq_false_iff.mpr fun h =>
    (notPowerOfTwoTest_iff (Nat.one_le_two_pow) hlt).mp h ⟨k, rfl⟩

/-- A call on `2 ^ k` keys on which nothing fails, on a platform that reports the
preferred multiple `p` for every kernel: it returns normally, and its launches
are as many as there are pairs of a stage and a pass below `k`, all with the
local size the clamp computes from `2 ^ k` and `p`. -/
theorem localSizes_of_success (T_keys T_values : TypeTraits) (ctl : control)
    (comp : StrictWeakOrdering K) (cl_code : String) (w : World K V) (k p : Nat)
    (hk : k < 64) (hN : w.keys.length = 2 ^ k)
    (hstatus : ∀ log op, P.status log op = CL_SUCCESS)
    (hinfo : ∀ k1 d, P.getWorkGroupInfo k1 d = (p, CL_SUCCESS))
    (hcompile : w.initOnlyOnce = true
      ∨ ∃ k1, P.compile (engineCompileRequest T_keys T_values ctl comp cl_code) = .ok k1)
    (s0 p0 : Option Nat) :
    (sort_by_key_enqueue P T_keys T_values ctl comp cl_code w).1 = .ok ()
    ∧ (launchesFrom s0 p0
          ((sort_by_key_enqueue P T_keys T_values ctl comp cl_code w).2.log.drop
            w.log.length)).map Launch.localSize
        = List.replicate (stagePassPairs k).length (clampWgSize (2 ^ k) (to_size_t p)) := by
  obtain ⟨hsz, htest⟩ := notPowerOfTwoTest_two_pow hk
  rw [← hN] at htest
  have hsz2 : to_size_t w.keys.length = 2 ^ k := by rw [hN]; exact hsz
  obtain ⟨hok, hlog⟩ := sort_by_key_enqueue_of_success P T_keys T_values ctl comp cl_code w
    htest hstatus (fun k1 d => by rw [hinfo]) hcompile
  refine ⟨hok, ?_⟩
  rw [hlog, List.drop_left, localSizes_engineOps, engineWgSize, hinfo, hsz2,
    numStagesLoop_two_pow 64 k 0 (Nat.le_of_lt hk), Nat.zero_add]

end LocalSizes

/-- C21 (code defect). A call on `2 ^ 31` keys on a platform that reports the
preferred multiple `2 ^ 31` and on which nothing fails: the call returns
normally and each of its 496 launches has the local size `2 ^ 64 - 2 ^ 30`,
where the minimum of the multiple and half the count is `2 ^ 30`. The cast in
`wgSize = (int)szElements/2` turns `2 ^ 31` into `- 2 ^ 31`. -/
theorem C21_local_size_is_not_the_minimum_at_two_pow_31 :
    (sort_by_key_enqueue (multiplePlatform (2 ^ 31)) T_int T_char (controlWith .Automatic)
        (less T_functor) ""
        (freshWorld (List.replicate (2 ^ 31) 0) (List.replicate (2 ^ 31) 'v'))).1 = .ok ()
    ∧ (launchesFrom none none
          ((sort_by_key_enqueue (multiplePlatform (2 ^ 31)) T_int T_char (controlWith .Automatic)
            (less T_functor) ""
            (freshWorld (List.replicate (2 ^ 31) 0) (List.replicate (2 ^ 31) 'v'))).2.log.drop
            (freshWorld (List.replicate (2 ^ 31) 0)
              (List.replicate (2 ^ 31) 'v')).log.length)).map Launch.localSize
        = List.replicate 496 (2 ^ 64 - 2 ^ 30)
    ∧ min (2 ^ 31) (2 ^ 31 / 2) = 2 ^ 30
    ∧ 2 ^ 64 - 2 ^ 30 ≠ 2 ^ 30 := by
  have h := localSizes_of_success (multiplePlatform (2 ^ 31)) T_int T_char
    (controlWith .Automatic) (less T_functor) ""
    (freshWorld (List.replicate (2 ^ 31) 0) (List.replicate (2 ^ 31) 'v')) 31 (2 ^ 31)
    (by decide) (List.length_replicate _ _) (fun _ _ => rfl) (fun _ _ => rfl)
    (Or.inr ⟨⟨0⟩, rfl⟩) none none
  have hlen : (stagePassPairs 31).length = 496 := by
    have h2 := two_mul_length_stagePassPairs 31
    omega
  have hp : to_size_t (2 ^ 31) = 2 ^ 31 := by decide
  rw [hlen, hp, clampWgSize_at_two_pow_31] at h
  exact ⟨h.1, h.2, by decide, by decide⟩

/-- C22, the claim as stated fails. A call on 16 keys on a platform that reports
the preferred multiple 3 and on which nothing fails: each of the 10 launches has
global size 8 and local size 3, and 8 is not a multiple of 3. -/
theorem C22_counterexample :
    (sort_by_key_enqueue (multiplePlatform 3) T_int T_char (controlWith .Automatic)
        (less T_functor) ""
        (freshWorld (List.range 16) (List.replicate 16 'v'))).1 = .ok ()
    ∧ (launchesFrom none none
          (sort_by_key_enqueue (multiplePlatform 3) T_int T_char (controlWith .Automatic)
            (less T_functor) ""
            (freshWorld (List.range 16) (List.replicate 16 'v'))).2.log).map
          (fun L => (L.globalSize, L.localSize))
        = List.replicate 10 (8, 3)
    ∧ 8 % 3 ≠ 0 := by
  decide

/-- C22 as amended. A call on `N = 2 ^ k` keys with `1 ≤ k ≤ 30`, on a platform
that reports the preferred multiple `p` for the kernels of the call's
device. Every launch of the call has global size `N / 2` and local size
`min p (N / 2)`; the global size is a whole multiple of the local size exactly
when `N / 2 ≤ p` or `p` divides `N / 2`; and when `p` is a power of two it is,
with a local size that is a power of two and at least 1. -/
theorem C22_global_size_multiple_of_local_size_iff {K V : Type} (P : Platform K V)
    (T_keys T_values : TypeTraits) (ctl : control) (comp : StrictWeakOrdering K)
    (cl_code : String) (w : World K V) (k p : Nat) (kernel : Option Kernel) (g l : Nat)
    (hk1 : 1 ≤ k) (hk : k ≤ 30) (hN : w.keys.length = 2 ^ k)
    (hp : ∀ k1, (P.getWorkGroupInfo k1 ctl.device).1 = p)
    (hp2 : p < SIZE_T_RANGE)
    (hl : Op.enqueueNDRangeKernel kernel g l
      ∈ (sort_by_key_enqueue P T_keys T_values ctl comp cl_code w).2.log.drop w.log.length) :
    g = 2 ^ k / 2
    ∧ l = min p (2 ^ k / 2)
    ∧ (g % l = 0 ↔ (2 ^ k / 2 ≤ p ∨ p ∣ 2 ^ k / 2))
    ∧ (∀ j, p = 2 ^ j → g % l = 0 ∧ 1 ≤ l ∧ ∃ i, l = 2 ^ i) := by
  obtain ⟨hsz, -⟩ := notPowerOfTwoTest_two_pow (Nat.lt_of_le_of_lt hk (by decide : 30 < 64))
  have hsz2 : to_size_t w.keys.length = 2 ^ k := by rw [hN]; exact hsz
  have h31 : 2 ^ k < 2 ^ 31 := Nat.pow_lt_pow_right (by decide) (Nat.lt_succ_of_le hk)
  obtain ⟨-, -, hg, hl2⟩ := launch_of_log P T_keys T_values ctl comp cl_code w kernel g l hl
  rw [engineWgSize, hp, to_size_t_of_lt hp2, hsz2, clampWgSize_eq_min p h31] at hl2
  rw [hsz2] at hg
  have hhalf : 2 ^ k / 2 = 2 ^ (k - 1) := by
    obtain ⟨m, rfl⟩ : ∃ m, k = m + 1 := ⟨k - 1, by omega⟩
    rw [pow_succ, Nat.mul_div_cancel _ (by decide), Nat.add_sub_cancel]
  have hpos : 1 ≤ 2 ^ (k - 1) := Nat.one_le_two_pow
  refine ⟨hg, hl2, ?_, ?_⟩
  · rw [hg, hl2, hhalf]
    by_cases hle : 2 ^ (k - 1) ≤ p
    · rw [Nat.min_eq_right hle, Nat.mod_self]
      exact ⟨fun _ => Or.inl hle, fun _ => rfl⟩
    · rw [Nat.min_eq_left (Nat.le_of_not_le hle)]
      constructor
      · intro h
        exact Or.inr (Nat.dvd_of_mod_eq_zero h)
      · rintro (h | h)
        · exact absurd h hle
        · exact Nat.mod_eq_zero_of_dvd h
  · intro j hj
    rw [hg, hl2, hhalf, hj]
    by_cases hle : 2 ^ (k - 1) ≤ 2 ^ j
    · rw [Nat.min_eq_right hle, Nat.mod_self]
      exact ⟨rfl, hpos, k - 1, rfl⟩
    · rw [Nat.min_eq_left (Nat.le_of_not_le hle)]
      have hjk : j ≤ k - 1 := by
        by_contra hcon
        exact hle (Nat.pow_le_pow_right (by decide) (Nat.le_of_not_le hcon))
      exact ⟨Nat.mod_eq_zero_of_dvd (Nat.pow_dvd_pow 2 hjk), Nat.one_le_two_pow, j, rfl⟩

/-- C22 as amended, at 16 keys and the preferred multiple 4: the first launch of
the call has global size 8 and local size 4. -/
theorem C22_witness :
    Op.enqueueNDRangeKernel (some ⟨0⟩) 8 4
        ∈ (sort_by_key_enqueue (multiplePlatform 4) T_int T_char (controlWith .Automatic)
            (less T_functor) ""
            (freshWorld (List.range 16) (List.replicate 16 'v'))).2.log.drop
          (freshWorld (List.range 16) (List.replicate 16 'v')).log.length
    ∧ 8 = 2 ^ 4 / 2
    ∧ 4 = min 4 (2 ^ 4 / 2)
    ∧ (8 % 4 = 0 ↔ (2 ^ 4 / 2 ≤ 4 ∨ 4 ∣ 2 ^ 4 / 2))
    ∧ (∀ j, 4 = 2 ^ j → 8 % 4 = 0 ∧ 1 ≤ 4 ∧ ∃ i, 4 = 2 ^ i) :=
  ⟨by decide,
    C22_global_size_multiple_of_local_size_iff (multiplePlatform 4) T_int T_char
      (controlWith .Automatic) (less T_functor) ""
      (freshWorld (List.range 16) (List.replicate 16 'v')) 4 4 (some ⟨0⟩) 8 4
      (by decide) (by decide) (by decide) (fun _ => rfl) (by decide) (by decide)⟩

/-- C29 (code defect). A call on `2 ^ 32` keys on a platform that reports the
preferred multiple `2 ^ 32`, a power of two, and on which nothing fails: the
call returns normally and each of its 528 launches has the local size 0, which
is not at least 1. The cast in `wgSize = (int)szElements/2` turns `2 ^ 32` into
0. -/
theorem C29_local_size_is_zero_at_two_pow_32 :
    (sort_by_key_enqueue (multiplePlatform (2 ^ 32)) T_int T_char (controlWith .Automatic)
        (less T_functor) ""
        (freshWorld (List.replicate (2 ^ 32) 0) (List.replicate (2 ^ 32) 'v'))).1 = .ok ()
    ∧ (launchesFrom none none
          ((sort_by_key_enqueue (multiplePlatform (2 ^ 32)) T_int T_char (controlWith .Automatic)
            (less T_functor) ""
            (freshWorld (List.replicate (2 ^ 32) 0) (List.replicate (2 ^ 32) 'v'))).2.log.drop
            (freshWorld (List.replicate (2 ^ 32) 0)
              (List.replicate (2 ^ 32) 'v')).log.length)).map Launch.localSize
        = List.replicate 528 0
    ∧ ¬ (1 ≤ 0) := by
  have h := localSizes_of_success (multiplePlatform (2 ^ 32)) T_int T_char
    (controlWith .Automatic) (less T_functor) ""
    (freshWorld (List.replicate (2 ^ 32) 0) (List.replicate (2 ^ 32) 'v')) 32 (2 ^ 32)
    (by decide) (List.length_replicate _ _) (fun _ _ => rfl) (fun _ _ => rfl)
    (Or.inr ⟨⟨0⟩, rfl⟩) none none
  have hlen : (stagePassPairs 32).length = 528 := by
    have h2 := two_mul_length_stagePassPairs 32
    omega
  have hp : to_size_t (2 ^ 32) = 2 ^ 32 := by decide
  rw [hlen, hp, clampWgSize_at_two_pow_32] at h
  exact ⟨h.1, h.2, by decide⟩

/-! ## Argument binds -/

section Binds

variable {K V : Type} (P : Platform K V)

/-- The operations of a call before its stage loop. -/
theorem engineOps_head_tail (T_keys T_values : TypeTraits) (ctl : control)
    (comp : StrictWeakOrdering K) (cl_code : String) (w : World K V) :
    ∃ head tail, engineOps P T_keys T_values ctl comp cl_code w = head ++ tail
      ∧ (∀ op ∈ head, op.isLaunch = false)
      ∧ bindCount 0 head = 1 ∧ bindCount 1 head = 1 ∧ bindCount 4 head = 1
      ∧ (∀ index arg, Op.setArg index arg ∈ head →
          (index = 0 ∧ arg = .buffer .Keys) ∨ (index = 1 ∧ arg = .buffer .Values)
            ∨ (index = 4 ∧ arg = .userFunctor))
      ∧ (∀ index arg, Op.setArg index arg ∈ tail →
          ∃ n, arg = .uint n ∧ (index = 2 ∨ index = 3)) := by
  refine ⟨(if w.initOnlyOnce = true then []
          else [Op.constructAndCompileString
            (engineCompileRequest T_keys T_values ctl comp cl_code)])
        ++ [Op.getWorkGroupInfo, .createUserFunctorBuffer, .setArg 0 (.buffer .Keys),
              .setArg 1 (.buffer .Values), .setArg 4 .userFunctor],
    stageOps (kernelAfterOnce P (engineCompileRequest T_keys T_values ctl comp cl_code) w)
        (to_size_t w.keys.length / 2)
        (clampWgSize (to_size_t w.keys.length)
          (to_size_t (P.getWorkGroupInfo
            (kernelAfterOnce P (engineCompileRequest T_keys T_values ctl comp cl_code) w)
            ctl.device).1))
        0 (numStagesLoop 64 (to_size_t w.keys.length) 0)
      ++ [.enqueueMapBuffer .Keys, .enqueueMapBuffer .Values], ?_, ?_⟩
  · rw [engineOps_eq]
    simp only [List.append_assoc]
  · have htail : ∀ index arg, Op.setArg index arg ∈
        stageOps (kernelAfterOnce P (engineCompileRequest T_keys T_values ctl comp cl_code) w)
            (to_size_t w.keys.length / 2)
            (clampWgSize (to_size_t w.keys.length)
              (to_size_t (P.getWorkGroupInfo
                (kernelAfterOnce P (engineCompileRequest T_keys T_values ctl comp cl_code) w)
                ctl.device).1))
            0 (numStagesLoop 64 (to_size_t w.keys.length) 0)
          ++ [.enqueueMapBuffer .Keys, .enqueueMapBuffer .Values] →
        ∃ n, arg = .uint n ∧ (index = 2 ∨ index = 3) := by
      intro index arg h
      simp only [List.mem_append, List.mem_cons] at h
      rcases h with h | (h | h | h)
      · rcases mem_stageOps _ _ _ _ _ _ h with ⟨q, hq⟩ | ⟨q, hq⟩ | hq | hq
        · cases hq; exact ⟨q, rfl, Or.inl rfl⟩
        · cases hq; exact ⟨q, rfl, Or.inr rfl⟩
        · cases hq
        · cases hq
      · cases h
      · cases h
      · simp at h
    by_cases hflag : w.initOnlyOnce = true
    · rw [if_pos hflag]
      refine ⟨?_, rfl, rfl, rfl, ?_, htail⟩
      · intro op hop
        simp only [List.nil_append, List.mem_cons] at hop
        rcases hop with h | h | h | h | h | h
        · rw [h]; rfl
        · rw [h]; rfl
        · rw [h]; rfl
        · rw [h]; rfl
        · rw [h]; rfl
        · simp at h
      · intro index arg hop
        simp only [List.nil_append, List.mem_cons] at hop
        rcases hop with h | h | h | h | h | h
        · cases h
        · cases h
        · cases h; exact Or.inl ⟨rfl, rfl⟩
        · cases h; exact Or.inr (Or.inl ⟨rfl, rfl⟩)
        · cases h; exact Or.inr (Or.inr ⟨rfl, rfl⟩)
        · simp at h
    · rw [if_neg hflag]
      refine ⟨?_, rfl, rfl, rfl, ?_, htail⟩
      · intro op hop
        simp only [List.singleton_append, List.mem_cons] at hop
        rcases hop with h | h | h | h | h | h | h
        · rw [h]; rfl
        · rw [h]; rfl
        · rw [h]; rfl
        · rw [h]; rfl
        · rw [h]; rfl
        · rw [h]; rfl
        · simp at h
      · intro index arg hop
        simp only [List.singleton_append, List.mem_cons] at hop
        rcases hop with h | h | h | h | h | h | h
        · cases h
        · cases h
        · cases h
        · cases h; exact Or.inl ⟨rfl, rfl⟩
        · cases h; exact Or.inr (Or.inl ⟨rfl, rfl⟩)
        · cases h; exact Or.inr (Or.inr ⟨rfl, rfl⟩)
        · simp at h

/-- A list without bind of an argument has bind count zero for it. -/
theorem bindCount_eq_zero (index : Nat) (ops : List Op)
    (h : ∀ i arg, Op.setArg i arg ∈ ops → i ≠ index) : bindCount index ops = 0 := by
  rw [bindCount, List.countP_eq_zero]
  intro op hop hb
  cases op with
  | setArg i arg =>
    have hi : i = index := by simpa [Op.bindIndex] using hb
    exact h i arg hop hi
  | _ => simp [Op.bindIndex] at hb

/-- The bind count of two lists, one after the other. -/
theorem bindCount_append (index : Nat) (xs ys : List Op) :
    bindCount index (xs ++ ys) = bindCount index xs + bindCount index ys := by
  rw [bindCount, List.countP_append]
  rfl

/-- An operation of a list made of two parts that is not in the first part lies
in the second, with the whole first part before it. -/
theorem split_after_head (pre post rest head tail : List Op) (x : Op)
    (h : pre ++ x :: post ++ rest = head ++ tail) (hx : x ∉ head) :
    ∃ mid, pre = head ++ mid ∧ tail = mid ++ x :: post ++ rest := by
  rw [List.append_assoc, List.append_eq_append_iff] at h
  rcases h with ⟨a, ha, hb⟩ | ⟨c, hc, hd⟩
  · cases a with
    | nil =>
      refine ⟨[], ?_, ?_⟩
      · rw [ha, List.append_nil, List.append_nil]
      · rw [List.nil_append] at hb
        rw [List.nil_append, hb]
    | cons y ys =>
      rw [List.cons_append] at hb
      exfalso
      apply hx
      rw [ha]
      have hxy : x = y := by
        have := List.head_eq_of_cons_eq hb
        exact this
      rw [hxy]
      exact List.mem_append_right _ (List.mem_cons_self _ _)
  · exact ⟨c, hc, by rw [hd, List.append_assoc]⟩

end Binds

section EngineBinds

variable {K V : Type} (P : Platform K V)

/-- The operations a call adds to the log are a prefix of its schedule, and the
whole schedule when the call returns normally. -/
theorem log_isPrefix_engineOps (T_keys T_values : TypeTraits) (ctl : control)
    (comp : StrictWeakOrdering K) (cl_code : String) (w : World K V) :
    (∃ rest, (sort_by_key_enqueue P T_keys T_values ctl comp cl_code w).2.log.drop w.log.length
        ++ rest = engineOps P T_keys T_values ctl comp cl_code w)
    ∧ ((sort_by_key_enqueue P T_keys T_values ctl comp cl_code w).1 = .ok () →
        (sort_by_key_enqueue P T_keys T_values ctl comp cl_code w).2.log.drop w.log.length
          = engineOps P T_keys T_values ctl comp cl_code w) := by
  by_cases htest : notPowerOfTwoTest (to_size_t w.keys.length) = true
  · rw [sort_by_key_enqueue_of_test P T_keys T_values ctl comp cl_code w htest]
    have hnil : (w.print unsupportedSizeNotice).log.drop w.log.length = [] :=
      List.drop_length w.log
    refine ⟨⟨_, by rw [hnil, List.nil_append]⟩, fun h => by cases h⟩
  · have htest2 : notPowerOfTwoTest (to_size_t w.keys.length) = false := by
      simpa using htest
    obtain ⟨hlog, hiff, -, -, -⟩ :=
      sort_by_key_enqueue_follows P T_keys T_values ctl comp cl_code w htest2
    rw [hlog, List.drop_left]
    exact ⟨issueUntilFailure_isPrefix _ _ _,
      fun hok => issueUntilFailure_all_ok _ _ _ (hiff.mp hok)⟩

end EngineBinds

/-- C23. The operations one engine call adds to the log, however it ends.
Arguments 0, 1 and 4 are each bound at most once, and exactly once when the
call returns normally. A bind of argument 0 is of the keys buffer, of argument
1 of the values buffer, of argument 4 of the comparator buffer, and every other
bind is of argument 2 or 3 with an unsigned integer. Before any launch each of
the arguments 0, 1 and 4 has been bound exactly once, and every bind after a
launch is of argument 2 or 3. -/
theorem C23_buffers_and_functor_are_bound_once_before_the_launches {K V : Type}
    (P : Platform K V) (T_keys T_values : TypeTraits) (ctl : control)
    (comp : StrictWeakOrdering K) (cl_code : String) (w : World K V) :
    (bindCount 0 ((sort_by_key_enqueue P T_keys T_values ctl comp cl_code w).2.log.drop
        w.log.length) ≤ 1
      ∧ bindCount 1 ((sort_by_key_enqueue P T_keys T_values ctl comp cl_code w).2.log.drop
        w.log.length) ≤ 1
      ∧ bindCount 4 ((sort_by_key_enqueue P T_keys T_values ctl comp cl_code w).2.log.drop
        w.log.length) ≤ 1)
    ∧ ((sort_by_key_enqueue P T_keys T_values ctl comp cl_code w).1 = .ok () →
        bindCount 0 ((sort_by_key_enqueue P T_keys T_values ctl comp cl_code w).2.log.drop
          w.log.length) = 1
        ∧ bindCount 1 ((sort_by_key_enqueue P T_keys T_values ctl comp cl_code w).2.log.drop
          w.log.length) = 1
        ∧ bindCount 4 ((sort_by_key_enqueue P T_keys T_values ctl comp cl_code w).2.log.drop
          w.log.length) = 1)
    ∧ (∀ index arg,
        Op.setArg index arg ∈ (sort_by_key_enqueue P T_keys T_values ctl comp cl_code w).2.log.drop
          w.log.length →
        (index = 0 ∧ arg = .buffer .Keys) ∨ (index = 1 ∧ arg = .buffer .Values)
          ∨ (index = 4 ∧ arg = .userFunctor)
          ∨ ∃ n, arg = .uint n ∧ (index = 2 ∨ index = 3))
    ∧ (∀ pre kernel g l post,
        (sort_by_key_enqueue P T_keys T_values ctl comp cl_code w).2.log.drop w.log.length
          = pre ++ Op.enqueueNDRangeKernel kernel g l :: post →
        bindCount 0 pre = 1 ∧ bindCount 1 pre = 1 ∧ bindCount 4 pre = 1
          ∧ ∀ index arg, Op.setArg index arg ∈ post → index = 2 ∨ index = 3) := by
  obtain ⟨head, tail, hsplit, hnl, h0, h1, h4, hhead, htail⟩ :=
    engineOps_head_tail P T_keys T_values ctl comp cl_code w
  obtain ⟨⟨rest, hrest⟩, hok⟩ := log_isPrefix_engineOps P T_keys T_values ctl comp cl_code w
  rw [hsplit] at hrest hok
  have hsub : ∀ (xs : List Op), (∀ op ∈ xs, op ∈ tail) →
      bindCount 0 xs = 0 ∧ bindCount 1 xs = 0 ∧ bindCount 4 xs = 0 := by
    intro xs hxs
    refine ⟨bindCount_eq_zero _ _ ?_, bindCount_eq_zero _ _ ?_, bindCount_eq_zero _ _ ?_⟩ <;>
    · intro i arg hmem hi
      obtain ⟨n, -, h23⟩ := htail i arg (hxs _ hmem)
      omega
  obtain ⟨t0, t1, t4⟩ := hsub tail fun _ h => h
  have hc0 := congrArg (bindCount 0) hrest
  have hc1 := congrArg (bindCount 1) hrest
  have hc4 := congrArg (bindCount 4) hrest
  rw [bindCount_append, bindCount_append] at hc0 hc1 hc4
  refine ⟨⟨by omega, by omega, by omega⟩, ?_, ?_, ?_⟩
  · intro h
    rw [hok h, bindCount_append, bindCount_append, bindCount_append]
    exact ⟨by omega, by omega, by omega⟩
  · intro index arg hmem
    have hmem2 : Op.setArg index arg ∈ head ++ tail := by
      rw [← hrest]; exact List.mem_append_left _ hmem
    rcases List.mem_append.mp hmem2 with h | h
    · rcases hhead index arg h with h | h | h
      · exact Or.inl h
      · exact Or.inr (Or.inl h)
      · exact Or.inr (Or.inr (Or.inl h))
    · exact Or.inr (Or.inr (Or.inr (htail index arg h)))
  · intro pre kernel g l post hdec
    rw [hdec] at hrest
    have hx : Op.enqueueNDRangeKernel kernel g l ∉ head := by
      intro hmem
      have := hnl _ hmem
      cases this
    obtain ⟨mid, hpre, htl⟩ := split_after_head pre post rest head tail _ hrest hx
    have hmid : ∀ op ∈ mid, op ∈ tail := by
      intro op hop
      rw [htl]
      exact List.mem_append_left _ (List.mem_append_left _ hop)
    have hpost : ∀ op ∈ post, op ∈ tail := by
      intro op hop
      rw [htl]
      exact List.mem_append_left _ (List.mem_append_right _ (List.mem_cons_of_mem _ hop))
    obtain ⟨m0, m1, m4⟩ := hsub mid hmid
    rw [hpre, bindCount_append, bindCount_append, bindCount_append]
    refine ⟨by omega, by omega, by omega, ?_⟩
    intro index arg hmem
    obtain ⟨n, -, h23⟩ := htail index arg (hpost _ hmem)
    exact h23

/-- C23 at a call on two keys with the kernel already compiled, on a platform on
which nothing fails: it returns normally, arguments 0, 1 and 4 are bound once
each before the one launch, and no bind follows the launch. -/
theorem C23_witness :
    (bindCount 0 ((sort_by_key_enqueue idlePlatform T_int T_char (controlWith .Automatic)
          (less T_functor) "" (warmWorld [2, 1] ['a', 'b'])).2.log.drop
          (warmWorld [2, 1] ['a', 'b']).log.length) = 1
      ∧ bindCount 1 ((sort_by_key_enqueue idlePlatform T_int T_char (controlWith .Automatic)
          (less T_functor) "" (warmWorld [2, 1] ['a', 'b'])).2.log.drop
          (warmWorld [2, 1] ['a', 'b']).log.length) = 1
      ∧ bindCount 4 ((sort_by_key_enqueue idlePlatform T_int T_char (controlWith .Automatic)
          (less T_functor) "" (warmWorld [2, 1] ['a', 'b'])).2.log.drop
          (warmWorld [2, 1] ['a', 'b']).log.length) = 1)
    ∧ (bindCount 0 [Op.getWorkGroupInfo, .createUserFunctorBuffer, .setArg 0 (.buffer .Keys),
          .setArg 1 (.buffer .Values), .setArg 4 .userFunctor, .setArg 2 (.uint 0),
          .setArg 3 (.uint 0)] = 1
      ∧ bindCount 1 [Op.getWorkGroupInfo, .createUserFunctorBuffer, .setArg 0 (.buffer .Keys),
          .setArg 1 (.buffer .Values), .setArg 4 .userFunctor, .setArg 2 (.uint 0),
          .setArg 3 (.uint 0)] = 1
      ∧ bindCount 4 [Op.getWorkGroupInfo, .createUserFunctorBuffer, .setArg 0 (.buffer .Keys),
          .setArg 1 (.buffer .Values), .setArg 4 .userFunctor, .setArg 2 (.uint 0),
          .setArg 3 (.uint 0)] = 1
      ∧ ∀ index arg,
          Op.setArg index arg ∈ [Op.finish, .enqueueMapBuffer .Keys, .enqueueMapBuffer .Values] →
            index = 2 ∨ index = 3) :=
  ⟨(C23_buffers_and_functor_are_bound_once_before_the_launches idlePlatform T_int T_char
      (controlWith .Automatic) (less T_functor) "" (warmWorld [2, 1] ['a', 'b'])).2.1
      (by decide),
    (C23_buffers_and_functor_are_bound_once_before_the_launches idlePlatform T_int T_char
      (controlWith .Automatic) (less T_functor) "" (warmWorld [2, 1] ['a', 'b'])).2.2.2
      [Op.getWorkGroupInfo, .createUserFunctorBuffer, .setArg 0 (.buffer .Keys),
        .setArg 1 (.buffer .Values), .setArg 4 .userFunctor, .setArg 2 (.uint 0),
        .setArg 3 (.uint 0)]
      (some ⟨0⟩) 1 1 [.finish, .enqueueMapBuffer .Keys, .enqueueMapBuffer .Values]
      (by decide)⟩

/-! ## What is handed to the kernel compiler -/

section CompileRequests

variable {K V : Type} (P : Platform K V)

/-- Every compiler call a call adds to the log carries the request the engine
builds from its arguments. -/
theorem compile_of_log (T_keys T_values : TypeTraits) (ctl : control)
    (comp : StrictWeakOrdering K) (cl_code : String) (w : World K V) (req : CompileRequest)
    (h : Op.constructAndCompileString req
      ∈ (sort_by_key_enqueue P T_keys T_values ctl comp cl_code w).2.log.drop w.log.length) :
    req = engineCompileRequest T_keys T_values ctl comp cl_code := by
  rcases mem_engineOps P T_keys T_values ctl comp cl_code w _
    (mem_engineOps_of_log P T_keys T_values ctl comp cl_code w _ h) with ⟨-, hreq⟩ | ⟨hnc, -⟩
  · cases hreq; rfl
  · cases hnc

end CompileRequests

/-- C24 (code defect). A device_vector call on two keys of the registered type
`UDD` with the registered comparator `UDDLess` and the prelude `typedef int
myint;`: the one request handed to the compiler names `UDDLess` as the functor
type, and its user code is the prelude, then the definition of the key type,
then the definition of the value type; the non-empty definition of the
comparator type is not part of it. -/
theorem C24_comparator_definition_is_not_handed_to_the_compiler :
    (compileRequests
        (sort_by_key_4 .device_vector idlePlatform T_UDD T_char (controlWith .Automatic)
          (less T_UDDLess) "typedef int myint;\n" (freshWorld [2, 1] ['a', 'b'])).2.log).map
        (fun req => (req.functorTypeName, req.userCode))
      = [("UDDLess", "typedef int myint;\n" ++ T_UDD.ClCode ++ T_char.ClCode)]
    ∧ "typedef int myint;\n" ++ T_UDD.ClCode ++ T_char.ClCode
        ≠ "typedef int myint;\n" ++ T_UDD.ClCode ++ T_char.ClCode ++ T_UDDLess.ClCode
    ∧ T_UDDLess.ClCode ≠ "" := by
  decide

/-- C25, the claim as stated fails. A call on keys and values of one and the same
registered type `UDD` with an empty prelude: the user code of the one request
handed to the compiler is the non-empty definition of `UDD` twice in a row. -/
theorem C25_counterexample :
    (compileRequests
        (sort_by_key_enqueue sameTypePlatform T_UDD T_UDD (controlWith .Automatic)
          (less T_functor) "" ⟨[2, 1], [7, 8], [], [], false, none⟩).2.log).map
        CompileRequest.userCode
      = [T_UDD.ClCode ++ T_UDD.ClCode]
    ∧ T_UDD.ClCode ≠ "" := by
  decide

/-- C25 as amended. Every request a call hands to the compiler is the one the
engine builds from its arguments, and its user code is the prelude, then the
definition of the key type, then the definition of the value type, each
appended once for its role whether or not the two types are the same. -/
theorem C25_definitions_are_appended_once_per_role {K V : Type} (P : Platform K V)
    (T_keys T_values : TypeTraits) (ctl : control) (comp : StrictWeakOrdering K)
    (cl_code : String) (w : World K V) (req : CompileRequest)
    (h : Op.constructAndCompileString req
      ∈ (sort_by_key_enqueue P T_keys T_values ctl comp cl_code w).2.log.drop w.log.length) :
    req = engineCompileRequest T_keys T_values ctl comp cl_code
    ∧ req.userCode = cl_code ++ T_keys.ClCode ++ T_values.ClCode := by
  have hreq := compile_of_log P T_keys T_values ctl comp cl_code w req h
  exact ⟨hreq, by rw [hreq]; rfl⟩

/-- C25 as amended, at the call of the counterexample: the first operation of
the call is the compiler call, and the user code of its request is the
definition of `UDD` twice. -/
theorem C25_witness :
    ((sort_by_key_enqueue sameTypePlatform T_UDD T_UDD (controlWith .Automatic)
          (less T_functor) "" ⟨[2, 1], [7, 8], [], [], false, none⟩).2.log.drop 0).head?
      = some (.constructAndCompileString
          (engineCompileRequest T_UDD T_UDD (controlWith .Automatic)
            (less T_functor : StrictWeakOrdering Nat) ""))
    ∧ (engineCompileRequest T_UDD T_UDD (controlWith .Automatic)
        (less T_functor : StrictWeakOrdering Nat) "").userCode
      = "" ++ T_UDD.ClCode ++ T_UDD.ClCode :=
  ⟨rfl,
    (C25_definitions_are_appended_once_per_role sameTypePlatform T_UDD T_UDD
      (controlWith .Automatic) (less T_functor) "" ⟨[2, 1], [7, 8], [], [], false, none⟩
      (engineCompileRequest T_UDD T_UDD (controlWith .Automatic) (less T_functor) "")
      (List.mem_of_mem_head? rfl)).2⟩

/-- C26. The instantiation banner is the fixed text with the three type names
inserted as they are: the comment line, the `template` line naming
`sort_by_keyInstantiated`, the line opening `sortByKeyTemplate`, five
parameters separated by a comma and a line break, and the closing line. Every
request a call hands to the compiler carries the banner built from the names of
the key type, the value type and the comparator type, in this order; and for a
key type without `TypeName` specialization the first parameter carries the
error text as it is. -/
theorem C26_banner_is_the_fixed_text_with_the_names_inserted {K V : Type}
    (P : Platform K V) (T_keys T_values : TypeTraits) (ctl : control)
    (comp : StrictWeakOrdering K) (cl_code : String) (w : World K V) (req : CompileRequest)
    (h : Op.constructAndCompileString req
      ∈ (sort_by_key_enqueue P T_keys T_values ctl comp cl_code w).2.log.drop w.log.length) :
    (∀ k v c : String,
      instantiationString k v c
        = "// Host generates this instantiation string with user-specified value type and functor\n"
          ++ "template __attribute__((mangled_name(sort_by_keyInstantiated)))\n"
          ++ "kernel void sortByKeyTemplate(\n"
          ++ ",\n".intercalate
              ["global " ++ k ++ "* keys", "global " ++ v ++ "* values", "const uint stage",
                "const uint passOfStage", "global " ++ c ++ " * userComp"]
          ++ "\n);\n\n")
    ∧ req.kernelName = "sort_by_key"
    ∧ req.instantiationString
        = instantiationString T_keys.TypeName T_values.TypeName comp.traits.TypeName
    ∧ (∀ (T : Type) (traits : Traits T) (t : T), traits.TypeName t = none →
        ∀ v c : String,
          instantiationString (TypeName.get traits t) v c
            = "// Host generates this instantiation string with user-specified value type and functor\n"
              ++ "template __attribute__((mangled_name(sort_by_keyInstantiated)))\n"
              ++ "kernel void sortByKeyTemplate(\n"
              ++ ",\n".intercalate
                  ["global " ++ ("ERROR (bolt): Unknown typename; define missing TypeName<"
                      ++ traits.typeid_name t ++ ">") ++ "* keys",
                    "global " ++ v ++ "* values", "const uint stage",
                    "const uint passOfStage", "global " ++ c ++ " * userComp"]
              ++ "\n);\n\n") := by
  have hbanner : ∀ k v c : String,
      instantiationString k v c
        = "// Host generates this instantiation string with user-specified value type and functor\n"
          ++ "template __attribute__((mangled_name(sort_by_keyInstantiated)))\n"
          ++ "kernel void sortByKeyTemplate(\n"
          ++ ",\n".intercalate
              ["global " ++ k ++ "* keys", "global " ++ v ++ "* values", "const uint stage",
                "const uint passOfStage", "global " ++ c ++ " * userComp"]
          ++ "\n);\n\n" := by
    intro k v c
    simp only [instantiationString, String.intercalate, String.intercalate.go,
      String.append_assoc]
    rfl
  have hreq := compile_of_log P T_keys T_values ctl comp cl_code w req h
  refine ⟨hbanner, by rw [hreq]; rfl, by rw [hreq]; rfl, ?_⟩
  intro T traits t ht v c
  rw [hbanner, TypeName.get, ht]

set_option maxRecDepth 20000 in
/-- C26 at a first call on `int` keys and `char` values with a comparator named
`functor<int>`, and at the unregistered key type `UDD`. -/
theorem C26_witness :
    ((sort_by_key_enqueue idlePlatform T_int T_char (controlWith .Automatic)
          (less T_functor) "" (freshWorld [2, 1] ['a', 'b'])).2.log.drop
        (freshWorld [2, 1] ['a', 'b']).log.length).head?
      = some (.constructAndCompileString
          (engineCompileRequest T_int T_char (controlWith .Automatic)
            (less T_functor : StrictWeakOrdering Nat) ""))
    ∧ (engineCompileRequest T_int T_char (controlWith .Automatic)
        (less T_functor : StrictWeakOrdering Nat) "").instantiationString
      = "// Host generates this instantiation string with user-specified value type and functor\n"
        ++ "template __attribute__((mangled_name(sort_by_keyInstantiated)))\n"
        ++ "kernel void sortByKeyTemplate(\n"
        ++ "global int* keys,\n"
        ++ "global char* values,\n"
        ++ "const uint stage,\n"
        ++ "const uint passOfStage,\n"
        ++ "global functor<int> * userComp\n"
        ++ ");\n\n"
    ∧ instantiationString (TypeName.get builtinTraits "UDD") "char" "functor<int>"
      = "// Host generates this instantiation string with user-specified value type and functor\n"
        ++ "template __attribute__((mangled_name(sort_by_keyInstantiated)))\n"
        ++ "kernel void sortByKeyTemplate(\n"
        ++ "global ERROR (bolt): Unknown typename; define missing TypeName<UDD>* keys,\n"
        ++ "global char* values,\n"
        ++ "const uint stage,\n"
        ++ "const uint passOfStage,\n"
        ++ "global functor<int> * userComp\n"
        ++ ");\n\n" :=
  ⟨rfl,
    ((C26_banner_is_the_fixed_text_with_the_names_inserted idlePlatform T_int T_char
      (controlWith .Automatic) (less T_functor) "" (freshWorld [2, 1] ['a', 'b'])
      (engineCompileRequest T_int T_char (controlWith .Automatic) (less T_functor) "")
      (List.mem_of_mem_head? rfl)).2.2.1.trans
      ((C26_banner_is_the_fixed_text_with_the_names_inserted idlePlatform T_int T_char
        (controlWith .Automatic) (less T_functor) "" (freshWorld [2, 1] ['a', 'b'])
        (engineCompileRequest T_int T_char (controlWith .Automatic) (less T_functor) "")
        (List.mem_of_mem_head? rfl)).1 "int" "char" "functor<int>")).trans rfl,
    ((C26_banner_is_the_fixed_text_with_the_names_inserted idlePlatform T_int T_char
      (controlWith .Automatic) (less T_functor) "" (freshWorld [2, 1] ['a', 'b'])
      (engineCompileRequest T_int T_char (controlWith .Automatic) (less T_functor) "")
      (List.mem_of_mem_head? rfl)).2.2.2 String builtinTraits "UDD" (by decide)
      "char" "functor<int>").trans rfl⟩

/-! ## The two dispatch paths -/

/-- C27. Host iterators, with `SerialCpu` forced or fewer than `WGSIZE` keys: the
call returns normally; the keys are the input keys in ascending order of the key
type (`std::sort` without comparator), whatever comparator the caller passed;
the values, the log of platform operations and the two statics are as they
were. -/
theorem C27_host_fallback_sorts_the_keys_only {K V : Type} [LinearOrder K]
    (P : Platform K V) (T_keys T_values : TypeTraits) (ctl : control)
    (comp : StrictWeakOrdering K) (cl_code : String) (w : World K V)
    (h2 : w.keys.length < SIZE_T_RANGE)
    (h : ctl.forceRunMode = e_RunMode.SerialCpu ∨ w.keys.length < WGSIZE) :
    (sort_by_key_4 .host P T_keys T_values ctl comp cl_code w).1 = .ok ()
    ∧ (sort_by_key_4 .host P T_keys T_values ctl comp cl_code w).2.keys = std_sort w.keys
    ∧ List.Sorted (· ≤ ·) (sort_by_key_4 .host P T_keys T_values ctl comp cl_code w).2.keys
    ∧ List.Perm (sort_by_key_4 .host P T_keys T_values ctl comp cl_code w).2.keys w.keys
    ∧ (sort_by_key_4 .host P T_keys T_values ctl comp cl_code w).2.values = w.values
    ∧ (sort_by_key_4 .host P T_keys T_values ctl comp cl_code w).2.log = w.log
    ∧ (sort_by_key_4 .host P T_keys T_values ctl comp cl_code w).2.initOnlyOnce = w.initOnlyOnce
    ∧ (sort_by_key_4 .host P T_keys T_values ctl comp cl_code w).2.masterKernel = w.masterKernel
    ∧ ∀ comp1 : StrictWeakOrdering K,
        sort_by_key_4 .host P T_keys T_values ctl comp1 cl_code w
          = sort_by_key_4 .host P T_keys T_values ctl comp cl_code w := by
  have hsorted : List.Sorted (· ≤ ·) (std_sort w.keys) := List.sorted_insertionSort _ _
  have hperm : List.Perm (std_sort w.keys) w.keys := List.perm_insertionSort _ _
  simp only [sort_by_key_4_eq]
  by_cases h0 : to_size_t w.keys.length = 0
  · have hnil : w.keys = [] := by
      rw [to_size_t_of_lt h2] at h0
      exact List.length_eq_zero.mp h0
    have hres : ∀ comp1 : StrictWeakOrdering K,
        sort_by_key_pick_iterator_host P T_keys T_values ctl comp1 cl_code w = (.ok (), w) := by
      intro comp1
      rw [sort_by_key_pick_iterator_host]
      simp only [if_pos h0]
    rw [hres comp]
    refine ⟨rfl, ?_, ?_, ?_, rfl, rfl, rfl, rfl, fun comp1 => hres comp1⟩
    · show w.keys = std_sort w.keys
      rw [hnil]; rfl
    · show List.Sorted (· ≤ ·) w.keys
      rw [hnil]; exact List.sorted_nil
    · exact List.Perm.refl _
  · have hsmall : ctl.forceRunMode = e_RunMode.SerialCpu ∨ to_size_t w.keys.length < WGSIZE := by
      rw [to_size_t_of_lt h2]; exact h
    have hres : ∀ comp1 : StrictWeakOrdering K,
        sort_by_key_pick_iterator_host P T_keys T_values ctl comp1 cl_code w
          = (.ok (), { w.print "The SerialCpu version of sort is not implemented yet.\n" with
              keys := std_sort w.keys }) :=
      fun comp1 => pick_iterator_host_of_small P T_keys T_values ctl comp1 cl_code w h0 hsmall
    rw [hres comp]
    exact ⟨rfl, rfl, hsorted, hperm, rfl, rfl, rfl, rfl, fun comp1 => hres comp1⟩

/-- C27 at the spec's scenario S6 (`K=[3,1,2]`, `V=[x,y,z]`, `SerialCpu` forced) with
the comparator `greater`: the keys come back ascending, the values stay. -/
theorem C27_witness :
    ((sort_by_key_4 .host idlePlatform T_int T_char (controlWith .SerialCpu)
        (greater T_functor) "" (freshWorld [3, 1, 2] ['x', 'y', 'z'])).1 = .ok ()
      ∧ (sort_by_key_4 .host idlePlatform T_int T_char (controlWith .SerialCpu)
          (greater T_functor) "" (freshWorld [3, 1, 2] ['x', 'y', 'z'])).2.keys
        = std_sort (freshWorld [3, 1, 2] ['x', 'y', 'z']).keys
      ∧ List.Sorted (· ≤ ·) (sort_by_key_4 .host idlePlatform T_int T_char
          (controlWith .SerialCpu) (greater T_functor) ""
          (freshWorld [3, 1, 2] ['x', 'y', 'z'])).2.keys
      ∧ List.Perm (sort_by_key_4 .host idlePlatform T_int T_char (controlWith .SerialCpu)
          (greater T_functor) "" (freshWorld [3, 1, 2] ['x', 'y', 'z'])).2.keys
          (freshWorld [3, 1, 2] ['x', 'y', 'z']).keys
      ∧ (sort_by_key_4 .host idlePlatform T_int T_char (controlWith .SerialCpu)
          (greater T_functor) "" (freshWorld [3, 1, 2] ['x', 'y', 'z'])).2.values
        = (freshWorld [3, 1, 2] ['x', 'y', 'z']).values
      ∧ (sort_by_key_4 .host idlePlatform T_int T_char (controlWith .SerialCpu)
          (greater T_functor) "" (freshWorld [3, 1, 2] ['x', 'y', 'z'])).2.log
        = (freshWorld [3, 1, 2] ['x', 'y', 'z']).log
      ∧ (sort_by_key_4 .host idlePlatform T_int T_char (controlWith .SerialCpu)
          (greater T_functor) "" (freshWorld [3, 1, 2] ['x', 'y', 'z'])).2.initOnlyOnce
        = (freshWorld [3, 1, 2] ['x', 'y', 'z']).initOnlyOnce
      ∧ (sort_by_key_4 .host idlePlatform T_int T_char (controlWith .SerialCpu)
          (greater T_functor) "" (freshWorld [3, 1, 2] ['x', 'y', 'z'])).2.masterKernel
        = (freshWorld [3, 1, 2] ['x', 'y', 'z']).masterKernel
      ∧ ∀ comp1 : StrictWeakOrdering Nat,
          sort_by_key_4 .host idlePlatform T_int T_char (controlWith .SerialCpu) comp1 ""
              (freshWorld [3, 1, 2] ['x', 'y', 'z'])
            = sort_by_key_4 .host idlePlatform T_int T_char (controlWith .SerialCpu)
                (greater T_functor) "" (freshWorld [3, 1, 2] ['x', 'y', 'z']))
    ∧ (sort_by_key_4 .host idlePlatform T_int T_char (controlWith .SerialCpu)
        (greater T_functor) "" (freshWorld [3, 1, 2] ['x', 'y', 'z'])).2.keys = [1, 2, 3]
    ∧ (sort_by_key_4 .host idlePlatform T_int T_char (controlWith .SerialCpu)
        (greater T_functor) "" (freshWorld [3, 1, 2] ['x', 'y', 'z'])).2.values
      = ['x', 'y', 'z'] :=
  ⟨C27_host_fallback_sorts_the_keys_only idlePlatform T_int T_char (controlWith .SerialCpu)
      (greater T_functor) "" (freshWorld [3, 1, 2] ['x', 'y', 'z']) (by decide) (Or.inl rfl),
    by decide, by decide⟩

section EngineTrace

variable {K V : Type} (P : Platform K V)

/-- The first operation of a schedule that is not empty is issued. -/
theorem issueUntilFailure_head (st : List Op → Op → Int) (log : List Op) (x : Op)
    (xs : List Op) : ∃ rest, (issueUntilFailure st log (x :: xs)).1 = x :: rest := by
  by_cases hop : st log x = CL_SUCCESS
  · rw [issueUntilFailure_cons_ok st xs hop]
    exact ⟨_, rfl⟩
  · rw [issueUntilFailure_cons_fail st xs hop]
    exact ⟨_, rfl⟩

/-- An engine call on a size that passes the test adds to the log at least one
operation, and the first is a compiler call or the work-group query. -/
theorem engine_first_op (T_keys T_values : TypeTraits) (ctl : control)
    (comp : StrictWeakOrdering K) (cl_code : String) (w : World K V)
    (htest : notPowerOfTwoTest (to_size_t w.keys.length) = false) :
    ∃ first rest,
      (sort_by_key_enqueue P T_keys T_values ctl comp cl_code w).2.log
        = w.log ++ first :: rest
      ∧ (first.isCompile = true ∨ first = Op.getWorkGroupInfo) := by
  obtain ⟨hlog, -, -, -, -⟩ :=
    sort_by_key_enqueue_follows P T_keys T_values ctl comp cl_code w htest
  rw [hlog, engineOps_eq]
  by_cases hflag : w.initOnlyOnce = true
  · rw [if_pos hflag, List.nil_append]
    obtain ⟨rest, hrest⟩ := issueUntilFailure_head
      (engineStatus P
        (kernelAfterOnce P (engineCompileRequest T_keys T_values ctl comp cl_code) w)
        ctl.device) w.log Op.getWorkGroupInfo
      ([Op.createUserFunctorBuffer, .setArg 0 (.buffer .Keys), .setArg 1 (.buffer .Values),
          .setArg 4 .userFunctor]
        ++ stageOps (kernelAfterOnce P (engineCompileRequest T_keys T_values ctl comp cl_code) w)
            (to_size_t w.keys.length / 2)
            (clampWgSize (to_size_t w.keys.length)
              (to_size_t (P.getWorkGroupInfo
                (kernelAfterOnce P (engineCompileRequest T_keys T_values ctl comp cl_code) w)
                ctl.device).1))
            0 (numStagesLoop 64 (to_size_t w.keys.length) 0)
        ++ [.enqueueMapBuffer .Keys, .enqueueMapBuffer .Values])
    exact ⟨_, rest, congrArg (w.log ++ ·) hrest, Or.inr rfl⟩
  · rw [if_neg hflag, List.singleton_append]
    obtain ⟨rest, hrest⟩ := issueUntilFailure_head
      (engineStatus P
        (kernelAfterOnce P (engineCompileRequest T_keys T_values ctl comp cl_code) w)
        ctl.device) w.log
      (Op.constructAndCompileString (engineCompileRequest T_keys T_values ctl comp cl_code))
      ([Op.getWorkGroupInfo, .createUserFunctorBuffer, .setArg 0 (.buffer .Keys),
          .setArg 1 (.buffer .Values), .setArg 4 .userFunctor]
        ++ stageOps (kernelAfterOnce P (engineCompileRequest T_keys T_values ctl comp cl_code) w)
            (to_size_t w.keys.length / 2)
            (clampWgSize (to_size_t w.keys.length)
              (to_size_t (P.getWorkGroupInfo
                (kernelAfterOnce P (engineCompileRequest T_keys T_values ctl comp cl_code) w)
                ctl.device).1))
            0 (numStagesLoop 64 (to_size_t w.keys.length) 0)
        ++ [.enqueueMapBuffer .Keys, .enqueueMapBuffer .Values])
    exact ⟨_, rest, congrArg (w.log ++ ·) hrest, Or.inl rfl⟩

/-- What an engine call leaves behind relative to a world `w0` whose standard
output it starts from and whose log it extends: the notice, or a first
operation that is a compiler call or the work-group query. -/
theorem engine_leaves (T_keys T_values : TypeTraits) (ctl : control)
    (comp : StrictWeakOrdering K) (cl_code : String) (w : World K V) :
    (sort_by_key_enqueue P T_keys T_values ctl comp cl_code w).2.cout
        = w.cout ++ [unsupportedSizeNotice]
    ∨ ∃ first rest,
        (sort_by_key_enqueue P T_keys T_values ctl comp cl_code w).2.log
          = w.log ++ first :: rest
        ∧ (first.isCompile = true ∨ first = Op.getWorkGroupInfo) := by
  by_cases htest : notPowerOfTwoTest (to_size_t w.keys.length) = true
  · left
    rw [sort_by_key_enqueue_of_test P T_keys T_values ctl comp cl_code w htest]
    rfl
  · right
    exact engine_first_op P T_keys T_values ctl comp cl_code w (by simpa using htest)

/-- An engine call leaves its trace. -/
theorem engineTrace_engine (T_keys T_values : TypeTraits) (ctl : control)
    (comp : StrictWeakOrdering K) (cl_code : String) (w : World K V) :
    engineTrace w (sort_by_key_enqueue P T_keys T_values ctl comp cl_code w) := by
  rcases engine_leaves P T_keys T_values ctl comp cl_code w with h | ⟨first, rest, h, hf⟩
  · left
    rw [h, List.drop_left]
    exact List.mem_singleton.mpr rfl
  · right
    rw [h, List.drop_left]
    exact ⟨first, List.mem_cons_self _ _, hf⟩

/-- An engine call between the wrappers of the host path leaves its trace. -/
theorem engineTrace_host (T_keys T_values : TypeTraits) (ctl : control)
    (comp : StrictWeakOrdering K) (cl_code : String) (w : World K V) :
    engineTrace w
      ((sort_by_key_enqueue P T_keys T_values ctl comp cl_code
          ((w.issue (.device_vector .Values)).issue (.device_vector .Keys))).andThen
        (fun w2 => (.ok (), (w2.issue (.data .Values)).issue (.data .Keys)))) := by
  have hkeep : ∀ r : Outcome K V,
      (r.andThen (fun w2 => (.ok (), (w2.issue (.data .Values)).issue (.data .Keys)))).2.cout
          = r.2.cout
      ∧ ∃ tail, (r.andThen
          (fun w2 => (.ok (), (w2.issue (.data .Values)).issue (.data .Keys)))).2.log
          = r.2.log ++ tail := by
    intro r
    rcases r with ⟨⟨e⟩ | ⟨⟨⟩⟩, w1⟩
    · exact ⟨rfl, [], (List.append_nil _).symm⟩
    · exact ⟨rfl, [.data .Values, .data .Keys], by
        show (w1.log ++ [_]) ++ [_] = _
        rw [List.append_assoc]; rfl⟩
  obtain ⟨hcout, tail, hlog⟩ := hkeep (sort_by_key_enqueue P T_keys T_values ctl comp cl_code
    ((w.issue (.device_vector .Values)).issue (.device_vector .Keys)))
  rcases engine_leaves P T_keys T_values ctl comp cl_code
    ((w.issue (.device_vector .Values)).issue (.device_vector .Keys))
    with h | ⟨first, rest, h, hf⟩
  · left
    rw [hcout, h]
    show unsupportedSizeNotice ∈ (w.cout ++ [unsupportedSizeNotice]).drop w.cout.length
    rw [List.drop_left]
    exact List.mem_singleton.mpr rfl
  · right
    rw [hlog, h]
    have hw : ((w.issue (.device_vector .Values)).issue (.device_vector .Keys)).log
        = w.log ++ [.device_vector .Values, .device_vector .Keys] := by
      show (w.log ++ [_]) ++ [_] = _
      rw [List.append_assoc]; rfl
    rw [hw, List.append_assoc, List.append_assoc, List.drop_left]
    exact ⟨first, by simp, hf⟩

end EngineTrace

section NoTrace

variable {K V : Type}

/-- An outcome that leaves the log as it was and prints nothing, or one line
other than the unsupported-size notice, does not carry the trace of the engine. -/
theorem not_engineTrace (w : World K V) (r : Outcome K V) (hlog : r.2.log = w.log)
    (hcout : r.2.cout = w.cout
      ∨ ∃ line, r.2.cout = w.cout ++ [line] ∧ line ≠ unsupportedSizeNotice) :
    ¬ engineTrace w r := by
  rintro (h | ⟨op, hop, -⟩)
  · rcases hcout with hc | ⟨line, hc, hne⟩
    · rw [hc, List.drop_length] at h
      cases h
    · rw [hc, List.drop_left] at h
      exact hne (List.mem_singleton.mp h).symm
  · rw [hlog, List.drop_length] at hop
    cases hop

end NoTrace

/-- C28, the claim as stated fails: on an empty range from device_vector iterators
with `SerialCpu` forced the call returns normally instead of throwing; the size
is compared with zero before the run mode is read. -/
theorem C28_counterexample :
    sort_by_key_4 .device_vector idlePlatform T_int T_char (controlWith .SerialCpu)
        (less T_functor) "" (freshWorld [] [])
      = (.ok (), freshWorld [] []) := by
  decide

/-- C28 as amended. With `N` keys: from device_vector iterators the engine runs
exactly when `1 ≤ N` and the run mode is neither `SerialCpu` nor `MultiCoreCpu`,
the call then being the engine call, and for `1 ≤ N` a forced CPU mode throws
`CL_INVALID_DEVICE` whatever the size; from host iterators the engine runs
exactly when `WGSIZE ≤ N` and the run mode is neither of the two, the call then
being the engine call between the `device_vector` wrappers and the `data()`
calls. -/
theorem C28_when_the_engine_runs {K V : Type} [LinearOrder K]
    (P : Platform K V) (T_keys T_values : TypeTraits) (ctl : control)
    (comp : StrictWeakOrdering K) (cl_code : String) (w : World K V)
    (h2 : w.keys.length < SIZE_T_RANGE) :
    (engineTrace w (sort_by_key_4 .device_vector P T_keys T_values ctl comp cl_code w)
        ↔ (1 ≤ w.keys.length ∧ ctl.forceRunMode ≠ e_RunMode.SerialCpu
            ∧ ctl.forceRunMode ≠ e_RunMode.MultiCoreCpu))
    ∧ (1 ≤ w.keys.length ∧ ctl.forceRunMode ≠ e_RunMode.SerialCpu
          ∧ ctl.forceRunMode ≠ e_RunMode.MultiCoreCpu →
        sort_by_key_4 .device_vector P T_keys T_values ctl comp cl_code w
          = sort_by_key_enqueue P T_keys T_values ctl comp cl_code w)
    ∧ (1 ≤ w.keys.length →
        ctl.forceRunMode = e_RunMode.SerialCpu ∨ ctl.forceRunMode = e_RunMode.MultiCoreCpu →
        ∃ what, (sort_by_key_4 .device_vector P T_keys T_values ctl comp cl_code w).1
          = .error (.cl CL_INVALID_DEVICE what))
    ∧ (engineTrace w (sort_by_key_4 .host P T_keys T_values ctl comp cl_code w)
        ↔ (WGSIZE ≤ w.keys.length ∧ ctl.forceRunMode ≠ e_RunMode.SerialCpu
            ∧ ctl.forceRunMode ≠ e_RunMode.MultiCoreCpu))
    ∧ (WGSIZE ≤ w.keys.length ∧ ctl.forceRunMode ≠ e_RunMode.SerialCpu
          ∧ ctl.forceRunMode ≠ e_RunMode.MultiCoreCpu →
        sort_by_key_4 .host P T_keys T_values ctl comp cl_code w
          = (sort_by_key_enqueue P T_keys T_values ctl comp cl_code
              ((w.issue (.device_vector .Values)).issue (.device_vector .Keys))).andThen
            (fun w2 => (.ok (), (w2.issue (.data .Values)).issue (.data .Keys)))) := by
  have hsz : to_size_t w.keys.length = w.keys.length := to_size_t_of_lt h2
  have hdv : 1 ≤ w.keys.length ∧ ctl.forceRunMode ≠ e_RunMode.SerialCpu
        ∧ ctl.forceRunMode ≠ e_RunMode.MultiCoreCpu →
      sort_by_key_4 .device_vector P T_keys T_values ctl comp cl_code w
        = sort_by_key_enqueue P T_keys T_values ctl comp cl_code w := by
    rintro ⟨h1, hs, hm⟩
    rw [sort_by_key_4_eq]
    exact pick_iterator_device_vector_of_accelerator P T_keys T_values ctl comp cl_code w hs hm
      (by rw [hsz]; exact Nat.pos_iff_ne_zero.mp h1)
  have hhost : WGSIZE ≤ w.keys.length ∧ ctl.forceRunMode ≠ e_RunMode.SerialCpu
        ∧ ctl.forceRunMode ≠ e_RunMode.MultiCoreCpu →
      sort_by_key_4 .host P T_keys T_values ctl comp cl_code w
        = (sort_by_key_enqueue P T_keys T_values ctl comp cl_code
            ((w.issue (.device_vector .Values)).issue (.device_vector .Keys))).andThen
          (fun w2 => (.ok (), (w2.issue (.data .Values)).issue (.data .Keys))) := by
    rintro ⟨h64, hs, hm⟩
    rw [sort_by_key_4_eq]
    exact pick_iterator_host_of_accelerator P T_keys T_values ctl comp cl_code w hs hm
      (by rw [hsz]; exact h64)
  refine ⟨⟨?_, ?_⟩, hdv, ?_, ⟨?_, ?_⟩, hhost⟩
  · intro htrace
    by_contra hcond
    apply not_engineTrace w _ _ _ htrace
    · rw [sort_by_key_4_eq]
      show (sort_by_key_pick_iterator_device_vector P T_keys T_values ctl comp cl_code w).2.log
        = w.log
      by_cases h0 : to_size_t w.keys.length = 0
      · rw [sort_by_key_pick_iterator_device_vector]
        simp only [if_pos h0]
      · by_cases hs : ctl.forceRunMode = e_RunMode.SerialCpu
        · rw [pick_iterator_device_vector_of_serialCpu P T_keys T_values ctl comp cl_code w hs h0]
        · by_cases hm : ctl.forceRunMode = e_RunMode.MultiCoreCpu
          · rw [pick_iterator_device_vector_of_multiCore P T_keys T_values ctl comp cl_code w
              hm h0]
            rfl
          · exact absurd ⟨Nat.pos_of_ne_zero (by rw [← hsz]; exact h0), hs, hm⟩ hcond
    · rw [sort_by_key_4_eq]
      show (sort_by_key_pick_iterator_device_vector P T_keys T_values ctl comp cl_code w).2.cout
          = w.cout
        ∨ ∃ line,
          (sort_by_key_pick_iterator_device_vector P T_keys T_values ctl comp cl_code w).2.cout
            = w.cout ++ [line] ∧ line ≠ unsupportedSizeNotice
      by_cases h0 : to_size_t w.keys.length = 0
      · left
        rw [sort_by_key_pick_iterator_device_vector]
        simp only [if_pos h0]
      · by_cases hs : ctl.forceRunMode = e_RunMode.SerialCpu
        · left
          rw [pick_iterator_device_vector_of_serialCpu P T_keys T_values ctl comp cl_code w hs h0]
        · by_cases hm : ctl.forceRunMode = e_RunMode.MultiCoreCpu
          · right
            rw [pick_iterator_device_vector_of_multiCore P T_keys T_values ctl comp cl_code w
              hm h0]
            exact ⟨_, rfl, by decide⟩
          · exact absurd ⟨Nat.pos_of_ne_zero (by rw [← hsz]; exact h0), hs, hm⟩ hcond
  · intro hcond
    rw [hdv hcond]
    exact engineTrace_engine P T_keys T_values ctl comp cl_code w
  · intro h1 hmode
    have h0 : to_size_t w.keys.length ≠ 0 := by
      rw [hsz]; exact Nat.pos_iff_ne_zero.mp h1
    rw [sort_by_key_4_eq]
    rcases hmode with hs | hm
    · exact ⟨_, by
        show (sort_by_key_pick_iterator_device_vector P T_keys T_values ctl comp cl_code w).1 = _
        rw [pick_iterator_device_vector_of_serialCpu P T_keys T_values ctl comp cl_code w hs h0]
        rfl⟩
    · exact ⟨_, by
        show (sort_by_key_pick_iterator_device_vector P T_keys T_values ctl comp cl_code w).1 = _
        rw [pick_iterator_device_vector_of_multiCore P T_keys T_values ctl comp cl_code w hm h0]
        rfl⟩
  · intro htrace
    by_contra hcond
    have hres : (sort_by_key_pick_iterator_host P T_keys T_values ctl comp cl_code w).2.log
          = w.log
        ∧ ((sort_by_key_pick_iterator_host P T_keys T_values ctl comp cl_code w).2.cout = w.cout
          ∨ ∃ line,
            (sort_by_key_pick_iterator_host P T_keys T_values ctl comp cl_code w).2.cout
              = w.cout ++ [line] ∧ line ≠ unsupportedSizeNotice) := by
      by_cases h0 : to_size_t w.keys.length = 0
      · rw [sort_by_key_pick_iterator_host]
        simp only [if_pos h0]
        exact ⟨trivial, Or.inl trivial⟩
      · by_cases hsmall : ctl.forceRunMode = e_RunMode.SerialCpu
            ∨ to_size_t w.keys.length < WGSIZE
        · rw [pick_iterator_host_of_small P T_keys T_values ctl comp cl_code w h0 hsmall]
          exact ⟨rfl, Or.inr ⟨_, rfl, by decide⟩⟩
        · have h64 : WGSIZE ≤ to_size_t w.keys.length :=
            Nat.le_of_not_lt fun hlt => hsmall (Or.inr hlt)
          have hs : ctl.forceRunMode ≠ e_RunMode.SerialCpu := fun hs => hsmall (Or.inl hs)
          by_cases hm : ctl.forceRunMode = e_RunMode.MultiCoreCpu
          · rw [pick_iterator_host_of_multiCore P T_keys T_values ctl comp cl_code w hm h64]
            exact ⟨rfl, Or.inr ⟨_, rfl, by decide⟩⟩
          · exact absurd ⟨by rw [← hsz]; exact h64, hs, hm⟩ hcond
    apply not_engineTrace w _ _ _ htrace
    · rw [sort_by_key_4_eq]; exact hres.1
    · rw [sort_by_key_4_eq]; exact hres.2
  · intro hcond
    rw [hhost hcond]
    exact engineTrace_host P T_keys T_values ctl comp cl_code w

/-- C28 as amended, at two keys under the default control: from device_vector
iterators the engine runs, from host iterators it does not. -/
theorem C28_witness :
    engineTrace (freshWorld [2, 1] ['a', 'b'])
        (sort_by_key_4 .device_vector idlePlatform T_int T_char (controlWith .Automatic)
          (less T_functor) "" (freshWorld [2, 1] ['a', 'b']))
    ∧ ¬ engineTrace (freshWorld [2, 1] ['a', 'b'])
        (sort_by_key_4 .host idlePlatform T_int T_char (controlWith .Automatic)
          (less T_functor) "" (freshWorld [2, 1] ['a', 'b'])) :=
  ⟨(C28_when_the_engine_runs idlePlatform T_int T_char (controlWith .Automatic)
      (less T_functor) "" (freshWorld [2, 1] ['a', 'b']) (by decide)).1.mpr
      ⟨by decide, by decide, by decide⟩,
    fun h => absurd
      ((C28_when_the_engine_runs idlePlatform T_int T_char (controlWith .Automatic)
        (less T_functor) "" (freshWorld [2, 1] ['a', 'b']) (by decide)).2.2.2.1.mp h).1
      (by decide)⟩

/-! ## A single key, and the stage count -/

section StageCount

/-- The stage-counting loop with enough iterations for its argument yields the
floor of the binary logarithm. -/
theorem numStagesLoop_eq_log :
    ∀ (fuel n numStages : Nat), n < 2 ^ fuel →
      numStagesLoop fuel n numStages = numStages + Nat.log 2 n := by
  intro fuel
  induction fuel with
  | zero =>
    intro n numStages h
    have h0 : n = 0 := by
      rw [pow_zero] at h
      exact Nat.lt_one_iff.mp h
    rw [h0, numStagesLoop, Nat.log_zero_right, Nat.add_zero]
  | succ fuel ih =>
    intro n numStages h
    rw [numStagesLoop]
    by_cases hgt : n > 1
    · have hl : Nat.log 2 n = Nat.log 2 (n / 2) + 1 :=
        Nat.log_of_one_lt_of_le (by decide) hgt
      rw [if_pos hgt, Nat.shiftRight_eq_div_pow, pow_one,
        ih (n / 2) (numStages + 1) (by rw [pow_succ] at h; omega), hl]
      omega
    · rw [if_neg hgt, Nat.log_of_lt (by omega), Nat.add_zero]

end StageCount

section SingleKey

variable {K V : Type} (P : Platform K V)

/-- Keys and values pass through a sequence whose parts leave them alone. -/
theorem andThen_data (r : Outcome K V) (f : World K V → Outcome K V) (keys : List K)
    (values : List V) (hr : r.2.keys = keys ∧ r.2.values = values)
    (hf : ∀ w1, w1.keys = keys ∧ w1.values = values →
      (f w1).2.keys = keys ∧ (f w1).2.values = values) :
    (r.andThen f).2.keys = keys ∧ (r.andThen f).2.values = values := by
  rcases r with ⟨⟨e⟩ | ⟨⟨⟩⟩, w1⟩
  · exact hr
  · exact hf w1 hr

/-- With a stage count of zero the engine, from the work-group query on, leaves
keys and values as they are. -/
theorem engineTail_data_of_no_stage (ctl : control) (comp : StrictWeakOrdering K)
    (szElements : Nat) (w1 : World K V) (hst : numStagesLoop 64 szElements 0 = 0) :
    (engineTail P ctl comp szElements w1).2.keys = w1.keys
    ∧ (engineTail P ctl comp szElements w1).2.values = w1.values := by
  rw [engineTail]
  simp only [hst]
  refine andThen_data _ _ _ _ ⟨rfl, rfl⟩ fun w2 h2 => ?_
  refine andThen_data _ _ _ _ h2 fun w4 h4 => ?_
  refine andThen_data _ _ _ _ h4 fun w5 h5 => ?_
  refine andThen_data _ _ _ _ h5 fun w6 h6 => ?_
  refine andThen_data _ _ _ _ h6 fun w7 h7 => ?_
  exact h7

/-- With a stage count of zero an engine call leaves keys and values as they
are, however it ends. -/
theorem engine_data_of_no_stage (T_keys T_values : TypeTraits) (ctl : control)
    (comp : StrictWeakOrdering K) (cl_code : String) (w : World K V)
    (hst : numStagesLoop 64 (to_size_t w.keys.length) 0 = 0) :
    (sort_by_key_enqueue P T_keys T_values ctl comp cl_code w).2.keys = w.keys
    ∧ (sort_by_key_enqueue P T_keys T_values ctl comp cl_code w).2.values = w.values := by
  rw [sort_by_key_enqueue_eq]
  by_cases htest : notPowerOfTwoTest (to_size_t w.keys.length) = true
  · rw [if_pos htest]
    exact ⟨rfl, rfl⟩
  · rw [if_neg htest, call_once_compile_eq]
    refine andThen_data _ _ _ _ ?_ fun w1 h1 => ?_
    · by_cases hflag : w.initOnlyOnce = true
      · rw [if_pos hflag]
        exact ⟨rfl, rfl⟩
      · rw [if_neg hflag]
        cases P.compile (engineCompileRequest T_keys T_values ctl comp cl_code) with
        | ok k => exact ⟨rfl, rfl⟩
        | error d => exact ⟨rfl, rfl⟩
    · obtain ⟨hk, hv⟩ := engineTail_data_of_no_stage P ctl comp (to_size_t w.keys.length) w1 hst
      exact ⟨hk.trans h1.1, hv.trans h1.2⟩

end SingleKey

/-- C30. A device_vector call on a single key with no CPU mode forced. The size
passes the power-of-two test, the stage count is 0 and the clamped local size is
0 whatever multiple the platform reports; however the call ends it issues no
launch and leaves the key and the values as they are; it returns normally when
no platform operation fails and the kernel is compiled or gets compiled. And
for every count `n` that fits a `size_t` the stage-counting loop ends within 64
iterations, with the floor of the binary logarithm of `n` (0 for `n = 0`). -/
theorem C30_single_key_needs_no_launch {K V : Type} [LinearOrder K]
    (P : Platform K V) (T_keys T_values : TypeTraits) (ctl : control)
    (comp : StrictWeakOrdering K) (cl_code : String) (w : World K V)
    (hN : w.keys.length = 1)
    (hs : ctl.forceRunMode ≠ e_RunMode.SerialCpu)
    (hm : ctl.forceRunMode ≠ e_RunMode.MultiCoreCpu) :
    notPowerOfTwoTest (to_size_t w.keys.length) = false
    ∧ numStagesLoop 64 (to_size_t w.keys.length) 0 = 0
    ∧ (∀ p, clampWgSize (to_size_t w.keys.length) (to_size_t p) = 0)
    ∧ (∀ kernel g l,
        Op.enqueueNDRangeKernel kernel g l
          ∉ (sort_by_key_4 .device_vector P T_keys T_values ctl comp cl_code w).2.log.drop
              w.log.length)
    ∧ (sort_by_key_4 .device_vector P T_keys T_values ctl comp cl_code w).2.keys = w.keys
    ∧ (sort_by_key_4 .device_vector P T_keys T_values ctl comp cl_code w).2.values = w.values
    ∧ ((∀ log op, P.status log op = CL_SUCCESS) →
        (∀ k1 d, (P.getWorkGroupInfo k1 d).2 = CL_SUCCESS) →
        (w.initOnlyOnce = true
          ∨ ∃ k1, P.compile (engineCompileRequest T_keys T_values ctl comp cl_code) = .ok k1) →
        (sort_by_key_4 .device_vector P T_keys T_values ctl comp cl_code w).1 = .ok ())
    ∧ (∀ n fuel, n < SIZE_T_RANGE → 64 ≤ fuel → numStagesLoop fuel n 0 = Nat.log 2 n) := by
  have hsz : to_size_t w.keys.length = 1 := by rw [hN]; decide
  have htest : notPowerOfTwoTest (to_size_t w.keys.length) = false := by rw [hsz]; decide
  have hst : numStagesLoop 64 (to_size_t w.keys.length) 0 = 0 := by rw [hsz]; decide
  have h0 : to_size_t w.keys.length ≠ 0 := by rw [hsz]; decide
  have hcall : sort_by_key_4 .device_vector P T_keys T_values ctl comp cl_code w
      = sort_by_key_enqueue P T_keys T_values ctl comp cl_code w := by
    rw [sort_by_key_4_eq]
    exact pick_iterator_device_vector_of_accelerator P T_keys T_values ctl comp cl_code w hs hm h0
  rw [hcall]
  obtain ⟨hkeys, hvalues⟩ := engine_data_of_no_stage P T_keys T_values ctl comp cl_code w hst
  refine ⟨htest, hst, ?_, ?_, hkeys, hvalues, ?_, ?_⟩
  · intro p
    rw [hsz, clampWgSize]
    by_cases hp : 1 / 2 < to_size_t p
    · rw [if_pos hp]; decide
    · rw [if_neg hp]
      have : (1 : Nat) / 2 = 0 := by decide
      omega
  · intro kernel g l hmem
    exact (launch_of_log P T_keys T_values ctl comp cl_code w kernel g l hmem).1 hst
  · intro hstatus hinfo hcompile
    exact (sort_by_key_enqueue_of_success P T_keys T_values ctl comp cl_code w htest hstatus
      hinfo hcompile).1
  · intro n fuel hn hfuel
    have hlt : n < 2 ^ fuel := by
      have h64 : SIZE_T_RANGE ≤ 2 ^ fuel := by
        unfold SIZE_T_RANGE
        exact Nat.pow_le_pow_right (by decide) hfuel
      exact Nat.lt_of_lt_of_le hn h64
    rw [numStagesLoop_eq_log fuel n 0 hlt, Nat.zero_add]

/-- C30 at the key 7 with the value `a` on a platform on which nothing fails, and
the stage count of 1000 keys. -/
theorem C30_witness :
    (notPowerOfTwoTest (to_size_t (freshWorld [7] ['a']).keys.length) = false
      ∧ numStagesLoop 64 (to_size_t (freshWorld [7] ['a']).keys.length) 0 = 0
      ∧ clampWgSize (to_size_t (freshWorld [7] ['a']).keys.length) (to_size_t 64) = 0
      ∧ (∀ kernel g l,
          Op.enqueueNDRangeKernel kernel g l
            ∉ (sort_by_key_4 .device_vector idlePlatform T_int T_char (controlWith .Automatic)
                (less T_functor) "" (freshWorld [7] ['a'])).2.log.drop
                (freshWorld [7] ['a']).log.length)
      ∧ (sort_by_key_4 .device_vector idlePlatform T_int T_char (controlWith .Automatic)
          (less T_functor) "" (freshWorld [7] ['a'])).2.keys = [7]
      ∧ (sort_by_key_4 .device_vector idlePlatform T_int T_char (controlWith .Automatic)
          (less T_functor) "" (freshWorld [7] ['a'])).2.values = ['a']
      ∧ (sort_by_key_4 .device_vector idlePlatform T_int T_char (controlWith .Automatic)
          (less T_functor) "" (freshWorld [7] ['a'])).1 = .ok ())
    ∧ numStagesLoop 64 1000 0 = Nat.log 2 1000
    ∧ numStagesLoop 64 1000 0 = 9 :=
  ⟨⟨(C30_single_key_needs_no_launch idlePlatform T_int T_char (controlWith .Automatic)
        (less T_functor) "" (freshWorld [7] ['a']) rfl (by decide) (by decide)).1,
      (C30_single_key_needs_no_launch idlePlatform T_int T_char (controlWith .Automatic)
        (less T_functor) "" (freshWorld [7] ['a']) rfl (by decide) (by decide)).2.1,
      (C30_single_key_needs_no_launch idlePlatform T_int T_char (controlWith .Automatic)
        (less T_functor) "" (freshWorld [7] ['a']) rfl (by decide) (by decide)).2.2.1 64,
      (C30_single_key_needs_no_launch idlePlatform T_int T_char (controlWith .Automatic)
        (less T_functor) "" (freshWorld [7] ['a']) rfl (by decide) (by decide)).2.2.2.1,
      (C30_single_key_needs_no_launch idlePlatform T_int T_char (controlWith .Automatic)
        (less T_functor) "" (freshWorld [7] ['a']) rfl (by decide) (by decide)).2.2.2.2.1,
      (C30_single_key_needs_no_launch idlePlatform T_int T_char (controlWith .Automatic)
        (less T_functor) "" (freshWorld [7] ['a']) rfl (by decide) (by decide)).2.2.2.2.2.1,
      (C30_single_key_needs_no_launch idlePlatform T_int T_char (controlWith .Automatic)
        (less T_functor) "" (freshWorld [7] ['a']) rfl (by decide) (by decide)).2.2.2.2.2.2.1
        (fun _ _ => rfl) (fun _ _ => rfl) (Or.inr ⟨⟨0⟩, rfl⟩)⟩,
    (C30_single_key_needs_no_launch idlePlatform T_int T_char (controlWith .Automatic)
      (less T_functor) "" (freshWorld [7] ['a']) rfl (by decide) (by decide)).2.2.2.2.2.2.2
      1000 64 (by decide) (by decide),
    by decide⟩

/-! ## Failures of platform operations -/

section ThrowingFollows

variable {K V : Type} (st : List Op → Op → Int)

/-- Doing nothing follows the empty schedule over the throwing wrapper. -/
theorem followsThrowing_nil (w : World K V) : FollowsThrowing st w (.ok (), w) [] :=
  ⟨follows_nil st w, fun _ h => by cases h⟩

/-- One call of the wrapper. -/
theorem followsThrowing_wrapperCall (w : World K V) (op : Op) (status : Int) (errStr : String)
    (hst : st w.log op = status) :
    FollowsThrowing st w (wrapperCall status op errStr w) [op] := by
  rw [wrapperCall, errHandler]
  by_cases h : status = CL_SUCCESS
  · have hq : issueUntilFailure st w.log [op] = ([op], true) := by
      rw [issueUntilFailure_cons_ok st [] (hst.trans h)]; rfl
    rw [if_pos h]
    refine ⟨⟨?_, ?_, rfl, rfl, rfl⟩, fun _ he => by cases he⟩
    · rw [hq]; rfl
    · rw [hq]; simp
  · have hq : issueUntilFailure st w.log [op] = ([op], false) :=
      issueUntilFailure_cons_fail st [] (by rw [hst]; exact h)
    rw [if_neg h]
    refine ⟨⟨?_, ?_, rfl, rfl, rfl⟩, fun e he => ?_⟩
    · rw [hq]; rfl
    · rw [hq]; simp
    · refine ⟨[], op, errStr, rfl, ?_⟩
      rw [List.append_nil, hst]
      cases he
      rfl

/-- A checked call of the wrapper ends as the call of the wrapper does: `V_OPENCL`
lets pass every status the wrapper lets through. -/
theorem checkedWrapperCall_eq (P : Platform K V) (op : Op) (errStr message : String)
    (w : World K V) :
    checkedWrapperCall P op errStr message w = wrapperCall (P.status w.log op) op errStr w := by
  rw [checkedWrapperCall, wrapperCall, errHandler]
  by_cases h : P.status w.log op = CL_SUCCESS
  · rw [if_pos h, h]
    rfl
  · rw [if_neg h]
    rfl

/-- The pattern `V_OPENCL( <platform call>, message )` over the throwing wrapper. -/
theorem followsThrowing_checkedWrapperCall (P : Platform K V) (w : World K V) (op : Op)
    (errStr message : String) (hst : st w.log op = P.status w.log op) :
    FollowsThrowing st w (checkedWrapperCall P op errStr message w) [op] := by
  rw [checkedWrapperCall_eq]
  exact followsThrowing_wrapperCall st w op _ errStr hst

/-- A kernel launch over the throwing wrapper. -/
theorem followsThrowing_launchKernel (P : Platform K V) (k : Option Kernel)
    (comp : K → K → Bool) (szElements wgSize stage passOfStage : Nat) (w : World K V)
    (hst : st w.log (.enqueueNDRangeKernel k (szElements / 2) wgSize)
      = P.status w.log (.enqueueNDRangeKernel k (szElements / 2) wgSize)) :
    FollowsThrowing st w (launchKernel_throwing P k comp szElements wgSize stage passOfStage w)
      [.enqueueNDRangeKernel k (szElements / 2) wgSize] := by
  obtain ⟨⟨hlog, hok, _, _, _⟩, herr⟩ := followsThrowing_wrapperCall st w
    (.enqueueNDRangeKernel k (szElements / 2) wgSize)
    (P.status w.log (.enqueueNDRangeKernel k (szElements / 2) wgSize))
    "clEnqueueNDRangeKernel" hst
  rw [launchKernel_throwing]
  rw [wrapperCall, errHandler] at hlog hok herr
  simp only [wrapperCall, errHandler]
  by_cases h : P.status w.log (.enqueueNDRangeKernel k (szElements / 2) wgSize) = CL_SUCCESS
  · rw [if_pos h] at hlog hok
    simp only [h, if_true]
    refine ⟨⟨hlog, ?_, rfl, rfl, rfl⟩, fun _ he => by cases he⟩
    exact ⟨fun _ => hok.mp rfl, fun _ => rfl⟩
  · rw [if_neg h] at hlog hok herr
    simp only [h, if_false]
    exact ⟨⟨hlog, hok, rfl, rfl, rfl⟩, herr⟩

/-- Sequencing follows the two schedules one after the other over the throwing
wrapper. -/
theorem followsThrowing_andThen {w : World K V} {r1 : Outcome K V}
    {f : World K V → Outcome K V} {ops1 ops2 : List Op} (h1 : FollowsThrowing st w r1 ops1)
    (h2 : r1.1 = .ok () → FollowsThrowing st r1.2 (f r1.2) ops2) :
    FollowsThrowing st w (r1.andThen f) (ops1 ++ ops2) := by
  refine ⟨follows_andThen st h1.1 (fun hok => (h2 hok).1), ?_⟩
  obtain ⟨⟨hlog, hok, -, -, -⟩, herr⟩ := h1
  rcases r1 with ⟨x, w1⟩
  cases x with
  | error e1 =>
    intro e he
    exact herr e he
  | ok u =>
    cases u
    have htrue : (issueUntilFailure st w.log ops1).2 = true := hok.mp rfl
    have hall := issueUntilFailure_all_ok st ops1 w.log htrue
    have hw1 : w1.log = w.log ++ ops1 := by rw [← hall]; exact hlog
    intro e he
    obtain ⟨pre, op, what, hl, hwhat⟩ := (h2 rfl).2 e he
    refine ⟨ops1 ++ pre, op, what, ?_, ?_⟩
    · show (f w1).2.log = w.log ++ (ops1 ++ pre ++ [op])
      rw [List.append_assoc, ← List.append_assoc w.log, ← hw1]
      exact hl
    · rw [← List.append_assoc, ← hw1]
      exact hwhat

/-- An operation issued over the throwing wrapper whose status is a failure: it
is the operation issued last, and the outcome is the wrapper's error with that
status. -/
theorem failure_of_followsThrowing {w : World K V} {r : Outcome K V} {ops : List Op}
    (h : FollowsThrowing st w r ops) (pre post : List Op) (op : Op)
    (hlog : r.2.log = w.log ++ (pre ++ op :: post))
    (hfail : st (w.log ++ pre) op ≠ CL_SUCCESS) :
    post = [] ∧ ∃ what, r.1 = .error (.cl (st (w.log ++ pre) op) what) := by
  obtain ⟨⟨hlog0, hok, -, -, -⟩, herr⟩ := h
  have hq := List.append_cancel_left (hlog0.symm.trans hlog)
  have hpost : post = [] := issueUntilFailure_failure_last st ops w.log pre op post hq hfail
  refine ⟨hpost, ?_⟩
  rcases hr : r.1 with e | u
  · obtain ⟨pre1, op1, what, hl, hwhat⟩ := herr e hr
    rw [hlog, hpost] at hl
    have hinj := List.append_inj' (List.append_cancel_left hl) rfl
    have hop : op = op1 := by
      have := hinj.2
      simp only [List.cons.injEq, and_true] at this
      exact this
    rw [hinj.1, hop]
    exact ⟨what, by rw [hwhat]⟩
  · exfalso
    cases u
    exact hfail (issueUntilFailure_ok_at st ops w.log pre op post (hok.mp hr) hq)

end ThrowingFollows

section ThrowingEngine

variable {K V : Type} (P : Platform K V) (kst : Option Kernel) (device : Nat)

/-- The pass loop over the throwing wrapper follows the schedule of its passes. -/
theorem followsThrowing_passLoop (k : Option Kernel) (comp : K → K → Bool)
    (szElements wgSize stage : Nat) :
    ∀ (fuel passOfStage : Nat) (w : World K V), fuel + passOfStage = stage + 1 →
      FollowsThrowing (platformStatus P kst device) w
        (passLoop_throwing P k comp szElements wgSize stage fuel passOfStage w)
        (passOps k (szElements / 2) wgSize passOfStage fuel) := by
  intro fuel
  induction fuel with
  | zero =>
    intro p w _
    rw [passLoop_throwing, passOps]
    exact followsThrowing_nil _ w
  | succ n ih =>
    intro p w h
    have hlt : p < stage + 1 := by omega
    have hops : passOps k (szElements / 2) wgSize p (n + 1)
        = [Op.setArg 3 (.uint p)] ++ ([Op.enqueueNDRangeKernel k (szElements / 2) wgSize]
            ++ ([Op.finish] ++ passOps k (szElements / 2) wgSize (p + 1) n)) := rfl
    rw [passLoop_throwing, if_pos hlt, hops]
    apply followsThrowing_andThen
    · exact followsThrowing_checkedWrapperCall _ P w _ _ _ rfl
    · intro _
      apply followsThrowing_andThen
      · exact followsThrowing_launchKernel _ P k comp szElements wgSize stage p _ rfl
      · intro _
        apply followsThrowing_andThen
        · exact followsThrowing_checkedWrapperCall _ P _ _ _ _ rfl
        · intro _
          exact ih (p + 1) _ (by omega)

/-- The stage loop over the throwing wrapper follows the schedule of its
stages. -/
theorem followsThrowing_stageLoop (k : Option Kernel) (comp : K → K → Bool)
    (szElements wgSize numStages : Nat) :
    ∀ (fuel stage : Nat) (w : World K V), fuel + stage = numStages →
      FollowsThrowing (platformStatus P kst device) w
        (stageLoop_throwing P k comp szElements wgSize numStages fuel stage w)
        (stageOps k (szElements / 2) wgSize stage fuel) := by
  intro fuel
  induction fuel with
  | zero =>
    intro s w _
    rw [stageLoop_throwing, stageOps]
    exact followsThrowing_nil _ w
  | succ n ih =>
    intro s w h
    have hlt : s < numStages := by omega
    have hops : stageOps k (szElements / 2) wgSize s (n + 1)
        = [Op.setArg 2 (.uint s)] ++ (passOps k (szElements / 2) wgSize 0 (s + 1)
            ++ stageOps k (szElements / 2) wgSize (s + 1) n) := rfl
    rw [stageLoop_throwing, if_pos hlt, hops]
    apply followsThrowing_andThen
    · exact followsThrowing_checkedWrapperCall _ P w _ _ _ rfl
    · intro _
      apply followsThrowing_andThen
      · exact followsThrowing_passLoop P kst device k comp szElements wgSize s (s + 1) 0 _ rfl
      · intro _
        exact ih (s + 1) _ (by omega)

/-- A status that `V_OPENCL` lets pass, then the rest. -/
theorem followsThrowing_V_OPENCL (st : List Op → Op → Int) (w : World K V) (status : Int)
    (message : String) (f : World K V → Outcome K V) (ops : List Op)
    (hs : status = CL_SUCCESS) (h : FollowsThrowing st w (f w) ops) :
    FollowsThrowing st w (Outcome.andThen (V_OPENCL status message, w) f) ops := by
  have hv : V_OPENCL status message = .ok () := (V_OPENCL_eq_ok_iff status message).mpr hs
  rw [hv]
  exact h

/-- The engine over the throwing wrapper after the compile follows the rest of
the schedule. -/
theorem followsThrowing_engineTail (ctl : control) (comp : StrictWeakOrdering K)
    (szElements : Nat) (w1 : World K V) :
    FollowsThrowing (platformStatus P w1.masterKernel ctl.device) w1
      (engineTail_throwing P ctl comp szElements w1)
      ([Op.getWorkGroupInfo, .createUserFunctorBuffer, .setArg 0 (.buffer .Keys),
          .setArg 1 (.buffer .Values), .setArg 4 .userFunctor]
        ++ stageOps w1.masterKernel (szElements / 2)
            (clampWgSize szElements
              (to_size_t (P.getWorkGroupInfo w1.masterKernel ctl.device).1))
            0 (numStagesLoop 64 szElements 0)
        ++ [.enqueueMapBuffer .Keys, .enqueueMapBuffer .Values]) := by
  have hops : ([Op.getWorkGroupInfo, .createUserFunctorBuffer, .setArg 0 (.buffer .Keys),
          .setArg 1 (.buffer .Values), .setArg 4 .userFunctor]
        ++ stageOps w1.masterKernel (szElements / 2)
            (clampWgSize szElements
              (to_size_t (P.getWorkGroupInfo w1.masterKernel ctl.device).1))
            0 (numStagesLoop 64 szElements 0)
        ++ [.enqueueMapBuffer .Keys, .enqueueMapBuffer .Values])
      = [Op.getWorkGroupInfo] ++ ([Op.createUserFunctorBuffer]
          ++ ([Op.setArg 0 (.buffer .Keys)]
          ++ ([Op.setArg 1 (.buffer .Values)] ++ ([Op.setArg 4 .userFunctor]
          ++ (stageOps w1.masterKernel (szElements / 2)
                (clampWgSize szElements
                  (to_size_t (P.getWorkGroupInfo w1.masterKernel ctl.device).1))
                0 (numStagesLoop 64 szElements 0)
              ++ ([Op.enqueueMapBuffer .Keys] ++ [Op.enqueueMapBuffer .Values])))))) := by
    simp only [List.cons_append, List.nil_append, List.append_assoc]
  rw [hops, engineTail_throwing]
  apply followsThrowing_andThen
  · exact followsThrowing_wrapperCall _ w1 .getWorkGroupInfo _ _ rfl
  · intro hq
    have hs : (P.getWorkGroupInfo w1.masterKernel ctl.device).2 = CL_SUCCESS := by
      by_contra hne
      rw [wrapperCall, errHandler, if_neg hne] at hq
      cases hq
    apply followsThrowing_V_OPENCL _ _ _ _ _ _ hs
    apply followsThrowing_andThen
    · exact followsThrowing_wrapperCall _ _ .createUserFunctorBuffer _ _ rfl
    · intro _
      apply followsThrowing_andThen
      · exact followsThrowing_checkedWrapperCall _ P _ _ _ _ rfl
      · intro _
        apply followsThrowing_andThen
        · exact followsThrowing_checkedWrapperCall _ P _ _ _ _ rfl
        · intro _
          apply followsThrowing_andThen
          · exact followsThrowing_checkedWrapperCall _ P _ _ _ _ rfl
          · intro _
            apply followsThrowing_andThen
            · exact followsThrowing_stageLoop P _ _ _ comp.call szElements _ _ _ 0 _ rfl
            · intro _
              apply followsThrowing_andThen
              · exact followsThrowing_wrapperCall _ _ (.enqueueMapBuffer .Keys) _ _ rfl
              · intro _
                exact followsThrowing_checkedWrapperCall _ P _ _ _ _ rfl

/-- The engine over the throwing wrapper is its size test, the once-only compile
and the rest. -/
theorem sort_by_key_enqueue_throwing_eq (T_keys T_values : TypeTraits) (ctl : control)
    (comp : StrictWeakOrdering K) (cl_code : String) (w : World K V) :
    sort_by_key_enqueue_throwing P T_keys T_values ctl comp cl_code w
      = if notPowerOfTwoTest (to_size_t w.keys.length) then
          (.error unsupportedSizeError, w.print unsupportedSizeNotice)
        else
          (call_once
            (CallCompiler_SortByKey.constructAndCompile P
              (cl_code ++ T_keys.ClCode ++ T_values.ClCode)
              T_keys.TypeName T_values.TypeName comp.traits.TypeName ctl) w).andThen
            (engineTail_throwing P ctl comp (to_size_t w.keys.length)) := by
  rw [sort_by_key_enqueue_throwing]
  rfl

/-- Two status functions that agree on the operations of a schedule issue the
same operations of it. -/
theorem issueUntilFailure_congr (st1 st2 : List Op → Op → Int) :
    ∀ (ops log : List Op), (∀ op ∈ ops, ∀ log1, st1 log1 op = st2 log1 op) →
      issueUntilFailure st1 log ops = issueUntilFailure st2 log ops := by
  intro ops
  induction ops with
  | nil => intro log _; rfl
  | cons x xs ih =>
    intro log h
    have hx := h x (List.mem_cons_self x xs) log
    have hxs := ih (log ++ [x]) (fun op hop => h op (List.mem_cons_of_mem x hop))
    by_cases hop : st1 log x = CL_SUCCESS
    · rw [issueUntilFailure_cons_ok st1 xs hop, issueUntilFailure_cons_ok st2 xs (hx ▸ hop), hxs]
    · rw [issueUntilFailure_cons_fail st1 xs hop,
        issueUntilFailure_cons_fail st2 xs (hx ▸ hop)]

/-- On a platform on which the two calls whose status the source does not read
succeed, the engine over the throwing wrapper issues after the compile the
operations `sort_by_key_enqueue` issues, and returns normally exactly when it
does. -/
theorem engineTail_throwing_agrees (ctl : control) (comp : StrictWeakOrdering K)
    (szElements : Nat) (w1 : World K V)
    (hcreate : ∀ log, P.status log .createUserFunctorBuffer = CL_SUCCESS)
    (hmap : ∀ log, P.status log (.enqueueMapBuffer .Keys) = CL_SUCCESS) :
    (engineTail_throwing P ctl comp szElements w1).2.log
        = (engineTail P ctl comp szElements w1).2.log
    ∧ ((engineTail_throwing P ctl comp szElements w1).1 = .ok ()
        ↔ (engineTail P ctl comp szElements w1).1 = .ok ()) := by
  obtain ⟨⟨hlog1, hok1, -, -, -⟩, -⟩ := followsThrowing_engineTail P ctl comp szElements w1
  obtain ⟨hlog2, hok2, -, -, -⟩ := follows_engineTail P ctl comp szElements w1
  have hsame := issueUntilFailure_congr
    (platformStatus P w1.masterKernel ctl.device) (engineStatus P w1.masterKernel ctl.device)
    ([Op.getWorkGroupInfo, .createUserFunctorBuffer, .setArg 0 (.buffer .Keys),
        .setArg 1 (.buffer .Values), .setArg 4 .userFunctor]
      ++ stageOps w1.masterKernel (szElements / 2)
          (clampWgSize szElements
            (to_size_t (P.getWorkGroupInfo w1.masterKernel ctl.device).1))
          0 (numStagesLoop 64 szElements 0)
      ++ [.enqueueMapBuffer .Keys, .enqueueMapBuffer .Values]) w1.log (by
    intro op hop log1
    simp only [List.mem_append, List.mem_cons] at hop
    rcases hop with ((h | h | h | h | h | h) | h) | (h | h | h)
    · rw [h]; rfl
    · rw [h]; exact hcreate log1
    · rw [h]; rfl
    · rw [h]; rfl
    · rw [h]; rfl
    · simp at h
    · rcases mem_stageOps _ _ _ _ _ _ h with ⟨q, hq⟩ | ⟨q, hq⟩ | hq | hq <;> (rw [hq]; rfl)
    · rw [h]; exact hmap log1
    · rw [h]; rfl
    · simp at h)
  rw [hsame] at hlog1 hok1
  exact ⟨hlog1.trans hlog2.symm, hok1.trans hok2.symm⟩

/-- On a platform on which the two calls whose status the source does not read
succeed, the engine over the throwing wrapper issues the operations
`sort_by_key_enqueue` issues and returns normally exactly when it does: the
wrapper's throw and that of `V_OPENCL` end a call at the same operation. -/
theorem sort_by_key_enqueue_throwing_agrees (T_keys T_values : TypeTraits) (ctl : control)
    (comp : StrictWeakOrdering K) (cl_code : String) (w : World K V)
    (hcreate : ∀ log, P.status log .createUserFunctorBuffer = CL_SUCCESS)
    (hmap : ∀ log, P.status log (.enqueueMapBuffer .Keys) = CL_SUCCESS) :
    (sort_by_key_enqueue_throwing P T_keys T_values ctl comp cl_code w).2.log
        = (sort_by_key_enqueue P T_keys T_values ctl comp cl_code w).2.log
    ∧ ((sort_by_key_enqueue_throwing P T_keys T_values ctl comp cl_code w).1 = .ok ()
        ↔ (sort_by_key_enqueue P T_keys T_values ctl comp cl_code w).1 = .ok ()) := by
  rw [sort_by_key_enqueue_throwing_eq, sort_by_key_enqueue_eq]
  by_cases htest : notPowerOfTwoTest (to_size_t w.keys.length) = true
  · rw [if_pos htest, if_pos htest]
    exact ⟨rfl, Iff.rfl⟩
  · rw [if_neg htest, if_neg htest]
    rcases call_once
        (CallCompiler_SortByKey.constructAndCompile P
          (cl_code ++ T_keys.ClCode ++ T_values.ClCode)
          T_keys.TypeName T_values.TypeName comp.traits.TypeName ctl) w with ⟨⟨e⟩ | ⟨⟨⟩⟩, w1⟩
    · exact ⟨rfl, Iff.rfl⟩
    · exact engineTail_throwing_agrees P ctl comp (to_size_t w.keys.length) w1 hcreate hmap

end ThrowingEngine

/-- C18. One call of the engine over the OpenCL wrapper's exceptions, however it
ends, and an operation `op` it has issued that is an argument bind, a kernel
launch, a `finish` or a map of the keys or of the values buffer, with `pre` the
operations of the call before it and `post` those after it. If the platform
reported a failure for `op`, nothing was issued after it and the call ends with
an `::cl::Error` whose code is the status the platform reported. That holds for
the map of the keys buffer too, whose status the source does not read: the
wrapper throws before the map of the values buffer is issued, whatever that
map would have reported. -/
theorem C18_failed_platform_operation_fails_the_call {K V : Type} (P : Platform K V)
    (T_keys T_values : TypeTraits) (ctl : control) (comp : StrictWeakOrdering K)
    (cl_code : String) (w : World K V) (pre post : List Op) (op : Op)
    (hop : (∃ index arg, op = .setArg index arg) ∨ op.isLaunch = true ∨ op = .finish
      ∨ ∃ b, op = .enqueueMapBuffer b)
    (hlog : (sort_by_key_enqueue_throwing P T_keys T_values ctl comp cl_code w).2.log
      = w.log ++ (pre ++ op :: post))
    (hfail : P.status (w.log ++ pre) op ≠ CL_SUCCESS) :
    post = []
    ∧ ∃ what, (sort_by_key_enqueue_throwing P T_keys T_values ctl comp cl_code w).1
        = .error (.cl (P.status (w.log ++ pre) op) what) := by
  have hst : ∀ k1 d log, platformStatus P k1 d log op = P.status log op := by
    intro k1 d log
    rcases hop with ⟨index, arg, h⟩ | h | h | ⟨b, h⟩
    · rw [h]; rfl
    · cases op <;> first | rfl | cases h
    · rw [h]; rfl
    · rw [h]; rfl
  have hnc : op.isCompile = false := by
    rcases hop with ⟨index, arg, h⟩ | h | h | ⟨b, h⟩
    · rw [h]; rfl
    · cases op <;> first | rfl | cases h
    · rw [h]; rfl
    · rw [h]; rfl
  by_cases htest : notPowerOfTwoTest (to_size_t w.keys.length) = true
  · rw [sort_by_key_enqueue_throwing_eq, if_pos htest] at hlog
    have hnil : pre ++ op :: post = [] := List.self_eq_append_right.mp hlog
    exact absurd hnil (by simp)
  · rw [sort_by_key_enqueue_throwing_eq, if_neg htest, call_once_compile_eq] at hlog ⊢
    by_cases hflag : w.initOnlyOnce = true
    · rw [if_pos hflag] at hlog ⊢
      have h := failure_of_followsThrowing _
        (followsThrowing_engineTail P ctl comp (to_size_t w.keys.length) w) pre post op hlog
        (by rw [hst]; exact hfail)
      rw [hst] at h
      exact h
    · rw [if_neg hflag] at hlog ⊢
      rcases hcomp : P.compile (engineCompileRequest T_keys T_values ctl comp cl_code) with d | k
      · rw [hcomp] at hlog
        exfalso
        have hq : [Op.constructAndCompileString
            (engineCompileRequest T_keys T_values ctl comp cl_code)] = pre ++ op :: post :=
          List.append_cancel_left hlog
        cases pre with
        | nil =>
          rw [List.nil_append, List.cons.injEq] at hq
          rw [← hq.1] at hnc
          cases hnc
        | cons y pre1 =>
          rw [List.cons_append, List.cons.injEq] at hq
          exact absurd hq.2.symm (by simp)
      · rw [hcomp] at hlog
        have hF := followsThrowing_engineTail P ctl comp (to_size_t w.keys.length)
          { w.issue (.constructAndCompileString
              (engineCompileRequest T_keys T_values ctl comp cl_code)) with
            masterKernel := some k, initOnlyOnce := true }
        have hlog0 := hF.1.1
        have hq : Op.constructAndCompileString
              (engineCompileRequest T_keys T_values ctl comp cl_code)
            :: (issueUntilFailure (platformStatus P (some k) ctl.device)
                (w.log ++ [Op.constructAndCompileString
                  (engineCompileRequest T_keys T_values ctl comp cl_code)])
                ([Op.getWorkGroupInfo, .createUserFunctorBuffer, .setArg 0 (.buffer .Keys),
                    .setArg 1 (.buffer .Values), .setArg 4 .userFunctor]
                  ++ stageOps (some k) (to_size_t w.keys.length / 2)
                      (clampWgSize (to_size_t w.keys.length)
                        (to_size_t (P.getWorkGroupInfo (some k) ctl.device).1))
                      0 (numStagesLoop 64 (to_size_t w.keys.length) 0)
                  ++ [.enqueueMapBuffer .Keys, .enqueueMapBuffer .Values])).1
            = pre ++ op :: post := by
          refine @List.append_cancel_left _ w.log _ _ ?_
          rw [← hlog, ← List.singleton_append, ← List.append_assoc]
          exact hlog0.symm
        cases pre with
        | nil =>
          exfalso
          rw [List.nil_append, List.cons.injEq] at hq
          rw [← hq.1] at hnc
          cases hnc
        | cons y pre1 =>
          have hq := List.cons_eq_cons.mp (hq.trans (List.cons_append y pre1 (op :: post)))
          have hlog1 : (engineTail_throwing P ctl comp (to_size_t w.keys.length)
              { w.issue (.constructAndCompileString
                  (engineCompileRequest T_keys T_values ctl comp cl_code)) with
                masterKernel := some k, initOnlyOnce := true }).2.log
              = (w.log ++ [Op.constructAndCompileString
                  (engineCompileRequest T_keys T_values ctl comp cl_code)])
                ++ (pre1 ++ op :: post) := by
            rw [← hq.2]
            exact hlog0
          have hpre : (w.log ++ [Op.constructAndCompileString
                (engineCompileRequest T_keys T_values ctl comp cl_code)]) ++ pre1
              = w.log ++ y :: pre1 := by
            rw [hq.1, List.append_assoc, List.singleton_append]
          have h := failure_of_followsThrowing _ hF pre1 post op hlog1 (by
            show platformStatus P (some k) ctl.device
              ((w.log ++ [Op.constructAndCompileString
                (engineCompileRequest T_keys T_values ctl comp cl_code)]) ++ pre1) op
              ≠ CL_SUCCESS
            rw [hst, hpre]; exact hfail)
          have h2 : platformStatus P (some k) ctl.device
              ((w.log ++ [Op.constructAndCompileString
                (engineCompileRequest T_keys T_values ctl comp cl_code)]) ++ pre1) op
              = P.status (w.log ++ y :: pre1) op := by
            rw [hst, hpre]
          obtain ⟨hpost, what, hwhat⟩ := h
          refine ⟨hpost, what, ?_⟩
          rw [← h2]
          exact hwhat

/-- C18 at a call on two keys with the kernel already compiled, on a platform on
which the map of the keys buffer fails and the map of the values buffer would
succeed: the map of the keys buffer is the last operation issued, the map of
the values buffer is not issued, and the call ends with an `::cl::Error` that
carries the status of the map of the keys buffer. -/
theorem C18_witness :
    (∀ log, mapFailurePlatform.status log (.enqueueMapBuffer .Values) = CL_SUCCESS)
    ∧ (sort_by_key_enqueue_throwing mapFailurePlatform T_int T_char
          (controlWith .Automatic) (less T_functor) "" (warmWorld [2, 1] ['a', 'b'])).2.log
        = (warmWorld [2, 1] ['a', 'b']).log
          ++ ([Op.getWorkGroupInfo, .createUserFunctorBuffer, .setArg 0 (.buffer .Keys),
                .setArg 1 (.buffer .Values), .setArg 4 .userFunctor, .setArg 2 (.uint 0),
                .setArg 3 (.uint 0), .enqueueNDRangeKernel (some ⟨0⟩) 1 1, .finish]
              ++ Op.enqueueMapBuffer .Keys :: [])
    ∧ mapFailurePlatform.status
        ((warmWorld [2, 1] ['a', 'b']).log
          ++ [Op.getWorkGroupInfo, .createUserFunctorBuffer, .setArg 0 (.buffer .Keys),
              .setArg 1 (.buffer .Values), .setArg 4 .userFunctor, .setArg 2 (.uint 0),
              .setArg 3 (.uint 0), .enqueueNDRangeKernel (some ⟨0⟩) 1 1, .finish])
        (.enqueueMapBuffer .Keys) = CL_MAP_FAILURE
    ∧ (sort_by_key_enqueue_throwing mapFailurePlatform T_int T_char
          (controlWith .Automatic) (less T_functor) "" (warmWorld [2, 1] ['a', 'b'])).1
        = .error (.cl CL_MAP_FAILURE "clEnqueueMapBuffer")
    ∧ ([] : List Op) = []
    ∧ ∃ what, (sort_by_key_enqueue_throwing mapFailurePlatform T_int T_char
          (controlWith .Automatic) (less T_functor) "" (warmWorld [2, 1] ['a', 'b'])).1
        = .error (.cl (mapFailurePlatform.status
            ((warmWorld [2, 1] ['a', 'b']).log
              ++ [Op.getWorkGroupInfo, .createUserFunctorBuffer, .setArg 0 (.buffer .Keys),
                  .setArg 1 (.buffer .Values), .setArg 4 .userFunctor, .setArg 2 (.uint 0),
                  .setArg 3 (.uint 0), .enqueueNDRangeKernel (some ⟨0⟩) 1 1, .finish])
            (.enqueueMapBuffer .Keys)) what) :=
  ⟨fun _ => rfl, by decide, rfl, by decide,
    C18_failed_platform_operation_fails_the_call mapFailurePlatform T_int T_char
      (controlWith .Automatic) (less T_functor) "" (warmWorld [2, 1] ['a', 'b'])
      [Op.getWorkGroupInfo, .createUserFunctorBuffer, .setArg 0 (.buffer .Keys),
        .setArg 1 (.buffer .Values), .setArg 4 .userFunctor, .setArg 2 (.uint 0),
        .setArg 3 (.uint 0), .enqueueNDRangeKernel (some ⟨0⟩) 1 1, .finish]
      [] (.enqueueMapBuffer .Keys) (Or.inr (Or.inr (Or.inr ⟨.Keys, rfl⟩))) (by decide)
      (by decide)⟩

end bolt.cl
